import Mathlib

/-!
# Private shared-library loader (`core/linux/loader.c`)

A shallow embedding of the private ELF loader of the instrumentation runtime:
the symbol-redirection table, the static TLS layout, the `__tls_get_addr`
replacement, the init/fini sequencer, the lifecycle driver, the dependency
loader, the search-path resolver, the segment mapper and the unmapping of a
module, the per-thread TLS block and the registration of TLS modules.

Conventions of the embedding.

* Addresses, sizes and function pointers are natural numbers; `NULL` is `0`.
  Where the C code computes in a machine type the reduction is written out
  (`% 2 ^ w`, or the signed reading `to_int`).
* A C string is the Lean `String` of its bytes before the terminating NUL.
* Calls into foreign code (library initialisers and finalisers) and into
  collaborators outside `loader.c` are recorded in a trace of events, in the
  order in which the C code performs them.
* Code that lives outside `loader.c` (headers, `loader_shared.c`) is either a
  parameter of the definition that uses it or a definition whose doc comment
  starts with `Modelled from the spec:`.
* An `ASSERT` that guards an array index, and a dereference of `NULL`, make the
  embedded function fail (`none`).  An `ASSERT` on a computed value changes no
  state and is a Boolean definition of its own.
* Memory is a function from addresses to bytes.  A copy or a fill writes the
  range `[dst, dst + n)` of natural numbers; a range that would pass the top of
  the address space is not wrapped around.
-/

namespace loader

/-! ## Function redirection (`redirect_imports`, `privload_redirect_sym`) -/

/-- `ELF_ADDR`: an address-sized unsigned integer. -/
abbrev ELF_ADDR := Nat

/-- `app_pc`: a code address. -/
abbrev app_pc := Nat

/-- The runtime routines whose addresses are stored in `redirect_imports`. -/
inductive redirect_func where
  | redirect_calloc
  | redirect_malloc
  | redirect_free
  | redirect_realloc
  | redirect___tls_get_addr
  deriving DecidableEq, Repr

/-- `redirect_import_t`: an imported name and the routine that replaces it. -/
structure redirect_import_t where
  name : String
  func : redirect_func
  deriving DecidableEq, Repr

/-- `redirect_imports[]`, in the order of the source. -/
def redirect_imports : List redirect_import_t :=
  [ ⟨"calloc", redirect_func.redirect_calloc⟩,
    ⟨"malloc", redirect_func.redirect_malloc⟩,
    ⟨"free", redirect_func.redirect_free⟩,
    ⟨"realloc", redirect_func.redirect_realloc⟩,
    ⟨"__tls_get_addr", redirect_func.redirect___tls_get_addr⟩ ]

/-- `REDIRECT_IMPORTS_NUM`. -/
def REDIRECT_IMPORTS_NUM : Nat := redirect_imports.length

/-- The loop of `privload_redirect_sym` over the entries of the table that are
still to be visited: the first entry whose name compares equal under `strcmp`
stores its address through `r_addr` and returns `true`; running off the end
returns `false` and leaves `*r_addr` as it was.  `addr` gives the address of
each replacement routine (the cast `(app_pc)redirect_xxx`). -/
def privload_redirect_sym_loop (addr : redirect_func → app_pc) (name : String)
    (r_addr : ELF_ADDR) : List redirect_import_t → Bool × ELF_ADDR
  | [] => (false, r_addr)
  | e :: rest =>
    if e.name = name then (true, addr e.func)
    else privload_redirect_sym_loop addr name r_addr rest

/-- `privload_redirect_sym(r_addr, name)`: the result is the returned flag and
the value of `*r_addr` on return. -/
def privload_redirect_sym (addr : redirect_func → app_pc) (r_addr : ELF_ADDR)
    (name : String) : Bool × ELF_ADDR :=
  privload_redirect_sym_loop addr name r_addr redirect_imports


/-! ## Machine integers -/

/-- Width in bits of a pointer, of `size_t` and of `ptr_uint_t`: 64 when the
build defines `X64`, 32 otherwise. -/
def ptr_bits (X64 : Bool) : Nat := if X64 then 64 else 32

/-- Conversion of an integer value to `size_t` / `ptr_uint_t` / a pointer:
reduction modulo `2 ^ ptr_bits`. -/
def to_size_t (X64 : Bool) (z : Int) : Nat := (z % (2 : Int) ^ ptr_bits X64).toNat

/-- Conversion of an unsigned value to `int`: the two's-complement reading of
its low 32 bits. -/
def to_int (n : Nat) : Int :=
  if n % 2 ^ 32 < 2 ^ 31 then ((n % 2 ^ 32 : Nat) : Int) else ((n % 2 ^ 32 : Nat) : Int) - 2 ^ 32

/-- Unary minus on a `uint`. -/
def neg_uint (n : Nat) : Nat := (2 ^ 32 - n % 2 ^ 32) % 2 ^ 32

/-- Subtraction on `uint`. -/
def sub_uint (a b : Nat) : Nat := (a % 2 ^ 32 + (2 ^ 32 - b % 2 ^ 32)) % 2 ^ 32

/-- Modelled from the spec: `ALIGN_FORWARD(x, alignment)` (the spec's
`ALIGN_UP`) is a macro of a header outside `loader.c`.  It
rounds `x`, taken as a `ptr_uint_t`, up to the next multiple of `alignment`. -/
def ALIGN_FORWARD (X64 : Bool) (x alignment : Nat) : Nat :=
  (x + (alignment - 1)) % 2 ^ ptr_bits X64 / alignment * alignment

/-! ## Modules -/

/-- `fp_t`: pointer to an initialiser or finaliser; `0` is `NULL`. -/
abbrev fp_t := Nat

/-- `ELF_DYNAMIC_ENTRY_TYPE`: an entry of the dynamic section, with its tag and
the value of its union. -/
structure ELF_DYNAMIC_ENTRY_TYPE where
  d_tag : Int
  d_val : Nat
  deriving DecidableEq, Repr

/-- `DT_NULL`, the tag that ends the dynamic section. -/
def DT_NULL : Int := 0

/-- `DT_NEEDED`, the tag of a needed library. -/
def DT_NEEDED : Int := 1

/-- `module_segment_t`, restricted to the bounds of the segment; the field `end`
of the C structure is `end_addr` here. -/
structure module_segment_t where
  start : Nat
  end_addr : Nat
  deriving DecidableEq, Repr

/-- `os_privmod_data_t`, restricted to the fields that `loader.c` reads in the
functions embedded here.  The type is declared in a header outside `loader.c`;
the TLS fields are unsigned 32-bit integers (`uint`), the
array sizes are byte counts of arrays that are mapped in memory, so that the
`uint` counters of the loops over them do not wrap.  An array pointer is `none`
when it is `NULL`, otherwise it gives the word stored at each index from the
pointer on; indices at or beyond `..._arraysz / sizeof(fp_t)` lie outside the
array.  `dyn` lists the entries of the dynamic section from `opd->dyn` on, as
far as they are mapped; `dynstr` gives the string that starts at an offset of
the dynamic string table `opd->os_data.dynstr`; `tls_image` gives the byte
stored at each index from the pointer `opd->tls_image` on; `segments` lists
`opd->os_data.segments[0 .. num_segments)`. -/
structure os_privmod_data_t where
  dyn : List ELF_DYNAMIC_ENTRY_TYPE
  dynstr : Nat → String
  init : fp_t
  fini : fp_t
  init_array : Option (Nat → fp_t)
  fini_array : Option (Nat → fp_t)
  init_arraysz : Nat
  fini_arraysz : Nat
  tls_block_size : Nat
  tls_align : Nat
  tls_modid : Nat
  tls_image_size : Nat
  tls_first_byte : Nat
  tls_image : Nat → Nat
  segments : List module_segment_t

/-- `privmod_t`, restricted to the fields that `loader.c` reads in the functions
embedded here. -/
structure privmod_t where
  name : String
  externally_loaded : Bool
  os_privmod_data : os_privmod_data_t

/-! ## Static TLS layout (`tls_info`, `privload_set_tls_offset`) -/

/-- `MAX_NUM_TLS_MOD`. -/
def MAX_NUM_TLS_MOD : Nat := 64

/-- `APP_LIBC_TLS_SIZE`: the size reserved for the application's libc TLS. -/
def APP_LIBC_TLS_SIZE : Nat := 0x100

/-- `tls_info_t`.  The array `mods` together with its fill count `num_mods` is
the list of the registered modules, `mods[0]` first; `offs` is the array
`int offs[MAX_NUM_TLS_MOD]`. -/
structure tls_info_t where
  mods : List privmod_t
  offset : Int
  max_align : Int
  offs : Nat → Int

/-- `tls_info.num_mods`. -/
def tls_info_t.num_mods (t : tls_info_t) : Nat := t.mods.length

/-- Build flags and runtime options read by the loader. -/
structure options_t where
  X64 : Bool
  CLIENT_INTERFACE : Bool
  private_loader : Bool
  client_lib_tls_size : Nat
  PAGE_SIZE : Nat

/-- `int first_byte = -opd->tls_first_byte & (opd->tls_align - 1);` -/
def tls_first_byte_pad (opd : os_privmod_data_t) : Int :=
  to_int (neg_uint opd.tls_first_byte &&& sub_uint opd.tls_align 1)

/-- The body of the loop of `privload_set_tls_offset`: the new value of the
local `size_t offset`. -/
def tls_offset_step (X64 : Bool) (offset : Nat) (opd : os_privmod_data_t) : Nat :=
  to_size_t X64
    (tls_first_byte_pad opd +
      (ALIGN_FORWARD X64
        (to_size_t X64 ((offset : Int) + (opd.tls_block_size : Int) + tls_first_byte_pad opd))
        opd.tls_align : Nat))

/-- The loop `for (i = 0; i < tls_info.num_mods; i++)` of
`privload_set_tls_offset`, from the index `i` on: the first argument is
`mods[i ..]`, the result is the final value of the local `offset` and the array
`offs`. -/
def privload_set_tls_offset_loop (X64 : Bool) :
    List privmod_t → Nat → Nat → (Nat → Int) → Nat × (Nat → Int)
  | [], _, offset, offs => (offset, offs)
  | m :: rest, i, offset, offs =>
    let offset' := tls_offset_step X64 offset m.os_privmod_data
    privload_set_tls_offset_loop X64 rest (i + 1) offset' (Function.update offs i (to_int offset'))

/-- `privload_set_tls_offset()`, on the globals it touches: the result is the
new `max_client_tls_size` and the new `tls_info`.  The function returns at once
when the private loader is switched off.  The closing `ASSERT`, which changes
no state, is `privload_set_tls_offset_assert`. -/
def privload_set_tls_offset (o : options_t) (max_client_tls_size : Nat) (tls_info : tls_info_t) :
    Nat × tls_info_t :=
  if (if o.CLIENT_INTERFACE then !o.private_loader else true) then
    (max_client_tls_size, tls_info)
  else
    let max' :=
      if o.CLIENT_INTERFACE then to_size_t o.X64 ((o.client_lib_tls_size : Int) * o.PAGE_SIZE)
      else o.PAGE_SIZE
    let r := privload_set_tls_offset_loop o.X64 tls_info.mods 0 APP_LIBC_TLS_SIZE tls_info.offs
    (max', { tls_info with offs := r.2, offset := to_int r.1 })

/-- The condition of the closing `ASSERT(offset <= max_client_tls_size - tcb_size)`
of `privload_set_tls_offset`, on the final value of the local `offset`. -/
def privload_set_tls_offset_assert (X64 : Bool) (offset max_client_tls_size tcb_size : Nat) : Bool :=
  decide (offset ≤ to_size_t X64 ((max_client_tls_size : Int) - tcb_size))

/-- The layout recurrence in the words of the spec, over the natural numbers
without any wrap-around: `first_byte = (-tls_first_byte) & (tls_align - 1)`. -/
def spec_first_byte (opd : os_privmod_data_t) : Nat :=
  (opd.tls_align - opd.tls_first_byte % opd.tls_align) % opd.tls_align

/-- The layout recurrence in the words of the spec:
`offset = first_byte + ALIGN_UP(offset + tls_block_size + first_byte, tls_align)`. -/
def spec_offset_step (offset : Nat) (opd : os_privmod_data_t) : Nat :=
  spec_first_byte opd +
    (offset + opd.tls_block_size + spec_first_byte opd + (opd.tls_align - 1))
      / opd.tls_align * opd.tls_align

/-- The offsets `offs[0], offs[1], ...` that the recurrence of the spec assigns
to a list of modules, starting from `offset`. -/
def spec_tls_offsets : Nat → List privmod_t → List Nat
  | _, [] => []
  | offset, m :: rest =>
    spec_offset_step offset m.os_privmod_data ::
      spec_tls_offsets (spec_offset_step offset m.os_privmod_data) rest

/-! ## The `__tls_get_addr` replacement -/

/-- `tls_index_t`. -/
structure tls_index_t where
  ti_module : Nat
  ti_offset : Nat

/-- `redirect___tls_get_addr(ti)`.  `seg_base` is the value of
`os_get_dr_seg_base(NULL, LIB_SEG_TLS)`.  The result is `none` when the
`ASSERT` on the module id fails, otherwise the pointer
`seg_base - tls_info.offs[ti->ti_module] + ti->ti_offset`. -/
def redirect___tls_get_addr (X64 : Bool) (seg_base : Nat) (tls_info : tls_info_t)
    (ti : tls_index_t) : Option Nat :=
  if ti.ti_module < tls_info.num_mods then
    some (to_size_t X64 ((seg_base : Int) - tls_info.offs ti.ti_module + (ti.ti_offset : Int)))
  else none

/-- Pointer arithmetic `p + n` on a byte pointer. -/
def ptr_add (X64 : Bool) (p n : Nat) : Nat := (p + n) % 2 ^ ptr_bits X64

/-- `tls_block_size` of the module registered under the TLS module id `i`
(`0` when no module has that id). -/
def tls_block_size_of (t : tls_info_t) (i : Nat) : Nat :=
  match t.mods[i]? with
  | some m => m.os_privmod_data.tls_block_size
  | none => 0

/-- The address `a` lies in the static TLS block of module `i` for the thread
pointer `tp`: the byte range `[tp - offs[i], tp - offs[i] + tls_block_size_i)`. -/
def in_tls_block (t : tls_info_t) (tp : Int) (i : Nat) (a : Int) : Prop :=
  tp - t.offs i ≤ a ∧ a < tp - t.offs i + (tls_block_size_of t i : Int)

instance (t : tls_info_t) (tp : Int) (i : Nat) (a : Int) : Decidable (in_tls_block t tp i a) := by
  unfold in_tls_block; infer_instance

/-- The pointer to byte `k` of the static TLS block of module `i`, as the
per-thread install computes it: `dr_tp - tls_info.offs[i]`, then `k` bytes on. -/
def tls_block_byte (X64 : Bool) (t : tls_info_t) (tp : Nat) (i k : Nat) : Nat :=
  to_size_t X64 ((tp : Int) - t.offs i + (k : Int))

/-! ## Events -/

/-- The `reason` argument of the entry calls.  `DLL_PROCESS_INIT` and
`DLL_PROCESS_EXIT` are constants of a header outside `loader.c`; any other
`uint` value is `other`. -/
inductive reason_t where
  | DLL_PROCESS_INIT
  | DLL_PROCESS_EXIT
  | other (code : Nat)
  deriving DecidableEq, Repr

/-- What the loader does to the world outside `loader.c`, in the order in which
it does it.
* `call_entry mod reason`: `privload_call_entry(mod, reason)` is entered.
* `lib_func func argc argv envp`: the foreign routine `func` is called with
  these arguments.
* `lookup name found`: `privload_lookup(name)` is called and returns a module
  (`found`) or `NULL`.
* `locate_and_load name dependent loaded`: `privload_locate_and_load(name,
  dependent)` is called and returns a module (`loaded`) or `NULL`.
* `relocate_mod mod`: `privload_relocate_mod(mod)` is called. -/
inductive event where
  | call_entry (mod : privmod_t) (reason : reason_t)
  | lib_func (func : fp_t) (argc : Nat) (argv : List String) (envp : Nat)
  | lookup (name : String) (found : Bool)
  | locate_and_load (name : String) (dependent : privmod_t) (loaded : Bool)
  | relocate_mod (mod : privmod_t)

/-- The calls of `privload_call_entry` in a trace. -/
def entry_calls (tr : List event) : List (privmod_t × reason_t) :=
  tr.filterMap fun e =>
    match e with
    | event.call_entry mod reason => some (mod, reason)
    | _ => none

/-- The calls of foreign routines in a trace. -/
def lib_calls (tr : List event) : List event :=
  tr.filter fun e =>
    match e with
    | event.lib_func _ _ _ _ => true
    | _ => false

/-! ## Init/fini sequencer (`privload_call_entry`, `privload_call_lib_func`) -/

/-- `sizeof(fp_t)`: the size of a function pointer. -/
def sizeof_fp_t (X64 : Bool) : Nat := ptr_bits X64 / 8

/-- `privload_call_lib_func(func)`: `func(1, dummy_argv, __environ)`, where
`dummy_argv` has the single element `"dummy"` and `environ` is the value of
`__environ`. -/
def privload_call_lib_func (environ : Nat) (func : fp_t) : List event :=
  [event.lib_func func 1 ["dummy"] environ]

/-- The loop `for (; i < n; i++) privload_call_lib_func(array[i]);` with
`count` iterations left, that is `count = n - i`. -/
def call_array_loop (environ : Nat) (array : Nat → fp_t) : Nat → Nat → List event
  | _, 0 => []
  | i, count + 1 =>
    privload_call_lib_func environ (array i) ++ call_array_loop environ array (i + 1) count

/-- `privload_call_entry(privmod, reason)`: the returned flag and the trace.
`seg_base` is the value of `os_get_dr_seg_base(NULL, LIB_SEG_TLS)`.  Both loops
run up to `opd->init_arraysz / sizeof(fp_t)`, as in the source. -/
def privload_call_entry (X64 : Bool) (seg_base environ : Nat) (privmod : privmod_t)
    (reason : reason_t) : Bool × List event :=
  let opd := privmod.os_privmod_data
  if seg_base = 0 then (true, [event.call_entry privmod reason])
  else
    match reason with
    | reason_t.DLL_PROCESS_INIT =>
      (true,
        [event.call_entry privmod reason] ++
        (if opd.init ≠ 0 then privload_call_lib_func environ opd.init else []) ++
        (match opd.init_array with
          | some init_array =>
            call_array_loop environ init_array 0 (opd.init_arraysz / sizeof_fp_t X64)
          | none => []))
    | reason_t.DLL_PROCESS_EXIT =>
      (true,
        [event.call_entry privmod reason] ++
        (if opd.fini ≠ 0 then privload_call_lib_func environ opd.fini else []) ++
        (match opd.fini_array with
          | some fini_array =>
            call_array_loop environ fini_array 0 (opd.init_arraysz / sizeof_fp_t X64)
          | none => []))
    | reason_t.other _ => (false, [event.call_entry privmod reason])

/-! ## Walking the registry (`privload_call_modules_entry`) -/

/-- The `DLL_PROCESS_INIT` branch of `privload_call_modules_entry(mod, reason)`
for a module `mod` followed in the registry by the modules `next`: recurse into
the next module when there is one, then call the entry of `mod` unless it is
externally loaded. -/
def privload_call_modules_entry_init (X64 : Bool) (seg_base environ : Nat) :
    privmod_t → List privmod_t → List event
  | mod, [] =>
    if !mod.externally_loaded then
      (privload_call_entry X64 seg_base environ mod reason_t.DLL_PROCESS_INIT).2
    else []
  | mod, next :: rest =>
    privload_call_modules_entry_init X64 seg_base environ next rest ++
      (if !mod.externally_loaded then
        (privload_call_entry X64 seg_base environ mod reason_t.DLL_PROCESS_INIT).2
      else [])

/-- The `else` branch of `privload_call_modules_entry(mod, reason)`:
`while (mod != NULL)`, call the entry of `mod` unless it is externally loaded
and step to the next module. -/
def privload_call_modules_entry_exit (X64 : Bool) (seg_base environ : Nat) (reason : reason_t) :
    List privmod_t → List event
  | [] => []
  | mod :: rest =>
    (if !mod.externally_loaded then (privload_call_entry X64 seg_base environ mod reason).2
      else []) ++
    privload_call_modules_entry_exit X64 seg_base environ reason rest

/-- `privload_call_modules_entry(mod, reason)`.  The registry is an ordered
sequence of modules; `privload_first_module` and `privload_next_module` of
`loader_shared.c` give its first element and the element after a given one,
`NULL` when there is none.  A module pointer is therefore the list of the
modules from that module on, `[]` for `NULL`.  The result is `none` when the
`DLL_PROCESS_INIT` branch is entered with `NULL`, which it dereferences. -/
def privload_call_modules_entry (X64 : Bool) (seg_base environ : Nat) (mod : List privmod_t)
    (reason : reason_t) : Option (List event) :=
  match reason with
  | reason_t.DLL_PROCESS_INIT =>
    match mod with
    | [] => none
    | first :: next => some (privload_call_modules_entry_init X64 seg_base environ first next)
  | _ => some (privload_call_modules_entry_exit X64 seg_base environ reason mod)

/-- The statement `if (!mod->externally_loaded) privload_call_entry(mod, reason);`
of both walks of the registry: its trace. -/
def call_entry_unless_external (X64 : Bool) (seg_base environ : Nat) (reason : reason_t)
    (mod : privmod_t) : List event :=
  if !mod.externally_loaded then (privload_call_entry X64 seg_base environ mod reason).2 else []

/-! ## Lifecycle driver (`os_loader_thread_init_prologue`) -/

/-- `os_loader_thread_init_prologue(dcontext)` on the global
`privmod_initialized`: the new value of the flag and the trace.  `registry` is
the module list, `privload_first_module()` its head.  The embedding is
sequential and leaves `privload_lock` out. -/
def os_loader_thread_init_prologue (X64 : Bool) (environ : Nat) (registry : List privmod_t)
    (seg_base : Nat) (privmod_initialized : Bool) : Option (Bool × List event) :=
  if !privmod_initialized then
    match privload_call_modules_entry X64 seg_base environ registry
        reason_t.DLL_PROCESS_INIT with
    | none => none
    | some tr => some (true, tr)
  else some (privmod_initialized, [])

/-- A sequence of calls of `os_loader_thread_init_prologue`, one for each
element of `seg_bases`, which gives the TLS segment base at the time of that
call: the final value of `privmod_initialized` and the trace of each call. -/
def thread_init_prologues (X64 : Bool) (environ : Nat) (registry : List privmod_t) :
    List Nat → Bool → Option (Bool × List (List event))
  | [], privmod_initialized => some (privmod_initialized, [])
  | seg_base :: later, privmod_initialized =>
    match os_loader_thread_init_prologue X64 environ registry seg_base privmod_initialized with
    | none => none
    | some (flag, tr) =>
      match thread_init_prologues X64 environ registry later flag with
      | none => none
      | some (flag', trs) => some (flag', tr :: trs)

/-- The initialisers of a module in the order of the spec: `init` if it is not
`NULL`, then the entries of `init_array`, if it is not `NULL`, by increasing
index; each is called with `(1, {"dummy"}, __environ)`. -/
def initializer_calls (X64 : Bool) (environ : Nat) (mod : privmod_t) : List event :=
  (if mod.os_privmod_data.init ≠ 0 then
    [event.lib_func mod.os_privmod_data.init 1 ["dummy"] environ] else []) ++
  (match mod.os_privmod_data.init_array with
    | some init_array =>
      (List.range (mod.os_privmod_data.init_arraysz / sizeof_fp_t X64)).map fun i =>
        event.lib_func (init_array i) 1 ["dummy"] environ
    | none => [])

/-! ## Dependency loader (`privload_process_imports`) -/

/-- The names of the `DT_NEEDED` entries of a dynamic section up to its
`DT_NULL` entry, in the order of the section. -/
def needed_of (strtab : Nat → String) : List ELF_DYNAMIC_ENTRY_TYPE → List String
  | [] => []
  | dyn :: rest =>
    if dyn.d_tag = DT_NULL then []
    else if dyn.d_tag = DT_NEEDED then strtab dyn.d_val :: needed_of strtab rest
    else needed_of strtab rest

/-- The libraries that a module needs. -/
def needed_names (mod : privmod_t) : List String :=
  needed_of mod.os_privmod_data.dynstr mod.os_privmod_data.dyn

/-- The module `a` names the module `b` in one of its `DT_NEEDED` entries. -/
def depends_on (a b : privmod_t) : Prop := b.name ∈ needed_names a

instance (a b : privmod_t) : Decidable (depends_on a b) := by
  unfold depends_on; infer_instance

/-- Modelled from the spec: `privload_lookup(name)` of `loader_shared.c`; the
registry supports lookup by basename, and the result is the first module of the
list with that name, `none` for `NULL`. -/
def privload_lookup (registry : List privmod_t) (name : String) : Option privmod_t :=
  registry.find? fun m => decide (m.name = name)

/-- The collaborators of the dependency loader: `privload_locate`, taken here by
its result (the file name it stores, `none` when it returns false), and
`privload_load` of `loader_shared.c`, which returns the loaded module or `NULL`
and may change the registry in both cases. -/
structure collaborators_t where
  privload_locate : String → privmod_t → Option String
  privload_load : List privmod_t → String → privmod_t → Option privmod_t × List privmod_t

/-- `privload_locate_and_load(impname, dependent)`: the module returned, `none`
for `NULL`, and the registry afterwards. -/
def privload_locate_and_load (c : collaborators_t) (registry : List privmod_t) (impname : String)
    (dependent : privmod_t) : Option privmod_t × List privmod_t :=
  match c.privload_locate impname dependent with
  | some filename => c.privload_load registry filename dependent
  | none => (none, registry)

/-- The loop `while (dyn->d_tag != DT_NULL)` of `privload_process_imports` from
the entry `dyn` on.  The result is `none` when the entries at hand end without
`DT_NULL`; otherwise it holds `false` for the early `return false` and `true`
for a normal exit of the loop, the registry then, and the trace. -/
def privload_process_imports_loop (c : collaborators_t) (mod : privmod_t) (strtab : Nat → String) :
    List ELF_DYNAMIC_ENTRY_TYPE → List privmod_t → Option (Bool × List privmod_t × List event)
  | [], _ => none
  | dyn :: rest, registry =>
    if dyn.d_tag = DT_NULL then some (true, registry, [])
    else if dyn.d_tag = DT_NEEDED then
      match privload_lookup registry (strtab dyn.d_val) with
      | some _ =>
        match privload_process_imports_loop c mod strtab rest registry with
        | none => none
        | some (ok, registry', tr) =>
          some (ok, registry', event.lookup (strtab dyn.d_val) true :: tr)
      | none =>
        match privload_locate_and_load c registry (strtab dyn.d_val) mod with
        | (none, registry') =>
          some (false, registry',
            [event.lookup (strtab dyn.d_val) false,
             event.locate_and_load (strtab dyn.d_val) mod false])
        | (some _, registry') =>
          match privload_process_imports_loop c mod strtab rest registry' with
          | none => none
          | some (ok, registry'', tr) =>
            some (ok, registry'',
              event.lookup (strtab dyn.d_val) false ::
                event.locate_and_load (strtab dyn.d_val) mod true :: tr)
    else privload_process_imports_loop c mod strtab rest registry

/-- `privload_process_imports(mod)`: the returned flag, the registry afterwards
and the trace; `none` when the dynamic section at hand has no `DT_NULL`. -/
def privload_process_imports (c : collaborators_t) (registry : List privmod_t) (mod : privmod_t) :
    Option (Bool × List privmod_t × List event) :=
  match privload_process_imports_loop c mod mod.os_privmod_data.dynstr mod.os_privmod_data.dyn
      registry with
  | none => none
  | some (false, registry', tr) => some (false, registry', tr)
  | some (true, registry', tr) =>
    some (true, registry',
      tr ++ (if !mod.externally_loaded then [event.relocate_mod mod] else []))

/-! ## Example inputs -/

/-- A module with the given TLS parameters and nothing else. -/
def tls_module (name : String) (tls_block_size tls_align tls_first_byte : Nat) : privmod_t :=
  { name := name, externally_loaded := false,
    os_privmod_data :=
      { dyn := [⟨DT_NULL, 0⟩], dynstr := fun _ => "", init := 0, fini := 0, init_array := none,
        fini_array := none, init_arraysz := 0, fini_arraysz := 0,
        tls_block_size := tls_block_size, tls_align := tls_align, tls_modid := 0,
        tls_image_size := 0, tls_first_byte := tls_first_byte, tls_image := fun _ => 0,
        segments := [] } }

/-- A library without TLS: its `DT_NEEDED` entries name `needed`, the string
table holds the `i`-th of these names at offset `i`, and the dynamic section
ends with `DT_NULL`. -/
def library (name : String) (externally_loaded : Bool) (needed : List String) (init fini : fp_t)
    (init_array fini_array : List fp_t) : privmod_t :=
  { name := name, externally_loaded := externally_loaded,
    os_privmod_data :=
      { dyn := (List.range needed.length).map (fun i => ⟨DT_NEEDED, i⟩) ++ [⟨DT_NULL, 0⟩],
        dynstr := fun i => needed.getD i "",
        init := init, fini := fini,
        init_array := if init_array = [] then none else some (fun i => init_array.getD i 0xdead),
        fini_array := if fini_array = [] then none else some (fun i => fini_array.getD i 0xdead),
        init_arraysz := 8 * init_array.length, fini_arraysz := 8 * fini_array.length,
        tls_block_size := 0, tls_align := 1, tls_modid := 0, tls_image_size := 0,
        tls_first_byte := 0, tls_image := fun _ => 0, segments := [] } }

/-- The runtime image, as `os_loader_init_prologue` registers it. -/
def libdynamorio : privmod_t := library "libdynamorio.so" true [] 0x1000 0x1010 [] []

/-- The diamond of the spec: A needs B and C, B and C need D. -/
def libA : privmod_t := library "libA.so" false ["libB.so", "libC.so"] 0xa00 0xa10 [] []

/-- See `libA`. -/
def libB : privmod_t := library "libB.so" false ["libD.so"] 0xb00 0xb10 [] []

/-- See `libA`. -/
def libC : privmod_t := library "libC.so" false ["libD.so"] 0xc00 0xc10 [] []

/-- See `libA`. -/
def libD : privmod_t := library "libD.so" false [] 0xd00 0xd10 [] []

/-- A library with `init`, two `init_array` entries, `fini` and three
`fini_array` entries. -/
def libE : privmod_t :=
  library "libE.so" false [] 0xe00 0xe10 [0xe20, 0xe30] [0xe40, 0xe50, 0xe60]

/-- A library with no `init_array` and two `fini_array` entries. -/
def libF : privmod_t := library "libF.so" false [] 0 0xf10 [] [0xf40, 0xf50]

/-- A library with three `init_array` entries and one `fini_array` entry. -/
def libG : privmod_t := library "libG.so" false [] 0x900 0x910 [0x920, 0x930, 0x938] [0x940]

/-- A 64-bit build with the private loader enabled and one page of client TLS. -/
def example_options : options_t :=
  { X64 := true, CLIENT_INTERFACE := true, private_loader := true, client_lib_tls_size := 1,
    PAGE_SIZE := 4096 }

/-- Four TLS modules of ordinary size. -/
def example_tls_info : tls_info_t :=
  { mods := [tls_module "liba.so" 8 8 3, tls_module "libb.so" 100 16 5,
      tls_module "libc.so.6" 1 1 0, tls_module "libd.so" 24 64 63],
    offset := 0, max_align := 64, offs := fun _ => 0 }

/-- The TLS table after the layout of the four example modules. -/
def example_layout : tls_info_t := (privload_set_tls_offset example_options 4096 example_tls_info).2

/-- Five TLS modules whose blocks add up to more than 4 GiB. -/
def wrapping_tls_info : tls_info_t :=
  { mods := [tls_module "liba.so" 8 8 0, tls_module "libb.so" 0x40000000 1 0,
      tls_module "libc.so" 0x40000000 1 0, tls_module "libd.so" 0x40000000 1 0,
      tls_module "libe.so" 0x40000000 1 0],
    offset := 0, max_align := 8, offs := fun _ => 0 }

/-- The names passed to `privload_lookup` in a trace, in order. -/
def lookup_names (tr : List event) : List String :=
  tr.filterMap fun e =>
    match e with
    | event.lookup name _ => some name
    | _ => none

/-- The event is a call of `privload_relocate_mod`. -/
def is_relocate_mod : event → Bool
  | event.relocate_mod _ => true
  | _ => false

/-- The event is a call of `privload_locate_and_load` that returned `NULL`. -/
def is_failed_load : event → Bool
  | event.locate_and_load _ _ false => true
  | _ => false

/-- The registry holds a module of that name: `privload_lookup(name) != NULL`. -/
def registered (registry : List privmod_t) (name : String) : Bool :=
  (privload_lookup registry name).isSome

/-- What the spec expects of loading a dependency: the call of
`privload_locate_and_load` removes no name from the registry, and a module it
returns is registered under the name that was asked for. -/
def loads_register (c : collaborators_t) : Prop :=
  ∀ (registry : List privmod_t) (name : String) (dependent : privmod_t),
    (∀ n, registered registry n = true →
      registered (privload_locate_and_load c registry name dependent).2 n = true) ∧
    ((privload_locate_and_load c registry name dependent).1.isSome = true →
      registered (privload_locate_and_load c registry name dependent).2 name = true)

/-- A collaborator table for the examples: the files at hand are the libraries
of the diamond, each found under `/usr/lib`, and loading a file appends its
module to the registry without looking at its own imports. -/
def example_collaborators : collaborators_t :=
  { privload_locate := fun name _ =>
      if name ∈ ["libB.so", "libC.so", "libD.so"] then some ("/usr/lib/" ++ name) else none,
    privload_load := fun registry filename _ =>
      if filename = "/usr/lib/libB.so" then (some libB, registry ++ [libB])
      else if filename = "/usr/lib/libC.so" then (some libC, registry ++ [libC])
      else if filename = "/usr/lib/libD.so" then (some libD, registry ++ [libD])
      else (none, registry) }

/-- A library that needs `libB.so` and then `libnope.so`, which no directory
holds, and then `libC.so`. -/
def libH : privmod_t := library "libH.so" false ["libB.so", "libnope.so", "libC.so"] 0 0 [] []

/-! ## Search-path resolver (`privload_locate`) -/

/-- `system_lib_paths[]`, in the order of the source; the last three entries
depend on `X64`. -/
def system_lib_paths (X64 : Bool) : List String :=
  ["/lib/tls/i686/cmov", "/usr/lib", "/lib"] ++
    (if X64 then ["/lib64/tls/i686/cmov", "/usr/lib64", "/lib64"]
     else ["/lib32/tls/i686/cmov", "/usr/lib32", "/lib32"])

/-- `NUM_SYSTEM_LIB_PATHS`. -/
def NUM_SYSTEM_LIB_PATHS (X64 : Bool) : Nat := (system_lib_paths X64).length

/-- The file-system queries of the resolver: `os_file_exists(fname, is_dir)` and
`os_file_has_elf_so_header(filename)`. -/
structure file_system_t where
  os_file_exists : String → Bool → Bool
  os_file_has_elf_so_header : String → Bool

/-- What `snprintf(filename, MAXIMUM_PATH, ...)` followed by
`filename[MAXIMUM_PATH - 1] = 0` leaves in the buffer for the formatted text
`s`: its first `MAXIMUM_PATH - 1` characters.  `MAXIMUM_PATH` is a constant of a
header outside `loader.c`. -/
def snprintf_path (MAXIMUM_PATH : Nat) (s : String) : String :=
  ⟨s.data.take (MAXIMUM_PATH - 1)⟩

/-- The test `os_file_exists(filename, false) && os_file_has_elf_so_header(filename)`. -/
def accepts (fs : file_system_t) (filename : String) : Bool :=
  fs.os_file_exists filename false && fs.os_file_has_elf_so_header filename

/-- A loop `for each dir: snprintf(filename, ..., "%s/%s", dir, name); if (accepted)
return true;` of `privload_locate`: `true` and the accepted file name when the
loop returns, otherwise `false` and what the buffer `filename` holds then. -/
def locate_in_dirs (fs : file_system_t) (MAXIMUM_PATH : Nat) (name : String) :
    List String → String → Bool × String
  | [], filename => (false, filename)
  | dir :: rest, _ =>
    if accepts fs (snprintf_path MAXIMUM_PATH (dir ++ "/" ++ name)) then
      (true, snprintf_path MAXIMUM_PATH (dir ++ "/" ++ name))
    else locate_in_dirs fs MAXIMUM_PATH name rest
      (snprintf_path MAXIMUM_PATH (dir ++ "/" ++ name))

/-- The pieces that the `while (lib_paths != NULL)` loop of `privload_locate`
cuts out of `LD_LIBRARY_PATH`: `strstr(lib_paths, ":")` ends the current piece
at the next colon and the loop goes on behind that colon, or takes the rest of
the text and stops when there is no colon.  `piece` holds, reversed, the
characters of the current piece read so far. -/
def ld_library_path_pieces : List Char → List Char → List String
  | [], piece => [⟨piece.reverse⟩]
  | c :: rest, piece =>
    if c = ':' then ⟨piece.reverse⟩ :: ld_library_path_pieces rest []
    else ld_library_path_pieces rest (c :: piece)

/-- The directories of `ld_library_path`, which is `none` when `getenv` returned
`NULL`. -/
def ld_library_path_dirs : Option String → List String
  | none => []
  | some s => ld_library_path_pieces s.data []

/-- `privload_locate(name, dep, filename)`: the returned flag and the content of
the buffer `filename` on return.  `search_paths` lists `search_paths[0 ..
search_paths_idx)`, `filename` is the content of the buffer on entry. -/
def privload_locate (fs : file_system_t) (MAXIMUM_PATH : Nat) (X64 : Bool)
    (search_paths : List String) (ld_library_path : Option String) (name : String)
    (filename : String) : Bool × String :=
  -- 1) client lib dir
  match locate_in_dirs fs MAXIMUM_PATH name search_paths filename with
  | (true, found) => (true, found)
  | (false, _) =>
    -- 2) curpath
    if accepts fs (snprintf_path MAXIMUM_PATH ("./" ++ name)) then
      (true, snprintf_path MAXIMUM_PATH ("./" ++ name))
    else
      -- 3) LD_LIBRARY_PATH
      match locate_in_dirs fs MAXIMUM_PATH name (ld_library_path_dirs ld_library_path)
          (snprintf_path MAXIMUM_PATH ("./" ++ name)) with
      | (true, found) => (true, found)
      | (false, tried) =>
        -- 4) system paths
        locate_in_dirs fs MAXIMUM_PATH name (system_lib_paths X64) tried

/-- The candidates of `privload_locate` in the order in which it tries them. -/
def locate_candidates (MAXIMUM_PATH : Nat) (X64 : Bool) (search_paths : List String)
    (ld_library_path : Option String) (name : String) : List String :=
  search_paths.map (fun dir => snprintf_path MAXIMUM_PATH (dir ++ "/" ++ name)) ++
  [snprintf_path MAXIMUM_PATH ("./" ++ name)] ++
  (ld_library_path_dirs ld_library_path).map
    (fun dir => snprintf_path MAXIMUM_PATH (dir ++ "/" ++ name)) ++
  (system_lib_paths X64).map (fun dir => snprintf_path MAXIMUM_PATH (dir ++ "/" ++ name))

/-- A file system that holds valid libraries at exactly the listed paths. -/
def files (paths : List String) : file_system_t :=
  { os_file_exists := fun f is_dir => !is_dir && decide (f ∈ paths),
    os_file_has_elf_so_header := fun f => decide (f ∈ paths) }

/-- A library name of 300 characters. -/
def long_name : String := ⟨List.replicate 296 'x' ++ ".so".data⟩

/-! ## Segment mapper (`privload_map_and_relocate`) -/

/-- `ELF_HEADER_TYPE`, restricted to the fields that the mapper reads. -/
structure ELF_HEADER_TYPE where
  e_phoff : Nat
  e_phentsize : Nat
  e_phnum : Nat
  deriving DecidableEq, Repr

/-- `ELF_PROGRAM_HEADER_TYPE`, restricted to the fields that the mapper reads. -/
structure ELF_PROGRAM_HEADER_TYPE where
  p_type : Nat
  p_flags : Nat
  p_offset : Nat
  p_vaddr : Nat
  p_filesz : Nat
  p_memsz : Nat
  deriving DecidableEq, Repr

/-- `PT_LOAD`, the type of a loadable segment. -/
def PT_LOAD : Nat := 1

/-- `INVALID_FILE`. -/
def INVALID_FILE : Int := -1

/-- `MEMPROT_NONE`, a constant of a header outside `loader.c`. -/
def MEMPROT_NONE : Nat := 0

/-- `MEMPROT_READ`, a constant of a header outside `loader.c`. -/
def MEMPROT_READ : Nat := 1

/-- `MEMPROT_WRITE`, a constant of a header outside `loader.c`. -/
def MEMPROT_WRITE : Nat := 2

/-- Modelled from the spec: `ALIGN_BACKWARD(x, alignment)` (the spec's
`ALIGN_DOWN`) is a macro of a header outside `loader.c`.  It rounds `x`, taken
as a `ptr_uint_t`, down to a multiple of `alignment`. -/
def ALIGN_BACKWARD (X64 : Bool) (x alignment : Nat) : Nat :=
  x % 2 ^ ptr_bits X64 / alignment * alignment

/-- What the mapper finds around it.  `map_file` and `os_map_file` are the two
mapping primitives, called with `(fd, *size, offs, base, prot, cow, image,
fixed)`; each gives the address it returns, `0` for `NULL`, and the value it
leaves in `*size`.  `elf_hdr` and `prog_hdr` give the ELF header and the program
header read at an address of the mapped file.  `module_vaddr_from_prog_header`
gives `map_base` and `map_end`, `module_segment_prot_to_osprot` the protection
derived from `p_flags`; both are functions outside `loader.c`. -/
structure vm_world_t where
  dynamo_heap_initialized : Bool
  os_open : String → Int
  os_get_file_size_by_handle : Int → Option Nat
  map_file : Int → Nat → Nat → Nat → Nat → Bool → Bool → Bool → Nat × Nat
  os_map_file : Int → Nat → Nat → Nat → Nat → Bool → Bool → Bool → Nat × Nat
  is_elf_so_header : Nat → Nat → Bool
  elf_hdr : Nat → ELF_HEADER_TYPE
  prog_hdr : Nat → ELF_PROGRAM_HEADER_TYPE
  module_vaddr_from_prog_header : Nat → Nat → Nat × Nat
  module_segment_prot_to_osprot : ELF_PROGRAM_HEADER_TYPE → Nat

/-- The calls of the mapper, in the order in which it makes them.  `tracked`
tells the backend: `true` for `map_file`, `unmap_file` and `set_protection`,
`false` for `os_map_file`, `os_unmap_file` and `os_set_protection`.
* `os_open filename fd`: `os_open(filename, OS_OPEN_READ)` returned `fd`.
* `os_get_file_size_by_handle fd file_size`: the call returned true with that
  size, or false (`none`).
* `map tracked fd size offs base prot cow image fixed result`: the mapping
  primitive was called with these arguments and returned `result`.
* `unmap tracked base size`, `protect tracked base size prot`: the unmapping
  and the protection primitive were called with these arguments.
* `memset dst val size`: `memset(dst, val, size)`.
* `os_close fd`: `os_close(fd)`. -/
inductive vm_event where
  | os_open (filename : String) (fd : Int)
  | os_get_file_size_by_handle (fd : Int) (file_size : Option Nat)
  | map (tracked : Bool) (fd : Int) (size offs base prot : Nat) (cow image fixed : Bool)
      (result : Nat)
  | unmap (tracked : Bool) (base size : Nat)
  | protect (tracked : Bool) (base size prot : Nat)
  | memset (dst val size : Nat)
  | os_close (fd : Int)
  deriving DecidableEq, Repr

/-- `(*map_func)(fd, &size, offs, base, prot, cow, image, fixed)` through the
backend selected: the address returned and the new `size`. -/
def map_func (w : vm_world_t) (tracked : Bool) (fd : Int) (size offs base prot : Nat)
    (cow image fixed : Bool) : Nat × Nat :=
  if tracked then w.map_file fd size offs base prot cow image fixed
  else w.os_map_file fd size offs base prot cow image fixed

/-- The body of the loop over the program headers of `privload_map_and_relocate`
for one header: the new value of `last_end` and the trace.  `delta` is
`lib_base - map_base`. -/
def map_segment (w : vm_world_t) (X64 : Bool) (PAGE_SIZE : Nat) (tracked : Bool) (fd : Int)
    (delta : Int) (prog_hdr : ELF_PROGRAM_HEADER_TYPE) (last_end : Nat) : Nat × List vm_event :=
  if prog_hdr.p_type = PT_LOAD then
    let seg_base := to_size_t X64 ((ALIGN_BACKWARD X64 prog_hdr.p_vaddr PAGE_SIZE : Nat) + delta)
    let seg_end := to_size_t X64
      ((ALIGN_FORWARD X64 (prog_hdr.p_vaddr + prog_hdr.p_filesz) PAGE_SIZE : Nat) + delta)
    let seg_size := to_size_t X64 ((seg_end : Int) - seg_base)
    let hole :=
      if seg_base ≠ last_end then
        [vm_event.protect tracked last_end (to_size_t X64 ((seg_base : Int) - last_end))
          MEMPROT_NONE]
      else []
    let seg_prot := w.module_segment_prot_to_osprot prog_hdr
    let pg_offs := ALIGN_BACKWARD X64 prog_hdr.p_offset PAGE_SIZE
    let map := map_func w tracked fd seg_size pg_offs seg_base (seg_prot ||| MEMPROT_WRITE)
      true true true
    let file_end := to_size_t X64 ((prog_hdr.p_vaddr : Int) + prog_hdr.p_filesz)
    let zero_from := to_size_t X64 ((file_end : Int) + delta)
    let zero :=
      if seg_end > zero_from then
        [vm_event.memset zero_from 0 (to_size_t X64 ((seg_end : Int) - zero_from))]
      else []
    let seg_end' := to_size_t X64
      ((ALIGN_FORWARD X64 (prog_hdr.p_vaddr + prog_hdr.p_memsz) PAGE_SIZE : Nat) + delta)
    let seg_size' := to_size_t X64 ((seg_end' : Int) - seg_base)
    (seg_end',
      hole ++
      [vm_event.unmap tracked seg_base seg_size,
       vm_event.map tracked fd seg_size pg_offs seg_base (seg_prot ||| MEMPROT_WRITE)
         true true true map.1] ++
      zero ++
      [vm_event.protect tracked seg_base seg_size' seg_prot])
  else (last_end, [])

/-- The loop `for (; i < elf_hdr->e_phnum; i++)` of `privload_map_and_relocate`
with `count` iterations left: the final value of `last_end` and the trace.  The
header `i` is read at `file_map + e_phoff + i * e_phentsize`. -/
def map_segments_loop (w : vm_world_t) (X64 : Bool) (PAGE_SIZE : Nat) (tracked : Bool) (fd : Int)
    (delta : Int) (file_map : Nat) (elf_hdr : ELF_HEADER_TYPE) :
    Nat → Nat → Nat → Nat × List vm_event
  | _, 0, last_end => (last_end, [])
  | i, count + 1, last_end =>
    let seg := map_segment w X64 PAGE_SIZE tracked fd delta
      (w.prog_hdr (to_size_t X64 ((file_map : Int) + elf_hdr.e_phoff + i * elf_hdr.e_phentsize)))
      last_end
    let rest := map_segments_loop w X64 PAGE_SIZE tracked fd delta file_map elf_hdr (i + 1) count
      seg.1
    (rest.1, seg.2 ++ rest.2)

/-- `privload_map_and_relocate(filename, size)`: the address returned, `0` for
`NULL`, the value of `*size` on return and the trace.  `size` is the value of
`*size` on entry.  The backend is `map_file`, `unmap_file`, `set_protection`
when `dynamo_heap_initialized`, else `os_map_file`, `os_unmap_file`,
`os_set_protection`.  The `ASSERT`s on the addresses returned change no state. -/
def privload_map_and_relocate (w : vm_world_t) (X64 : Bool) (PAGE_SIZE : Nat) (filename : String)
    (size : Nat) : Nat × Nat × List vm_event :=
  let fd := w.os_open filename
  if fd = INVALID_FILE then (0, size, [vm_event.os_open filename fd])
  else
    let tracked := w.dynamo_heap_initialized
    match w.os_get_file_size_by_handle fd with
    | none =>
      (0, size,
        [vm_event.os_open filename fd, vm_event.os_get_file_size_by_handle fd none,
         vm_event.os_close fd])
    | some file_size =>
      let file_map := map_func w tracked fd (to_size_t X64 file_size) 0 0 MEMPROT_READ
        true false false
      let opened :=
        [vm_event.os_open filename fd, vm_event.os_get_file_size_by_handle fd (some file_size),
         vm_event.map tracked fd (to_size_t X64 file_size) 0 0 MEMPROT_READ true false false
           file_map.1]
      if file_map.1 = 0 then (0, file_map.2, opened ++ [vm_event.os_close fd])
      else if !w.is_elf_so_header file_map.1 file_map.2 then
        (0, file_map.2,
          opened ++
          [vm_event.unmap tracked file_map.1 (to_size_t X64 file_size), vm_event.os_close fd])
      else
        let elf_hdr := w.elf_hdr file_map.1
        let range := w.module_vaddr_from_prog_header
          (to_size_t X64 ((file_map.1 : Int) + elf_hdr.e_phoff)) elf_hdr.e_phnum
        let map_base := range.1
        let map_size := to_size_t X64 ((range.2 : Int) - map_base)
        let lib := map_func w tracked (-1) map_size 0 map_base (MEMPROT_WRITE ||| MEMPROT_READ)
          true true false
        let lib_base := lib.1
        let lib_end := to_size_t X64 ((lib_base : Int) + lib.2)
        let delta : Int := (lib_base : Int) - map_base
        let segments := map_segments_loop w X64 PAGE_SIZE tracked fd delta file_map.1 elf_hdr
          0 elf_hdr.e_phnum lib_base
        (lib_base, to_size_t X64 ((lib_end : Int) - lib_base),
          opened ++
          [vm_event.map tracked (-1) map_size 0 map_base (MEMPROT_WRITE ||| MEMPROT_READ)
            true true false lib_base] ++
          segments.2 ++
          [vm_event.unmap tracked file_map.1 (to_size_t X64 file_size), vm_event.os_close fd])

/-- The descriptors closed in a trace, in order. -/
def closed_fds (tr : List vm_event) : List Int :=
  tr.filterMap fun e =>
    match e with
    | vm_event.os_close fd => some fd
    | _ => none

/-- The `memset` calls in a trace, in order. -/
def memset_calls (tr : List vm_event) : List vm_event :=
  tr.filter fun e =>
    match e with
    | vm_event.memset _ _ _ => true
    | _ => false

/-- The event is a call of the mapping primitive. -/
def is_map : vm_event → Bool
  | vm_event.map _ _ _ _ _ _ _ _ _ _ => true
  | _ => false

/-- The event is a call of the unmapping primitive. -/
def is_unmap : vm_event → Bool
  | vm_event.unmap _ _ _ => true
  | _ => false

/-- The temporary mapping of the whole file made by `privload_map_and_relocate`
for a descriptor `fd` and a file of `file_size` bytes: the address returned and
the value left in `*size`. -/
def temporary_map (w : vm_world_t) (X64 : Bool) (fd : Int) (file_size : Nat) : Nat × Nat :=
  map_func w w.dynamo_heap_initialized fd (to_size_t X64 file_size) 0 0 MEMPROT_READ
    true false false

/-- A world for the examples.  `/usr/lib/libx.so` is a library of `0x2100` bytes
with a text segment, a data segment whose `bss` runs over two more pages, and a
dynamic segment; `/usr/lib/notes.txt` is a file of ten bytes; `/dev/odd` opens
but has no size; no other file opens.  The whole-file mapping lands at
`0x50000`, the reservation at `0x20000`, a fixed mapping where it is asked for. -/
def example_world : vm_world_t :=
  { dynamo_heap_initialized := true,
    os_open := fun f =>
      if f = "/usr/lib/libx.so" then 3 else if f = "/usr/lib/notes.txt" then 4
      else if f = "/dev/odd" then 5 else INVALID_FILE,
    os_get_file_size_by_handle := fun fd =>
      if fd = 3 then some 0x2100 else if fd = 4 then some 10 else none,
    map_file := fun fd size _ base _ _ _ fixed =>
      if fd = -1 then (0x20000, size) else if fixed then (base, size) else (0x50000, size),
    os_map_file := fun fd size _ base _ _ _ fixed =>
      if fd = -1 then (0x20000, size) else if fixed then (base, size) else (0x50000, size),
    is_elf_so_header := fun _ size => decide (size = 0x2100),
    elf_hdr := fun _ => { e_phoff := 64, e_phentsize := 56, e_phnum := 3 },
    prog_hdr := fun a =>
      if a = 0x50000 + 64 then
        { p_type := PT_LOAD, p_flags := 5, p_offset := 0, p_vaddr := 0, p_filesz := 0x1100,
          p_memsz := 0x1100 }
      else if a = 0x50000 + 64 + 56 then
        { p_type := PT_LOAD, p_flags := 6, p_offset := 0x1100, p_vaddr := 0x2100,
          p_filesz := 0x100, p_memsz := 0x2f00 }
      else
        { p_type := 2, p_flags := 6, p_offset := 0x1140, p_vaddr := 0x2140, p_filesz := 0x80,
          p_memsz := 0x80 },
    module_vaddr_from_prog_header := fun _ _ => (0, 0x5000),
    module_segment_prot_to_osprot := fun ph => ph.p_flags }

/-- A world in which the whole-file mapping fails. -/
def no_map_world : vm_world_t :=
  { example_world with
    map_file := fun _ size _ _ _ _ _ _ => (0, size) }

/-- The bytes that the mapper sets to zero for one program header: for a
`PT_LOAD` header, one `memset` from `p_vaddr + p_filesz + delta` up to
`ALIGN_FORWARD(p_vaddr + p_filesz, PAGE_SIZE) + delta`, when that range is not
empty; all addresses are pointers. -/
def segment_zero_fill (X64 : Bool) (PAGE_SIZE : Nat) (delta : Int)
    (prog_hdr : ELF_PROGRAM_HEADER_TYPE) : List vm_event :=
  if prog_hdr.p_type = PT_LOAD then
    if to_size_t X64
          ((ALIGN_FORWARD X64 (prog_hdr.p_vaddr + prog_hdr.p_filesz) PAGE_SIZE : Nat) + delta) >
        to_size_t X64
          ((to_size_t X64 ((prog_hdr.p_vaddr : Int) + prog_hdr.p_filesz) : Nat) + delta) then
      [vm_event.memset
        (to_size_t X64
          ((to_size_t X64 ((prog_hdr.p_vaddr : Int) + prog_hdr.p_filesz) : Nat) + delta))
        0
        (to_size_t X64
          ((to_size_t X64
              ((ALIGN_FORWARD X64 (prog_hdr.p_vaddr + prog_hdr.p_filesz) PAGE_SIZE : Nat)
                + delta) : Nat) -
            (to_size_t X64
              ((to_size_t X64 ((prog_hdr.p_vaddr : Int) + prog_hdr.p_filesz) : Nat) + delta)
              : Nat)))]
    else []
  else []

/-- The last call that the mapper makes for a `PT_LOAD` header: the protection
derived from `p_flags` on the range from `ALIGN_BACKWARD(p_vaddr, PAGE_SIZE) +
delta` up to `ALIGN_FORWARD(p_vaddr + p_memsz, PAGE_SIZE) + delta`; all
addresses are pointers. -/
def segment_final_protect (w : vm_world_t) (X64 : Bool) (PAGE_SIZE : Nat) (tracked : Bool)
    (delta : Int) (prog_hdr : ELF_PROGRAM_HEADER_TYPE) : vm_event :=
  vm_event.protect tracked
    (to_size_t X64 ((ALIGN_BACKWARD X64 prog_hdr.p_vaddr PAGE_SIZE : Nat) + delta))
    (to_size_t X64
      ((to_size_t X64
          ((ALIGN_FORWARD X64 (prog_hdr.p_vaddr + prog_hdr.p_memsz) PAGE_SIZE : Nat) + delta)
          : Nat) -
        (to_size_t X64 ((ALIGN_BACKWARD X64 prog_hdr.p_vaddr PAGE_SIZE : Nat) + delta) : Nat)))
    (w.module_segment_prot_to_osprot prog_hdr)

/-- The data segment of the example library: `0x100` bytes of file, `0x2f00`
bytes of memory. -/
def example_data_segment : ELF_PROGRAM_HEADER_TYPE :=
  { p_type := PT_LOAD, p_flags := 6, p_offset := 0x1100, p_vaddr := 0x2100, p_filesz := 0x100,
    p_memsz := 0x2f00 }

/-! ## Per-thread TLS (`privload_tls_init`, `privload_tls_exit`) -/

/-- Memory: the byte stored at each address. -/
abbrev memory := Nat → Nat

/-- `sizeof(void *)`. -/
def sizeof_pointer (X64 : Bool) : Nat := ptr_bits X64 / 8

/-- `memcpy(dst, src, n)` inside the memory. -/
def memcpy (mem : memory) (dst src n : Nat) : memory :=
  fun a => if dst ≤ a ∧ a < dst + n then mem (src + (a - dst)) else mem a

/-- `memcpy(dst, src, n)` from bytes that lie outside the memory written here. -/
def memcpy_bytes (mem : memory) (dst : Nat) (src : Nat → Nat) (n : Nat) : memory :=
  fun a => if dst ≤ a ∧ a < dst + n then src (a - dst) else mem a

/-- `memset(dst, val, n)`. -/
def memset (mem : memory) (dst val n : Nat) : memory :=
  fun a => if dst ≤ a ∧ a < dst + n then val else mem a

/-- A store of the pointer `value` at `addr`, least significant byte first. -/
def store_pointer (X64 : Bool) (mem : memory) (addr value : Nat) : memory :=
  fun a =>
    if addr ≤ a ∧ a < addr + sizeof_pointer X64 then value / 256 ^ (a - addr) % 256 else mem a

/-- The pointer stored at `addr`, least significant byte first. -/
def load_pointer (X64 : Bool) (mem : memory) (addr : Nat) : Nat :=
  ((List.range (sizeof_pointer X64)).map fun k => mem (addr + k) * 256 ^ k).sum

/-- The calls and the writes of the per-thread TLS code, in the order in which
it makes them.
* `heap_mmap size result`: `heap_mmap(size)` returned `result`.
* `heap_munmap addr size`: `heap_munmap(addr, size)`.
* `copy dst src n`: `memcpy(dst, src, n)` between two addresses.
* `store addr value`: a pointer is stored at `addr`.
* `copy_image dst modid n`: `memcpy(dst, opd->tls_image, n)` for the module with
  the TLS id `modid`.
* `zero dst n`: `memset(dst, 0, n)`. -/
inductive tls_event where
  | heap_mmap (size result : Nat)
  | heap_munmap (addr size : Nat)
  | copy (dst src n : Nat)
  | store (addr value : Nat)
  | copy_image (dst modid n : Nat)
  | zero (dst n : Nat)
  deriving DecidableEq, Repr

/-- `tcb_size = ALIGN_FORWARD(app_tp, PAGE_SIZE) - (reg_t)app_tp`. -/
def tcb_size_of (X64 : Bool) (PAGE_SIZE app_tp : Nat) : Nat :=
  to_size_t X64 ((ALIGN_FORWARD X64 app_tp PAGE_SIZE : Nat) - (app_tp : Int))

/-- The body of the loop of `privload_tls_init` for one module whose block
starts at `dest = dr_tp - tls_info.offs[i]`: `memcpy` returns `dest`, so the
`memset` starts at `dest` as well. -/
def tls_block_init (X64 : Bool) (mem : memory) (dest : Nat) (opd : os_privmod_data_t) : memory :=
  memset (memcpy_bytes mem dest opd.tls_image opd.tls_image_size) dest 0
    (to_size_t X64 (sub_uint opd.tls_block_size opd.tls_image_size))

/-- The loop `for (i = 0; i < tls_info.num_mods; i++)` of `privload_tls_init`
from the index `i` on: the first argument is `mods[i ..]`, the result is the
memory and the trace. -/
def privload_tls_init_loop (X64 : Bool) (dr_tp : Nat) (offs : Nat → Int) :
    List privmod_t → Nat → memory → memory × List tls_event
  | [], _, mem => (mem, [])
  | m :: rest, i, mem =>
    let dest := to_size_t X64 ((dr_tp : Int) - offs i)
    let r := privload_tls_init_loop X64 dr_tp offs rest (i + 1)
      (tls_block_init X64 mem dest m.os_privmod_data)
    (r.1,
      [tls_event.copy_image dest i m.os_privmod_data.tls_image_size,
       tls_event.zero dest
         (to_size_t X64
           (sub_uint m.os_privmod_data.tls_block_size m.os_privmod_data.tls_image_size))] ++
      r.2)

/-- What `privload_tls_init` leaves behind: the pointer it returns, the global
`tcb_size`, the memory and the trace. -/
structure tls_init_t where
  dr_tp : Nat
  tcb_size : Nat
  mem : memory
  trace : List tls_event

/-- `privload_tls_init(app_tp)`.  `heap_mmap` gives the address that
`heap_mmap(size)` returns, `tcb_size` is the value of the global on entry. -/
def privload_tls_init (o : options_t) (heap_mmap : Nat → Nat) (max_client_tls_size tcb_size : Nat)
    (tls_info : tls_info_t) (mem : memory) (app_tp : Nat) : tls_init_t :=
  if app_tp = 0 then { dr_tp := 0, tcb_size := tcb_size, mem := mem, trace := [] }
  else
    let block := heap_mmap max_client_tls_size
    let tcb_size' := tcb_size_of o.X64 o.PAGE_SIZE app_tp
    let dr_tp := to_size_t o.X64 ((block : Int) + max_client_tls_size - tcb_size')
    let mem1 := memcpy mem (ALIGN_BACKWARD o.X64 dr_tp o.PAGE_SIZE)
      (ALIGN_BACKWARD o.X64 app_tp o.PAGE_SIZE) o.PAGE_SIZE
    let mem2 := store_pointer o.X64 mem1 dr_tp dr_tp
    let self := to_size_t o.X64 ((dr_tp : Int) + 2 * sizeof_pointer o.X64)
    let mem3 := store_pointer o.X64 mem2 self dr_tp
    let r := privload_tls_init_loop o.X64 dr_tp tls_info.offs tls_info.mods 0 mem3
    { dr_tp := dr_tp, tcb_size := tcb_size', mem := r.1,
      trace :=
        [tls_event.heap_mmap max_client_tls_size block,
         tls_event.copy (ALIGN_BACKWARD o.X64 dr_tp o.PAGE_SIZE)
           (ALIGN_BACKWARD o.X64 app_tp o.PAGE_SIZE) o.PAGE_SIZE,
         tls_event.store dr_tp dr_tp, tls_event.store self dr_tp] ++ r.2 }

/-- `privload_tls_exit(dr_tp)`: the trace. -/
def privload_tls_exit (o : options_t) (max_client_tls_size dr_tp : Nat) : List tls_event :=
  if dr_tp = 0 then []
  else
    [tls_event.heap_munmap
      (to_size_t o.X64
        ((ALIGN_FORWARD o.X64 dr_tp o.PAGE_SIZE : Nat) - (max_client_tls_size : Int)))
      max_client_tls_size]

/-- A TLS module with an image: the bytes of `image`, then zero on. -/
def tls_image_module (name : String) (image : List Nat) (tls_block_size tls_align : Nat) :
    privmod_t :=
  { name := name, externally_loaded := false,
    os_privmod_data :=
      { dyn := [⟨DT_NULL, 0⟩], dynstr := fun _ => "", init := 0, fini := 0, init_array := none,
        fini_array := none, init_arraysz := 0, fini_arraysz := 0,
        tls_block_size := tls_block_size, tls_align := tls_align, tls_modid := 0,
        tls_image_size := image.length, tls_first_byte := 0,
        tls_image := fun k => image.getD k 0, segments := [] } }

/-- One TLS module with six bytes of image in a block of eight bytes, laid out
by `privload_set_tls_offset`. -/
def image_layout : tls_info_t :=
  (privload_set_tls_offset example_options 4096
    { mods := [tls_image_module "libt.so" [1, 2, 3, 4, 5, 6] 8 8], offset := 0, max_align := 8,
      offs := fun _ => 0 }).2

/-- A memory that holds `0x55` in the page of the application's thread pointer
`0x7f0000000900`, `0x77` in the page that follows it, and zero elsewhere, as
in pages that were mapped a moment ago. -/
def example_memory : memory :=
  fun a =>
    if 0x7f0000000000 ≤ a ∧ a < 0x7f0000001000 then 0x55
    else if 0x7f0000001000 ≤ a ∧ a < 0x7f0000002000 then 0x77
    else 0

/-- The three parameters of a module that the layout reads:
`(tls_first_byte, tls_block_size, tls_align)`. -/
def tls_triple (m : privmod_t) : Nat × Nat × Nat :=
  (m.os_privmod_data.tls_first_byte, m.os_privmod_data.tls_block_size,
    m.os_privmod_data.tls_align)

/-! ## TLS registration (`privload_mod_tls_init`) -/

/-- The fatal usage errors that the loader raises. -/
inductive fatal_error where
  | TOO_MANY_TLS_MODS
  deriving DecidableEq, Repr

/-- Modelled from the spec: `FATAL_USAGE_ERROR(TOO_MANY_TLS_MODS, ...)` is a
macro of a header outside `loader.c`; the error is process-fatal, so nothing
that follows it in `privload_mod_tls_init` runs. -/
def FATAL_USAGE_ERROR (e : fatal_error) : Except fatal_error tls_info_t := Except.error e

/-- Conversion of an `int` to `uint`, as in the comparison of the `uint`
`opd->tls_align` with the `int` `tls_info.max_align`. -/
def to_uint (z : Int) : Nat := (z % 2 ^ 32).toNat

/-- The condition of the opening
`ASSERT(opd != NULL && opd->tls_block_size != 0)` of `privload_mod_tls_init`. -/
def privload_mod_tls_init_assert (mod : privmod_t) : Bool :=
  decide (mod.os_privmod_data.tls_block_size ≠ 0)

/-- `privload_mod_tls_init(mod)` on the global `tls_info`: the fatal error, or
the table afterwards, whose entry `mods[num_mods]` is the module with its
`tls_modid` set.  The `CLIENT_ASSERT(false, ...)` in front of the fatal error
changes no state; the opening `ASSERT` is `privload_mod_tls_init_assert`.  The
comparison `opd->tls_align > tls_info.max_align` of a `uint` with an `int` is
made in `uint`. -/
def privload_mod_tls_init (tls_info : tls_info_t) (mod : privmod_t) :
    Except fatal_error tls_info_t :=
  if tls_info.num_mods ≥ MAX_NUM_TLS_MOD then FATAL_USAGE_ERROR fatal_error.TOO_MANY_TLS_MODS
  else
    Except.ok
      { tls_info with
        mods := tls_info.mods ++
          [{ mod with
             os_privmod_data := { mod.os_privmod_data with tls_modid := tls_info.num_mods } }],
        max_align :=
          if mod.os_privmod_data.tls_align % 2 ^ 32 > to_uint tls_info.max_align then
            to_int mod.os_privmod_data.tls_align
          else tls_info.max_align }

/-- The global `tls_info` at program start: a static object, all zero. -/
def tls_info_initial : tls_info_t :=
  { mods := [], offset := 0, max_align := 0, offs := fun _ => 0 }

/-- A sequence of calls of `privload_mod_tls_init`, one for each module of the
list, in order; it ends at the first fatal error. -/
def tls_registrations : tls_info_t → List privmod_t → Except fatal_error tls_info_t
  | tls_info, [] => Except.ok tls_info
  | tls_info, mod :: rest =>
    match privload_mod_tls_init tls_info mod with
    | Except.error e => Except.error e
    | Except.ok tls_info' => tls_registrations tls_info' rest

/-- The TLS module ids of the registered modules, `mods[0]` first. -/
def tls_modids (tls_info : tls_info_t) : List Nat :=
  tls_info.mods.map fun m => m.os_privmod_data.tls_modid

/-- The names passed to `privload_locate_and_load` in a trace, in order. -/
def load_calls (tr : List event) : List String :=
  tr.filterMap fun e =>
    match e with
    | event.locate_and_load name _ _ => some name
    | _ => none

/-! ## The two VM backends (`privload_unmap_file`) -/

/-- `privload_unmap_file(privmod)`: its calls of VM primitives, in order, which
are `unmap_file(segments[i].start, segments[i].end - segments[i].start)` for
every segment of the module.  The two frees of heap memory that follow the loop
call no VM primitive. -/
def privload_unmap_file (X64 : Bool) (privmod : privmod_t) : List vm_event :=
  privmod.os_privmod_data.segments.map fun s =>
    vm_event.unmap true s.start (to_size_t X64 ((s.end_addr : Int) - s.start))

/-- The backend of a call of a VM primitive: `some true` for the tracked
primitives `map_file`, `unmap_file` and `set_protection`, `some false` for the
raw primitives `os_map_file`, `os_unmap_file` and `os_set_protection`, `none`
for an event that is no map, unmap or protect. -/
def backend_of : vm_event → Option Bool
  | vm_event.map tracked _ _ _ _ _ _ _ _ _ => some tracked
  | vm_event.unmap tracked _ _ => some tracked
  | vm_event.protect tracked _ _ _ => some tracked
  | _ => none

/-- Every map, unmap and protect of the trace goes through the backend
`tracked`. -/
def uses_backend (tracked : Bool) (tr : List vm_event) : Prop :=
  ∀ e ∈ tr, backend_of e = none ∨ backend_of e = some tracked

instance (tracked : Bool) (tr : List vm_event) : Decidable (uses_backend tracked tr) := by
  unfold uses_backend; infer_instance

/-- The example world before the heap is initialized. -/
def early_world : vm_world_t :=
  { example_world with dynamo_heap_initialized := false }

/-- The example library as a module, with the two segments that
`privload_map_and_relocate` has mapped for it at `0x20000`: `[0x20000, 0x22000)`
and `[0x22000, 0x25000)`. -/
def libx : privmod_t :=
  { name := "libx.so", externally_loaded := false,
    os_privmod_data :=
      { dyn := [⟨DT_NULL, 0⟩], dynstr := fun _ => "", init := 0, fini := 0, init_array := none,
        fini_array := none, init_arraysz := 0, fini_arraysz := 0, tls_block_size := 0,
        tls_align := 1, tls_modid := 0, tls_image_size := 0, tls_first_byte := 0,
        tls_image := fun _ => 0, segments := [⟨0x20000, 0x22000⟩, ⟨0x22000, 0x25000⟩] } }

/-! ## Theorems -/

/-! ### Machine arithmetic against the arithmetic of the spec -/

theorem two_pow_32_le_ptr (X64 : Bool) : 2 ^ 32 ≤ 2 ^ ptr_bits X64 := by
  cases X64 <;> simp [ptr_bits]

theorem to_size_t_of_small (X64 : Bool) (n : Nat) (h : n < 2 ^ 32) :
    to_size_t X64 (n : Int) = n := by
  have h2 := two_pow_32_le_ptr X64
  unfold to_size_t
  have : ((n : Int) % (2 : Int) ^ ptr_bits X64) = (n : Int) := by
    apply Int.emod_eq_of_lt (by positivity)
    have : n < 2 ^ ptr_bits X64 := lt_of_lt_of_le h h2
    exact_mod_cast this
  rw [this]; simp

theorem to_int_of_small (n : Nat) (h : n < 2 ^ 31) : to_int n = n := by
  unfold to_int
  have : n % 2 ^ 32 = n := Nat.mod_eq_of_lt (by omega)
  rw [this, if_pos h]

theorem neg_uint_and_mask (tfb k : Nat) (hk : k ≤ 31) :
    neg_uint tfb &&& sub_uint (2 ^ k) 1 = (2 ^ k - tfb % 2 ^ k) % 2 ^ k := by
  have hk1 : 1 ≤ 2 ^ k := Nat.one_le_two_pow
  have hk2 : 2 ^ k ≤ 2 ^ 31 := Nat.pow_le_pow_right (by norm_num) hk
  have hs : sub_uint (2 ^ k) 1 = 2 ^ k - 1 := by
    unfold sub_uint
    have : (2:Nat) ^ k % 2 ^ 32 = 2 ^ k := Nat.mod_eq_of_lt (by omega)
    rw [this]; norm_num
    omega
  rw [hs, Nat.and_pow_two_sub_one_eq_mod]
  unfold neg_uint
  have hdvd : (2:Nat) ^ k ∣ 2 ^ 32 := Nat.pow_dvd_pow 2 (by omega)
  rw [Nat.mod_mod_of_dvd _ hdvd]
  have ht : tfb % 2 ^ 32 < 2 ^ 32 := Nat.mod_lt _ (by positivity)
  have hu : tfb % 2 ^ k < 2 ^ k := Nat.mod_lt _ (by positivity)
  have e : tfb % 2 ^ 32 % 2 ^ k = tfb % 2 ^ k := Nat.mod_mod_of_dvd _ hdvd
  have m1 : (2 ^ 32 - tfb % 2 ^ 32 + tfb % 2 ^ 32) % 2 ^ k = 0 := by
    have : 2 ^ 32 - tfb % 2 ^ 32 + tfb % 2 ^ 32 = 2 ^ 32 := by omega
    rw [this]; exact Nat.mod_eq_zero_of_dvd hdvd
  have m2 : (2 ^ k - tfb % 2 ^ k + tfb % 2 ^ k) % 2 ^ k = 0 := by
    have : 2 ^ k - tfb % 2 ^ k + tfb % 2 ^ k = 2 ^ k := by omega
    rw [this]; exact Nat.mod_self _
  have m3 : (2 ^ 32 - tfb % 2 ^ 32 + tfb % 2 ^ 32) ≡
      (2 ^ k - tfb % 2 ^ k + tfb % 2 ^ k) [MOD 2 ^ k] := by
    unfold Nat.ModEq; rw [m1, m2]
  have m4 : tfb % 2 ^ 32 ≡ tfb % 2 ^ k [MOD 2 ^ k] := by
    unfold Nat.ModEq; rw [e, Nat.mod_mod]
  exact Nat.ModEq.add_right_cancel m4 m3

/-- Rounding up does not go below the argument. -/
theorem le_round_up (x a : Nat) (ha : 1 ≤ a) : x ≤ (x + (a - 1)) / a * a := by
  have h1 := Nat.div_add_mod (x + (a - 1)) a
  have h2 := Nat.mod_lt (x + (a - 1)) (show 0 < a by omega)
  have h3 : a * ((x + (a - 1)) / a) = (x + (a - 1)) / a * a := Nat.mul_comm _ _
  omega

/-- One step of the recurrence leaves room for the block of the module below
the previous offset. -/
theorem spec_offset_step_ge (offset : Nat) (opd : os_privmod_data_t) (ha : 1 ≤ opd.tls_align) :
    offset + opd.tls_block_size ≤ spec_offset_step offset opd := by
  unfold spec_offset_step
  have := le_round_up (offset + opd.tls_block_size + spec_first_byte opd) opd.tls_align ha
  omega

theorem align_le_spec_offset_step (offset : Nat) (opd : os_privmod_data_t)
    (ha : 1 ≤ opd.tls_align) (hpos : 0 < offset) :
    opd.tls_align ≤ spec_offset_step offset opd := by
  unfold spec_offset_step
  have h1 : 1 ≤ (offset + opd.tls_block_size + spec_first_byte opd + (opd.tls_align - 1))
      / opd.tls_align := by
    rw [Nat.one_le_div_iff (by omega)]
    omega
  have h2 : 1 * opd.tls_align ≤
      (offset + opd.tls_block_size + spec_first_byte opd + (opd.tls_align - 1))
        / opd.tls_align * opd.tls_align := Nat.mul_le_mul_right _ h1
  omega

theorem tls_first_byte_pad_eq_spec (opd : os_privmod_data_t) (k : Nat)
    (ha : opd.tls_align = 2 ^ k) (hk : k ≤ 31) :
    tls_first_byte_pad opd = (spec_first_byte opd : Int) := by
  unfold tls_first_byte_pad spec_first_byte
  rw [ha, neg_uint_and_mask _ _ hk]
  apply to_int_of_small
  have h1 : (2 ^ k - opd.tls_first_byte % 2 ^ k) % 2 ^ k < 2 ^ k := Nat.mod_lt _ (by positivity)
  have h2 : 2 ^ k ≤ 2 ^ 31 := Nat.pow_le_pow_right (by norm_num) hk
  omega

/-- A multiple of a power of two that stays below `2 ^ 32` is reached by
rounding up without passing `2 ^ 32` on the way. -/
theorem round_up_no_wrap (x k : Nat) (hk : k ≤ 32)
    (h : (x + (2 ^ k - 1)) / 2 ^ k * 2 ^ k < 2 ^ 32) : x + (2 ^ k - 1) < 2 ^ 32 := by
  by_contra hc
  have hc' : 2 ^ 32 ≤ x + (2 ^ k - 1) := by omega
  have hpow : (2 : Nat) ^ (32 - k) * 2 ^ k = 2 ^ 32 := by
    rw [← Nat.pow_add]; congr 1; omega
  have hq : 2 ^ (32 - k) ≤ (x + (2 ^ k - 1)) / 2 ^ k := by
    rw [Nat.le_div_iff_mul_le (by positivity), hpow]
    exact hc'
  have := Nat.mul_le_mul_right (2 ^ k) hq
  omega

/-- The machine step of the layout loop agrees with the recurrence of the spec
as long as the new offset stays below `2 ^ 32`. -/
theorem tls_offset_step_eq_spec (X64 : Bool) (offset : Nat) (opd : os_privmod_data_t) (k : Nat)
    (ha : opd.tls_align = 2 ^ k) (hpos : 0 < offset)
    (hfit : spec_offset_step offset opd < 2 ^ 32) :
    tls_offset_step X64 offset opd = spec_offset_step offset opd := by
  have ha1 : 1 ≤ opd.tls_align := by rw [ha]; exact Nat.one_le_two_pow
  have hal := align_le_spec_offset_step offset opd ha1 hpos
  have hk : k ≤ 31 := by
    by_contra hc
    have : 2 ^ 32 ≤ 2 ^ k := Nat.pow_le_pow_right (by norm_num) (by omega)
    rw [ha] at hal
    omega
  have hfb := tls_first_byte_pad_eq_spec opd k ha hk
  have hru := le_round_up (offset + opd.tls_block_size + spec_first_byte opd) opd.tls_align ha1
  have hstep : spec_offset_step offset opd = spec_first_byte opd +
      (offset + opd.tls_block_size + spec_first_byte opd + (opd.tls_align - 1))
        / opd.tls_align * opd.tls_align := rfl
  have hnw : offset + opd.tls_block_size + spec_first_byte opd + (opd.tls_align - 1) < 2 ^ 32 := by
    rw [ha]
    apply round_up_no_wrap _ k (by omega)
    rw [ha] at hstep
    omega
  unfold tls_offset_step
  rw [hfb]
  have e1 : ((offset : Int) + (opd.tls_block_size : Int) + (spec_first_byte opd : Int)) =
      ((offset + opd.tls_block_size + spec_first_byte opd : Nat) : Int) := by push_cast; ring
  rw [e1, to_size_t_of_small X64 _ (by omega)]
  have e2 : ALIGN_FORWARD X64 (offset + opd.tls_block_size + spec_first_byte opd) opd.tls_align =
      (offset + opd.tls_block_size + spec_first_byte opd + (opd.tls_align - 1))
        / opd.tls_align * opd.tls_align := by
    unfold ALIGN_FORWARD
    rw [Nat.mod_eq_of_lt]
    have := two_pow_32_le_ptr X64
    omega
  rw [e2]
  have e3 : ((spec_first_byte opd : Int) +
      (((offset + opd.tls_block_size + spec_first_byte opd + (opd.tls_align - 1))
        / opd.tls_align * opd.tls_align : Nat) : Int)) =
      ((spec_offset_step offset opd : Nat) : Int) := by rw [hstep]; push_cast; ring
  rw [e3, to_size_t_of_small X64 _ (by omega)]

/-! ### The layout loop -/

/-- Under the recurrence of the spec every offset is at least the start value. -/
theorem spec_tls_offsets_pos (l : List privmod_t) :
    ∀ (offset : Nat), 0 < offset → (∀ m ∈ l, 1 ≤ m.os_privmod_data.tls_align) →
      ∀ x ∈ spec_tls_offsets offset l, 0 < x := by
  induction l with
  | nil => intro offset _ _ x hx; simp [spec_tls_offsets] at hx
  | cons m rest ih =>
    intro offset hpos hal x hx
    have hm := spec_offset_step_ge offset m.os_privmod_data (hal m (List.mem_cons_self _ _))
    simp only [spec_tls_offsets, List.mem_cons] at hx
    rcases hx with hx | hx
    · omega
    · exact ih _ (by omega) (fun m' hm' => hal m' (List.mem_cons_of_mem _ hm')) x hx

/-- The offset that the recurrence assigns to the module at index `n` leaves
room for that module above the start value. -/
theorem spec_tls_offsets_room (l : List privmod_t) :
    ∀ (offset n : Nat), (∀ m ∈ l, 1 ≤ m.os_privmod_data.tls_align) → n < l.length →
      offset + ((l.map fun m => m.os_privmod_data.tls_block_size).getD n 0) ≤
        (spec_tls_offsets offset l).getD n 0 := by
  induction l with
  | nil => intro offset n _ hn; simp at hn
  | cons m rest ih =>
    intro offset n hal hn
    have hm := spec_offset_step_ge offset m.os_privmod_data (hal m (List.mem_cons_self _ _))
    cases n with
    | zero => simpa [spec_tls_offsets] using hm
    | succ n =>
      have := ih (spec_offset_step offset m.os_privmod_data) n
        (fun m' hm' => hal m' (List.mem_cons_of_mem _ hm')) (by simpa using hn)
      simp only [spec_tls_offsets, List.map_cons, List.getD_cons_succ]
      omega

/-- A later module lies wholly below an earlier one: its offset exceeds the
earlier offset by at least its own block size. -/
theorem spec_tls_offsets_separated (l : List privmod_t) :
    ∀ (offset i j : Nat), (∀ m ∈ l, 1 ≤ m.os_privmod_data.tls_align) → i < j → j < l.length →
      (spec_tls_offsets offset l).getD i 0 +
          ((l.map fun m => m.os_privmod_data.tls_block_size).getD j 0) ≤
        (spec_tls_offsets offset l).getD j 0 := by
  induction l with
  | nil => intro offset i j _ _ hj; simp at hj
  | cons m rest ih =>
    intro offset i j hal hij hj
    have hal' : ∀ m' ∈ rest, 1 ≤ m'.os_privmod_data.tls_align :=
      fun m' hm' => hal m' (List.mem_cons_of_mem _ hm')
    cases j with
    | zero => omega
    | succ j =>
      have hj' : j < rest.length := by simpa using hj
      cases i with
      | zero =>
        have := spec_tls_offsets_room rest (spec_offset_step offset m.os_privmod_data) j hal' hj'
        simpa [spec_tls_offsets] using this
      | succ i =>
        have := ih (spec_offset_step offset m.os_privmod_data) i j hal' (by omega) hj'
        simpa [spec_tls_offsets] using this

/-- The loop of `privload_set_tls_offset` stores the offsets of the recurrence
of the spec, converted to `int`, and touches no entry below its start index, as
long as every alignment is a power of two and no offset of the recurrence
reaches `2 ^ 32`. -/
theorem privload_set_tls_offset_loop_spec (X64 : Bool) (l : List privmod_t) :
    ∀ (i offset : Nat) (offs : Nat → Int), 0 < offset →
      (∀ m ∈ l, ∃ k, m.os_privmod_data.tls_align = 2 ^ k) →
      (∀ x ∈ spec_tls_offsets offset l, x < 2 ^ 32) →
      (∀ n, n < l.length →
        (privload_set_tls_offset_loop X64 l i offset offs).2 (i + n) =
          to_int ((spec_tls_offsets offset l).getD n 0)) ∧
      (∀ j, j < i → (privload_set_tls_offset_loop X64 l i offset offs).2 j = offs j) := by
  induction l with
  | nil =>
    intro i offset offs _ _ _
    exact ⟨fun n hn => by simp at hn, fun j _ => rfl⟩
  | cons m rest ih =>
    intro i offset offs hpos hpow hfit
    obtain ⟨k, hk⟩ := hpow m (List.mem_cons_self _ _)
    have hfit0 : spec_offset_step offset m.os_privmod_data < 2 ^ 32 :=
      hfit _ (by simp [spec_tls_offsets])
    have hstep := tls_offset_step_eq_spec X64 offset m.os_privmod_data k hk hpos hfit0
    have ha1 : 1 ≤ m.os_privmod_data.tls_align := by rw [hk]; exact Nat.one_le_two_pow
    have hge := spec_offset_step_ge offset m.os_privmod_data ha1
    have ih' := ih (i + 1) (spec_offset_step offset m.os_privmod_data)
      (Function.update offs i (to_int (spec_offset_step offset m.os_privmod_data)))
      (by omega) (fun m' hm' => hpow m' (List.mem_cons_of_mem _ hm'))
      (fun x hx => hfit x (by simp [spec_tls_offsets, hx]))
    simp only [privload_set_tls_offset_loop, hstep]
    refine ⟨fun n hn => ?_, fun j hj => ?_⟩
    · cases n with
      | zero =>
        show (privload_set_tls_offset_loop X64 rest (i + 1) _ _).2 i = _
        rw [ih'.2 i (by omega), Function.update_same]
        simp [spec_tls_offsets]
      | succ n =>
        have := ih'.1 n (by simpa using hn)
        rw [show i + (n + 1) = i + 1 + n by omega, this]
        simp [spec_tls_offsets]
    · rw [ih'.2 j (by omega), Function.update_noteq (by omega)]

/-! ### Static TLS blocks -/

theorem tls_block_size_of_eq (t : tls_info_t) (i : Nat) :
    tls_block_size_of t i = (t.mods.map fun m => m.os_privmod_data.tls_block_size).getD i 0 := by
  unfold tls_block_size_of
  rw [List.getD_eq_getElem?_getD, List.getElem?_map]
  cases t.mods[i]? <;> rfl

/-- Two integers less than `2 ^ 32` apart are different pointers. -/
theorem to_size_t_ne (X64 : Bool) (z1 z2 : Int) (h1 : z2 < z1) (h2 : z1 - z2 < 2 ^ 32) :
    to_size_t X64 z1 ≠ to_size_t X64 z2 := by
  intro h
  unfold to_size_t at h
  have hM : (0 : Int) < (2 : Int) ^ ptr_bits X64 := by positivity
  have hle : (2 : Int) ^ 32 ≤ (2 : Int) ^ ptr_bits X64 := by
    have := two_pow_32_le_ptr X64
    exact_mod_cast this
  have n1 := Int.emod_nonneg z1 (ne_of_gt hM)
  have n2 := Int.emod_nonneg z2 (ne_of_gt hM)
  have e : z1 % (2 : Int) ^ ptr_bits X64 = z2 % (2 : Int) ^ ptr_bits X64 := by
    have := congrArg (fun n : Nat => (n : Int)) h
    simpa [Int.toNat_of_nonneg n1, Int.toNat_of_nonneg n2] using this
  have hd : (2 : Int) ^ ptr_bits X64 ∣ z1 - z2 := Int.ModEq.dvd (show z2 ≡ z1 [ZMOD _] from e.symm)
  have := Int.le_of_dvd (by omega) hd
  omega

/-- The `int` that holds an offset below `2 ^ 32`. -/
theorem to_int_cases (n : Nat) (h : n < 2 ^ 32) :
    (n < 2 ^ 31 ∧ to_int n = (n : Int)) ∨ (2 ^ 31 ≤ n ∧ to_int n = (n : Int) - 2 ^ 32) := by
  unfold to_int
  have hm : n % 2 ^ 32 = n := Nat.mod_eq_of_lt h
  rw [hm]
  by_cases hn : n < 2 ^ 31
  · exact Or.inl ⟨hn, if_pos hn⟩
  · exact Or.inr ⟨by omega, if_neg hn⟩

theorem spec_tls_offsets_length (l : List privmod_t) :
    ∀ (offset : Nat), (spec_tls_offsets offset l).length = l.length := by
  induction l with
  | nil => intro offset; rfl
  | cons m rest ih => intro offset; simp [spec_tls_offsets, ih]

/-! ### The init/fini sequencer and the registry walks -/

theorem sizeof_fp_t_eq (X64 : Bool) : sizeof_fp_t X64 = if X64 then 8 else 4 := by
  cases X64 <;> rfl

/-- The loop over an array of function pointers calls the entries at the
indices `i, i + 1, ..., i + count - 1`, in this order, each once. -/
theorem call_array_loop_eq (environ : Nat) (array : Nat → fp_t) :
    ∀ (count i : Nat), call_array_loop environ array i count =
      (List.range' i count).map fun k => event.lib_func (array k) 1 ["dummy"] environ := by
  intro count
  induction count with
  | zero => intro i; rfl
  | succ n ih =>
    intro i
    simp [call_array_loop, privload_call_lib_func, ih, List.range'_succ]

theorem entry_calls_append (a b : List event) :
    entry_calls (a ++ b) = entry_calls a ++ entry_calls b := by
  simp [entry_calls, List.filterMap_append]

theorem entry_calls_call_array_loop (environ : Nat) (array : Nat → fp_t) (count i : Nat) :
    entry_calls (call_array_loop environ array i count) = [] := by
  rw [call_array_loop_eq]
  simp [entry_calls, List.filterMap_map]

/-- Calling the entry of a module with TLS installed and `DLL_PROCESS_INIT`. -/
theorem privload_call_entry_init_eq (X64 : Bool) (seg_base environ : Nat) (mod : privmod_t)
    (h : seg_base ≠ 0) :
    privload_call_entry X64 seg_base environ mod reason_t.DLL_PROCESS_INIT =
      (true,
        [event.call_entry mod reason_t.DLL_PROCESS_INIT] ++
        (if mod.os_privmod_data.init ≠ 0 then
          [event.lib_func mod.os_privmod_data.init 1 ["dummy"] environ] else []) ++
        (match mod.os_privmod_data.init_array with
          | some init_array =>
            (List.range (mod.os_privmod_data.init_arraysz / sizeof_fp_t X64)).map fun i =>
              event.lib_func (init_array i) 1 ["dummy"] environ
          | none => [])) := by
  unfold privload_call_entry
  simp only [h, if_false, privload_call_lib_func]
  cases mod.os_privmod_data.init_array with
  | none => rfl
  | some a => simp only [call_array_loop_eq, List.range_eq_range']

/-- Calling the entry of a module with TLS installed and `DLL_PROCESS_EXIT`: the
loop over `fini_array` is bounded by `init_arraysz`. -/
theorem privload_call_entry_exit_eq (X64 : Bool) (seg_base environ : Nat) (mod : privmod_t)
    (h : seg_base ≠ 0) :
    privload_call_entry X64 seg_base environ mod reason_t.DLL_PROCESS_EXIT =
      (true,
        [event.call_entry mod reason_t.DLL_PROCESS_EXIT] ++
        (if mod.os_privmod_data.fini ≠ 0 then
          [event.lib_func mod.os_privmod_data.fini 1 ["dummy"] environ] else []) ++
        (match mod.os_privmod_data.fini_array with
          | some fini_array =>
            (List.range (mod.os_privmod_data.init_arraysz / sizeof_fp_t X64)).map fun i =>
              event.lib_func (fini_array i) 1 ["dummy"] environ
          | none => [])) := by
  unfold privload_call_entry
  simp only [h, if_false, privload_call_lib_func]
  cases mod.os_privmod_data.fini_array with
  | none => rfl
  | some a => simp only [call_array_loop_eq, List.range_eq_range']

/-- Every call of `privload_call_entry` is recorded once, whatever it then does. -/
theorem entry_calls_privload_call_entry (X64 : Bool) (seg_base environ : Nat) (mod : privmod_t)
    (reason : reason_t) :
    entry_calls (privload_call_entry X64 seg_base environ mod reason).2 = [(mod, reason)] := by
  unfold privload_call_entry
  by_cases h : seg_base = 0
  · simp [h, entry_calls]
  · cases reason with
    | DLL_PROCESS_INIT =>
      simp only [h, if_false, entry_calls_append]
      have e1 : entry_calls (if mod.os_privmod_data.init ≠ 0 then
          privload_call_lib_func environ mod.os_privmod_data.init else []) = [] := by
        split <;> rfl
      have e2 : entry_calls (match mod.os_privmod_data.init_array with
          | some init_array => call_array_loop environ init_array 0
              (mod.os_privmod_data.init_arraysz / sizeof_fp_t X64)
          | none => []) = [] := by
        cases mod.os_privmod_data.init_array with
        | none => rfl
        | some a => exact entry_calls_call_array_loop _ _ _ _
      rw [e1, e2]; rfl
    | DLL_PROCESS_EXIT =>
      simp only [h, if_false, entry_calls_append]
      have e1 : entry_calls (if mod.os_privmod_data.fini ≠ 0 then
          privload_call_lib_func environ mod.os_privmod_data.fini else []) = [] := by
        split <;> rfl
      have e2 : entry_calls (match mod.os_privmod_data.fini_array with
          | some fini_array => call_array_loop environ fini_array 0
              (mod.os_privmod_data.init_arraysz / sizeof_fp_t X64)
          | none => []) = [] := by
        cases mod.os_privmod_data.fini_array with
        | none => rfl
        | some a => exact entry_calls_call_array_loop _ _ _ _
      rw [e1, e2]; rfl
    | other code => simp [h, entry_calls]

/-- The recursive `DLL_PROCESS_INIT` walk is the iteration over the reversed
list. -/
theorem privload_call_modules_entry_init_eq (X64 : Bool) (seg_base environ : Nat) :
    ∀ (next : List privmod_t) (first : privmod_t),
      privload_call_modules_entry_init X64 seg_base environ first next =
        (first :: next).reverse.flatMap
          (call_entry_unless_external X64 seg_base environ reason_t.DLL_PROCESS_INIT) := by
  intro next
  induction next with
  | nil => intro first; simp [privload_call_modules_entry_init, call_entry_unless_external]
  | cons m rest ih =>
    intro first
    rw [privload_call_modules_entry_init, ih m, List.reverse_cons (a := first),
      List.flatMap_append]
    simp [call_entry_unless_external]

/-- The `while` walk is the iteration over the list. -/
theorem privload_call_modules_entry_exit_eq (X64 : Bool) (seg_base environ : Nat)
    (reason : reason_t) :
    ∀ (mods : List privmod_t),
      privload_call_modules_entry_exit X64 seg_base environ reason mods =
        mods.flatMap (call_entry_unless_external X64 seg_base environ reason) := by
  intro mods
  induction mods with
  | nil => rfl
  | cons m rest ih =>
    simp [privload_call_modules_entry_exit, call_entry_unless_external, ih]

/-- The entry calls of an iteration over a list of modules: the modules that
are not externally loaded, in the order of the list. -/
theorem entry_calls_flatMap (X64 : Bool) (seg_base environ : Nat) (reason : reason_t) :
    ∀ (mods : List privmod_t),
      entry_calls (mods.flatMap (call_entry_unless_external X64 seg_base environ reason)) =
        (mods.filter fun m => !m.externally_loaded).map fun m => (m, reason) := by
  intro mods
  induction mods with
  | nil => rfl
  | cons m rest ih =>
    rw [List.flatMap_cons, entry_calls_append, ih]
    cases hm : m.externally_loaded
    · simp [call_entry_unless_external, hm, entry_calls_privload_call_entry]
    · simp [call_entry_unless_external, hm, entry_calls]


/-! ### The thread-init prologue -/

theorem lib_calls_append (a b : List event) : lib_calls (a ++ b) = lib_calls a ++ lib_calls b := by
  simp [lib_calls, List.filter_append]

/-- With TLS installed, the routines called by `privload_call_entry(mod,
DLL_PROCESS_INIT)` are the initialisers of the module. -/
theorem lib_calls_privload_call_entry_init (X64 : Bool) (seg_base environ : Nat) (mod : privmod_t)
    (h : seg_base ≠ 0) :
    lib_calls (privload_call_entry X64 seg_base environ mod reason_t.DLL_PROCESS_INIT).2 =
      initializer_calls X64 environ mod := by
  rw [privload_call_entry_init_eq X64 seg_base environ mod h]
  unfold initializer_calls
  simp only [lib_calls_append]
  have e0 : lib_calls [event.call_entry mod reason_t.DLL_PROCESS_INIT] = [] := rfl
  have e1 : lib_calls (if mod.os_privmod_data.init ≠ 0 then
      [event.lib_func mod.os_privmod_data.init 1 ["dummy"] environ] else []) =
      (if mod.os_privmod_data.init ≠ 0 then
        [event.lib_func mod.os_privmod_data.init 1 ["dummy"] environ] else []) := by
    split <;> rfl
  rw [e0, e1, List.nil_append]
  congr 1
  cases mod.os_privmod_data.init_array with
  | none => rfl
  | some a =>
    simp only [lib_calls, List.filter_map]
    congr 1
    rw [List.filter_eq_self]
    intro i _; rfl

theorem lib_calls_flatMap_init (X64 : Bool) (seg_base environ : Nat) (h : seg_base ≠ 0) :
    ∀ (mods : List privmod_t),
      lib_calls (mods.flatMap
          (call_entry_unless_external X64 seg_base environ reason_t.DLL_PROCESS_INIT)) =
        (mods.filter fun m => !m.externally_loaded).flatMap (initializer_calls X64 environ) := by
  intro mods
  induction mods with
  | nil => rfl
  | cons m rest ih =>
    rw [List.flatMap_cons, lib_calls_append, ih]
    cases hm : m.externally_loaded
    · simp [call_entry_unless_external, hm, lib_calls_privload_call_entry_init X64 _ _ _ h]
    · simp [call_entry_unless_external, hm, lib_calls]

/-- Once `privmod_initialized` is set, no call of the prologue does anything. -/
theorem thread_init_prologues_initialized (X64 : Bool) (environ : Nat) (registry : List privmod_t) :
    ∀ (seg_bases : List Nat),
      thread_init_prologues X64 environ registry seg_bases true =
        some (true, List.replicate seg_bases.length []) := by
  intro seg_bases
  induction seg_bases with
  | nil => rfl
  | cons b later ih =>
    simp [thread_init_prologues, os_loader_thread_init_prologue, ih, List.replicate_succ]


/-! ### The dependency loader -/

/-- The loop of `privload_process_imports` ends for a dynamic section that has
a `DT_NULL` entry. -/
theorem privload_process_imports_loop_returns (c : collaborators_t) (mod : privmod_t)
    (strtab : Nat → String) :
    ∀ (dyn : List ELF_DYNAMIC_ENTRY_TYPE) (registry : List privmod_t),
      (∃ e ∈ dyn, e.d_tag = DT_NULL) →
      ∃ r, privload_process_imports_loop c mod strtab dyn registry = some r := by
  intro dyn
  induction dyn with
  | nil => intro registry h; simp at h
  | cons d rest ih =>
    intro registry h
    unfold privload_process_imports_loop
    by_cases h0 : d.d_tag = DT_NULL
    · simp [h0]
    · have hrest : ∃ e ∈ rest, e.d_tag = DT_NULL := by
        obtain ⟨e, he, het⟩ := h
        rcases List.mem_cons.mp he with rfl | he'
        · exact absurd het h0
        · exact ⟨e, he', het⟩
      simp only [h0, if_false]
      by_cases h1 : d.d_tag = DT_NEEDED
      · simp only [h1, if_true]
        cases hl : privload_lookup registry (strtab d.d_val) with
        | some m =>
          obtain ⟨r, hr⟩ := ih registry hrest
          simp [hr]
        | none =>
          rcases hq : privload_locate_and_load c registry (strtab d.d_val) mod with ⟨_ | m, registry'⟩
          · simp
          · obtain ⟨r, hr⟩ := ih registry' hrest
            simp [hr]
      · simp only [h1, if_false]
        exact ih registry hrest

/-- What the loop of `privload_process_imports` has done when it ends. -/
theorem privload_process_imports_loop_trace (c : collaborators_t) (mod : privmod_t)
    (strtab : Nat → String) :
    ∀ (dyn : List ELF_DYNAMIC_ENTRY_TYPE) (registry : List privmod_t) (ok : Bool)
      (registry' : List privmod_t) (tr : List event),
      privload_process_imports_loop c mod strtab dyn registry = some (ok, registry', tr) →
      (∀ e ∈ tr, is_relocate_mod e = false) ∧
      (ok = true →
        lookup_names tr = needed_of strtab dyn ∧
        (∀ e ∈ tr, is_failed_load e = false) ∧
        (∀ name ∈ needed_of strtab dyn,
          event.lookup name true ∈ tr ∨ event.locate_and_load name mod true ∈ tr)) ∧
      (ok = false →
        ∃ done name, tr = done ++ [event.lookup name false, event.locate_and_load name mod false] ∧
          (∀ e ∈ done, is_failed_load e = false) ∧
          ∃ later, needed_of strtab dyn = lookup_names done ++ name :: later) := by
  intro dyn
  induction dyn with
  | nil => intro registry ok registry' tr h; simp [privload_process_imports_loop] at h
  | cons d rest ih =>
    intro registry ok registry' tr h
    unfold privload_process_imports_loop at h
    by_cases h0 : d.d_tag = DT_NULL
    · simp only [h0, if_true, Option.some.injEq, Prod.mk.injEq] at h
      obtain ⟨rfl, rfl, rfl⟩ := h
      simp [needed_of, h0, lookup_names]
    · simp only [h0, if_false] at h
      by_cases h1 : d.d_tag = DT_NEEDED
      · simp only [h1, if_true] at h
        have hn : needed_of strtab (d :: rest) = strtab d.d_val :: needed_of strtab rest := by
          have hne : DT_NEEDED ≠ DT_NULL := by decide
          simp [needed_of, h1, hne]
        cases hl : privload_lookup registry (strtab d.d_val) with
        | some m =>
          rw [hl] at h
          cases hr : privload_process_imports_loop c mod strtab rest registry with
          | none => simp [hr] at h
          | some r =>
            obtain ⟨ok1, reg1, tr1⟩ := r
            simp only [hr, Option.some.injEq, Prod.mk.injEq] at h
            obtain ⟨rfl, rfl, rfl⟩ := h
            obtain ⟨i1, i2, i3⟩ := ih registry ok1 reg1 tr1 hr
            refine ⟨?_, ?_, ?_⟩
            · intro e he
              rcases List.mem_cons.mp he with rfl | he'
              · rfl
              · exact i1 e he'
            · intro hok
              obtain ⟨j1, j2, j3⟩ := i2 hok
              refine ⟨?_, ?_, ?_⟩
              · rw [hn, ← j1]; simp [lookup_names]
              · intro e he
                rcases List.mem_cons.mp he with rfl | he'
                · rfl
                · exact j2 e he'
              · intro name hname
                rw [hn] at hname
                rcases List.mem_cons.mp hname with rfl | hname'
                · exact Or.inl (List.mem_cons_self _ _)
                · rcases j3 name hname' with hh | hh
                  · exact Or.inl (List.mem_cons_of_mem _ hh)
                  · exact Or.inr (List.mem_cons_of_mem _ hh)
            · intro hok
              obtain ⟨done, name, hd, hf, later, hl'⟩ := i3 hok
              refine ⟨event.lookup (strtab d.d_val) true :: done, name, by simp [hd], ?_, later, ?_⟩
              · intro e he
                rcases List.mem_cons.mp he with rfl | he'
                · rfl
                · exact hf e he'
              · rw [hn, hl']; simp [lookup_names]
        | none =>
          rw [hl] at h
          rcases hq : privload_locate_and_load c registry (strtab d.d_val) mod with
            ⟨_ | m, regq⟩
          · simp only [hq, Option.some.injEq, Prod.mk.injEq] at h
            obtain ⟨rfl, rfl, rfl⟩ := h
            refine ⟨?_, by simp, ?_⟩
            · intro e he
              simp only [List.mem_cons, List.mem_singleton, List.not_mem_nil, or_false] at he
              rcases he with rfl | rfl <;> rfl
            · intro _
              exact ⟨[], strtab d.d_val, rfl, by simp, needed_of strtab rest, by
                rw [hn]; simp [lookup_names]⟩
          · simp only [hq] at h
            cases hr : privload_process_imports_loop c mod strtab rest regq with
            | none => simp [hr] at h
            | some r =>
              obtain ⟨ok1, reg1, tr1⟩ := r
              simp only [hr, Option.some.injEq, Prod.mk.injEq] at h
              obtain ⟨rfl, rfl, rfl⟩ := h
              obtain ⟨i1, i2, i3⟩ := ih regq ok1 reg1 tr1 hr
              refine ⟨?_, ?_, ?_⟩
              · intro e he
                rcases List.mem_cons.mp he with rfl | he'
                · rfl
                · rcases List.mem_cons.mp he' with rfl | he''
                  · rfl
                  · exact i1 e he''
              · intro hok
                obtain ⟨j1, j2, j3⟩ := i2 hok
                refine ⟨?_, ?_, ?_⟩
                · rw [hn, ← j1]; simp [lookup_names]
                · intro e he
                  rcases List.mem_cons.mp he with rfl | he'
                  · rfl
                  · rcases List.mem_cons.mp he' with rfl | he''
                    · rfl
                    · exact j2 e he''
                · intro name hname
                  rw [hn] at hname
                  rcases List.mem_cons.mp hname with rfl | hname'
                  · exact Or.inr (List.mem_cons_of_mem _ (List.mem_cons_self _ _))
                  · rcases j3 name hname' with hh | hh
                    · exact Or.inl (List.mem_cons_of_mem _ (List.mem_cons_of_mem _ hh))
                    · exact Or.inr (List.mem_cons_of_mem _ (List.mem_cons_of_mem _ hh))
              · intro hok
                obtain ⟨done, name, hd, hf, later, hl'⟩ := i3 hok
                refine ⟨event.lookup (strtab d.d_val) false ::
                  event.locate_and_load (strtab d.d_val) mod true :: done, name, by simp [hd], ?_,
                  later, ?_⟩
                · intro e he
                  rcases List.mem_cons.mp he with rfl | he'
                  · rfl
                  · rcases List.mem_cons.mp he' with rfl | he''
                    · rfl
                    · exact hf e he''
                · rw [hn, hl']; simp [lookup_names]
      · simp only [h1, if_false] at h
        have hn : needed_of strtab (d :: rest) = needed_of strtab rest := by
          simp [needed_of, h0, h1]
        rw [hn]
        exact ih registry ok registry' tr h


/-- When loading registers what it loads and removes nothing, every needed name
is registered once the loop of `privload_process_imports` has ended normally. -/
theorem privload_process_imports_loop_registered (c : collaborators_t) (mod : privmod_t)
    (strtab : Nat → String) (hload : loads_register c) :
    ∀ (dyn : List ELF_DYNAMIC_ENTRY_TYPE) (registry : List privmod_t)
      (registry' : List privmod_t) (tr : List event),
      privload_process_imports_loop c mod strtab dyn registry = some (true, registry', tr) →
      (∀ name, registered registry name = true → registered registry' name = true) ∧
      (∀ name ∈ needed_of strtab dyn, registered registry' name = true) := by
  intro dyn
  induction dyn with
  | nil => intro registry registry' tr h; simp [privload_process_imports_loop] at h
  | cons d rest ih =>
    intro registry registry' tr h
    unfold privload_process_imports_loop at h
    by_cases h0 : d.d_tag = DT_NULL
    · simp only [h0, if_true, Option.some.injEq, Prod.mk.injEq] at h
      obtain ⟨_, rfl, _⟩ := h
      simp [needed_of, h0]
    · simp only [h0, if_false] at h
      by_cases h1 : d.d_tag = DT_NEEDED
      · simp only [h1, if_true] at h
        have hn : needed_of strtab (d :: rest) = strtab d.d_val :: needed_of strtab rest := by
          have hne : DT_NEEDED ≠ DT_NULL := by decide
          simp [needed_of, h1, hne]
        cases hl : privload_lookup registry (strtab d.d_val) with
        | some m =>
          rw [hl] at h
          cases hr : privload_process_imports_loop c mod strtab rest registry with
          | none => simp [hr] at h
          | some r =>
            obtain ⟨ok1, reg1, tr1⟩ := r
            simp only [hr, Option.some.injEq, Prod.mk.injEq] at h
            obtain ⟨rfl, rfl, rfl⟩ := h
            obtain ⟨i1, i2⟩ := ih registry reg1 tr1 hr
            refine ⟨i1, ?_⟩
            intro name hname
            rw [hn] at hname
            rcases List.mem_cons.mp hname with rfl | hname'
            · exact i1 _ (by simp [registered, hl])
            · exact i2 name hname'
        | none =>
          rw [hl] at h
          have hld := hload registry (strtab d.d_val) mod
          rcases hq : privload_locate_and_load c registry (strtab d.d_val) mod with
            ⟨_ | m, regq⟩
          · simp [hq] at h
          · simp only [hq] at h
            rw [hq] at hld
            cases hr : privload_process_imports_loop c mod strtab rest regq with
            | none => simp [hr] at h
            | some r =>
              obtain ⟨ok1, reg1, tr1⟩ := r
              simp only [hr, Option.some.injEq, Prod.mk.injEq] at h
              obtain ⟨rfl, rfl, rfl⟩ := h
              obtain ⟨i1, i2⟩ := ih regq reg1 tr1 hr
              refine ⟨fun name hname => i1 name (hld.1 name hname), ?_⟩
              intro name hname
              rw [hn] at hname
              rcases List.mem_cons.mp hname with rfl | hname'
              · exact i1 _ (hld.2 rfl)
              · exact i2 name hname'
      · simp only [h1, if_false] at h
        have hn : needed_of strtab (d :: rest) = needed_of strtab rest := by
          simp [needed_of, h0, h1]
        rw [hn]
        exact ih registry registry' tr h

theorem loads_register_example : loads_register example_collaborators := by
  intro registry name dependent
  have happ : ∀ (x : privmod_t) (n : String), registered registry n = true →
      registered (registry ++ [x]) n = true := by
    intro x n hn
    unfold registered privload_lookup at *
    rw [List.find?_isSome] at *
    obtain ⟨a, ha, hp⟩ := hn
    exact ⟨a, List.mem_append_left _ ha, hp⟩
  have hlast : ∀ (x : privmod_t), registered (registry ++ [x]) x.name = true := by
    intro x
    unfold registered privload_lookup
    rw [List.find?_isSome]
    exact ⟨x, by simp, by simp⟩
  unfold privload_locate_and_load example_collaborators
  by_cases hB : name = "libB.so"
  · subst hB
    exact ⟨fun n hn => by simpa using happ libB n hn, fun _ => by simpa using hlast libB⟩
  by_cases hC : name = "libC.so"
  · subst hC
    exact ⟨fun n hn => by simpa using happ libC n hn, fun _ => by simpa using hlast libC⟩
  by_cases hD : name = "libD.so"
  · subst hD
    exact ⟨fun n hn => by simpa using happ libD n hn, fun _ => by simpa using hlast libD⟩
  simp [hB, hC, hD]


/-- C1: `privload_redirect_sym(r_addr, name)` returns true exactly for the names
`malloc`, `calloc`, `realloc`, `free` and `__tls_get_addr`; for each of them it
stores the replacement registered under that name in `redirect_imports`, and
when it returns false `*r_addr` is untouched. -/
theorem privload_redirect_sym_iff (addr : redirect_func → app_pc) (r_addr : ELF_ADDR)
    (name : String) :
    ((privload_redirect_sym addr r_addr name).1 = true ↔
      (name = "malloc" ∨ name = "calloc" ∨ name = "realloc" ∨ name = "free" ∨
        name = "__tls_get_addr")) ∧
    privload_redirect_sym addr r_addr "malloc" = (true, addr redirect_func.redirect_malloc) ∧
    privload_redirect_sym addr r_addr "calloc" = (true, addr redirect_func.redirect_calloc) ∧
    privload_redirect_sym addr r_addr "realloc" = (true, addr redirect_func.redirect_realloc) ∧
    privload_redirect_sym addr r_addr "free" = (true, addr redirect_func.redirect_free) ∧
    privload_redirect_sym addr r_addr "__tls_get_addr" =
      (true, addr redirect_func.redirect___tls_get_addr) ∧
    ((privload_redirect_sym addr r_addr name).1 = false ∧
        (privload_redirect_sym addr r_addr name).2 = r_addr ∨
      (privload_redirect_sym addr r_addr name).1 = true) := by
  refine ⟨?_, by simp [privload_redirect_sym, redirect_imports, privload_redirect_sym_loop],
    by simp [privload_redirect_sym, redirect_imports, privload_redirect_sym_loop],
    by simp [privload_redirect_sym, redirect_imports, privload_redirect_sym_loop],
    by simp [privload_redirect_sym, redirect_imports, privload_redirect_sym_loop],
    by simp [privload_redirect_sym, redirect_imports, privload_redirect_sym_loop], ?_⟩
  · simp only [privload_redirect_sym, redirect_imports, privload_redirect_sym_loop]
    by_cases h1 : "calloc" = name
    · subst h1; simp
    by_cases h2 : "malloc" = name
    · subst h2; simp
    by_cases h3 : "free" = name
    · subst h3; simp
    by_cases h4 : "realloc" = name
    · subst h4; simp
    by_cases h5 : "__tls_get_addr" = name
    · subst h5; simp
    simp [h1, h2, h3, h4, h5, eq_comm]
    exact ⟨fun h => h2 h.symm, fun h => h1 h.symm, fun h => h4 h.symm, fun h => h3 h.symm,
      fun h => h5 h.symm⟩
  · simp only [privload_redirect_sym, redirect_imports, privload_redirect_sym_loop]
    by_cases h1 : "calloc" = name
    · simp [h1]
    by_cases h2 : "malloc" = name
    · simp [h1, h2]
    by_cases h3 : "free" = name
    · simp [h1, h2, h3]
    by_cases h4 : "realloc" = name
    · simp [h1, h2, h3, h4]
    by_cases h5 : "__tls_get_addr" = name
    · simp [h1, h2, h3, h4, h5]
    simp [h1, h2, h3, h4, h5]

/-- C2 (amended): with the private loader enabled, after `privload_set_tls_offset`
has run over a list of TLS modules whose `tls_align` is a power of two and
whose offsets, computed without wrap-around, all stay below `2 ^ 32`, the byte
ranges `[tp - offs[i], tp - offs[i] + tls_block_size_i)` and
`[tp - offs[j], tp - offs[j] + tls_block_size_j)` of two modules `i < j` are
disjoint for every thread pointer `tp`, as sets of integers and as sets of
machine pointers. -/
theorem privload_set_tls_offset_blocks_disjoint (o : options_t) (max_client_tls_size : Nat)
    (t : tls_info_t)
    (hon : o.CLIENT_INTERFACE = true ∧ o.private_loader = true)
    (hpow : ∀ m ∈ t.mods, ∃ k, m.os_privmod_data.tls_align = 2 ^ k)
    (hfit : ∀ x ∈ spec_tls_offsets APP_LIBC_TLS_SIZE t.mods, x < 2 ^ 32)
    (i j : Nat) (hij : i < j) (hj : j < t.num_mods) :
    (∀ (tp a : Int),
      ¬ (in_tls_block (privload_set_tls_offset o max_client_tls_size t).2 tp i a ∧
          in_tls_block (privload_set_tls_offset o max_client_tls_size t).2 tp j a)) ∧
    (∀ (tp ki kj : Nat),
      ki < tls_block_size_of (privload_set_tls_offset o max_client_tls_size t).2 i →
      kj < tls_block_size_of (privload_set_tls_offset o max_client_tls_size t).2 j →
      tls_block_byte o.X64 (privload_set_tls_offset o max_client_tls_size t).2 tp i ki ≠
        tls_block_byte o.X64 (privload_set_tls_offset o max_client_tls_size t).2 tp j kj) := by
  obtain ⟨hci, hpl⟩ := hon
  have hal : ∀ m ∈ t.mods, 1 ≤ m.os_privmod_data.tls_align := by
    intro m hm
    obtain ⟨k, hk⟩ := hpow m hm
    rw [hk]; exact Nat.one_le_two_pow
  have hj' : j < t.mods.length := hj
  have hloop := privload_set_tls_offset_loop_spec o.X64 t.mods 0 APP_LIBC_TLS_SIZE t.offs
    (by decide) hpow hfit
  have hsep := spec_tls_offsets_separated t.mods APP_LIBC_TLS_SIZE i j hal hij hj'
  have hroom := spec_tls_offsets_room t.mods APP_LIBC_TLS_SIZE i hal (by omega)
  have hlt : ∀ n, n < t.mods.length →
      (spec_tls_offsets APP_LIBC_TLS_SIZE t.mods).getD n 0 < 2 ^ 32 := by
    intro n hn
    have hnl : n < (spec_tls_offsets APP_LIBC_TLS_SIZE t.mods).length := by
      rw [spec_tls_offsets_length]; exact hn
    rw [List.getD_eq_getElem _ _ hnl]
    exact hfit _ (List.getElem_mem _)
  have hst : privload_set_tls_offset o max_client_tls_size t =
      (to_size_t o.X64 ((o.client_lib_tls_size : Int) * o.PAGE_SIZE),
        { t with
          offs := (privload_set_tls_offset_loop o.X64 t.mods 0 APP_LIBC_TLS_SIZE t.offs).2,
          offset := to_int
            (privload_set_tls_offset_loop o.X64 t.mods 0 APP_LIBC_TLS_SIZE t.offs).1 }) := by
    simp [privload_set_tls_offset, hci, hpl]
  have hoi := hloop.1 i (by omega)
  have hoj := hloop.1 j hj'
  rw [Nat.zero_add] at hoi hoj
  have hbi := hlt i (by omega)
  have hbj := hlt j hj'
  have hci' := to_int_cases _ hbi
  have hcj' := to_int_cases _ hbj
  have hbase : APP_LIBC_TLS_SIZE = 256 := rfl
  rw [hst]
  simp only [in_tls_block, tls_block_byte, tls_block_size_of_eq, hoi, hoj]
  generalize (spec_tls_offsets APP_LIBC_TLS_SIZE t.mods).getD i 0 = Oi at *
  generalize (spec_tls_offsets APP_LIBC_TLS_SIZE t.mods).getD j 0 = Oj at *
  generalize (t.mods.map fun m => m.os_privmod_data.tls_block_size).getD i 0 = si at *
  generalize (t.mods.map fun m => m.os_privmod_data.tls_block_size).getD j 0 = sj at *
  refine ⟨fun tp a => ?_, fun tp ki kj hki hkj => ?_⟩
  · rintro ⟨⟨h1, h2⟩, ⟨h3, h4⟩⟩
    rcases hci' with ⟨c1, e1⟩ | ⟨c1, e1⟩ <;> rcases hcj' with ⟨c2, e2⟩ | ⟨c2, e2⟩ <;>
      rw [e1] at h1 h2 <;> rw [e2] at h3 h4 <;> omega
  · rcases hci' with ⟨c1, e1⟩ | ⟨c1, e1⟩ <;> rcases hcj' with ⟨c2, e2⟩ | ⟨c2, e2⟩ <;>
      rw [e1, e2]
    · exact to_size_t_ne _ _ _ (by omega) (by omega)
    · exact (to_size_t_ne _ _ _ (by omega) (by omega)).symm
    · omega
    · exact to_size_t_ne _ _ _ (by omega) (by omega)

/-- C2, witness: four modules with alignments 8, 16, 1 and 64. -/
theorem privload_set_tls_offset_blocks_disjoint_witness :
    (∀ (tp a : Int),
      ¬ (in_tls_block (privload_set_tls_offset example_options 4096 example_tls_info).2 tp 1 a ∧
          in_tls_block (privload_set_tls_offset example_options 4096 example_tls_info).2 tp 3 a)) ∧
    (∀ (tp ki kj : Nat),
      ki < tls_block_size_of (privload_set_tls_offset example_options 4096 example_tls_info).2 1 →
      kj < tls_block_size_of (privload_set_tls_offset example_options 4096 example_tls_info).2 3 →
      tls_block_byte example_options.X64
          (privload_set_tls_offset example_options 4096 example_tls_info).2 tp 1 ki ≠
        tls_block_byte example_options.X64
          (privload_set_tls_offset example_options 4096 example_tls_info).2 tp 3 kj) :=
  privload_set_tls_offset_blocks_disjoint example_options 4096 example_tls_info ⟨rfl, rfl⟩
    (by
      intro m hm
      simp only [example_tls_info, List.mem_cons, List.mem_singleton, List.not_mem_nil,
        or_false] at hm
      rcases hm with rfl | rfl | rfl | rfl
      · exact ⟨3, rfl⟩
      · exact ⟨4, rfl⟩
      · exact ⟨0, rfl⟩
      · exact ⟨6, rfl⟩)
    (by decide) 1 3 (by decide) (by decide)

/-- C2, counterexample to the claim as stated: five modules with power-of-two
alignments, the first with an 8-byte block and four with blocks of 1 GiB.  The
offset of the last one passes `2 ^ 32` and is stored in `int offs[4]` as
`0x108`, the offset of the first module, so the byte at `tp - 0x108` belongs to
the blocks of module 0 and of module 4, in the 32-bit and in the 64-bit build. -/
theorem privload_set_tls_offset_blocks_overlap :
    (∀ m ∈ wrapping_tls_info.mods,
      m.os_privmod_data.tls_align = 2 ^ 3 ∨ m.os_privmod_data.tls_align = 2 ^ 0) ∧
    (∀ X64 : Bool,
      (privload_set_tls_offset ⟨X64, true, true, 1, 4096⟩ 4096 wrapping_tls_info).2.offs 0 = 0x108 ∧
      (privload_set_tls_offset ⟨X64, true, true, 1, 4096⟩ 4096 wrapping_tls_info).2.offs 4 = 0x108 ∧
      in_tls_block (privload_set_tls_offset ⟨X64, true, true, 1, 4096⟩ 4096 wrapping_tls_info).2
        0x10000 0 (0x10000 - 0x108) ∧
      in_tls_block (privload_set_tls_offset ⟨X64, true, true, 1, 4096⟩ 4096 wrapping_tls_info).2
        0x10000 4 (0x10000 - 0x108)) := by
  refine ⟨by decide, fun X64 => ?_⟩
  cases X64 <;>
    simp [privload_set_tls_offset, wrapping_tls_info, tls_module, privload_set_tls_offset_loop,
      tls_offset_step, tls_first_byte_pad, to_int, to_size_t, ALIGN_FORWARD, neg_uint, sub_uint,
      ptr_bits, APP_LIBC_TLS_SIZE, Function.update, in_tls_block, tls_block_size_of]

/-- C3: for a module id `m < tls_info.num_mods` and any offset,
`redirect___tls_get_addr({m, offset})` returns the pointer
`segment_base - offs[m] + offset`, which is the pointer returned for
`{m, 0}` advanced by `offset` bytes; when `segment_base - offs[m] + offset`
is itself a valid pointer value, no reduction takes place. -/
theorem redirect___tls_get_addr_spec (X64 : Bool) (seg_base : Nat) (t : tls_info_t)
    (m offset : Nat) (hm : m < t.num_mods) :
    redirect___tls_get_addr X64 seg_base t ⟨m, offset⟩ =
      some (to_size_t X64 ((seg_base : Int) - t.offs m + (offset : Int))) ∧
    (∃ base, redirect___tls_get_addr X64 seg_base t ⟨m, 0⟩ = some base ∧
      redirect___tls_get_addr X64 seg_base t ⟨m, offset⟩ = some (ptr_add X64 base offset)) ∧
    (∀ p : Nat, (p : Int) = (seg_base : Int) - t.offs m → p + offset < 2 ^ ptr_bits X64 →
      redirect___tls_get_addr X64 seg_base t ⟨m, 0⟩ = some p ∧
      redirect___tls_get_addr X64 seg_base t ⟨m, offset⟩ = some (p + offset)) := by
  have hM : (0 : Int) < (2 : Int) ^ ptr_bits X64 := by positivity
  have hcast : ((2 ^ ptr_bits X64 : Nat) : Int) = (2 : Int) ^ ptr_bits X64 := by push_cast; rfl
  refine ⟨by simp [redirect___tls_get_addr, hm], ⟨_, by simp [redirect___tls_get_addr, hm]; rfl, ?_⟩,
    fun p hp hlt => ?_⟩
  · simp only [redirect___tls_get_addr, hm, if_true, Option.some.injEq]
    unfold ptr_add to_size_t
    apply Int.ofNat_inj.mp
    have n1 := Int.emod_nonneg ((seg_base : Int) - t.offs m + (offset : Int)) (ne_of_gt hM)
    have n2 := Int.emod_nonneg ((seg_base : Int) - t.offs m + ((0 : Nat) : Int)) (ne_of_gt hM)
    simp only [Int.ofNat_eq_coe, Int.toNat_of_nonneg n1, Int.natCast_mod, Int.natCast_add,
      Int.toNat_of_nonneg n2, hcast]
    have n3 := Int.emod_nonneg ((seg_base : Int) - t.offs m) (ne_of_gt hM)
    rw [Int.toNat_of_nonneg n3, Int.emod_add_emod]
  · have e0 : to_size_t X64 ((seg_base : Int) - t.offs m + ((0 : Nat) : Int)) = p := by
      rw [← hp]; simp only [Nat.cast_zero, add_zero]
      unfold to_size_t
      rw [Int.emod_eq_of_lt (by omega) (by rw [← hcast]; exact_mod_cast (by omega : p < 2 ^ ptr_bits X64))]
      simp
    have e1 : to_size_t X64 ((seg_base : Int) - t.offs m + (offset : Int)) = p + offset := by
      rw [← hp]
      unfold to_size_t
      rw [Int.emod_eq_of_lt (by omega) (by rw [← hcast]; exact_mod_cast hlt)]
      exact_mod_cast Int.toNat_natCast (p + offset)
    simp only [redirect___tls_get_addr, hm, if_true, e0, e1, and_self]

/-- C3, witness: module 1 of the example layout, offset 12. -/
theorem redirect___tls_get_addr_spec_witness :
    redirect___tls_get_addr true 0x7f0000001000 example_layout ⟨1, 12⟩ =
      some (to_size_t true (((0x7f0000001000 : Nat) : Int) - example_layout.offs 1 +
        ((12 : Nat) : Int))) ∧
    (∃ base, redirect___tls_get_addr true 0x7f0000001000 example_layout ⟨1, 0⟩ = some base ∧
      redirect___tls_get_addr true 0x7f0000001000 example_layout ⟨1, 12⟩ =
        some (ptr_add true base 12)) ∧
    (∀ p : Nat, (p : Int) = ((0x7f0000001000 : Nat) : Int) - example_layout.offs 1 →
      p + 12 < 2 ^ ptr_bits true →
      redirect___tls_get_addr true 0x7f0000001000 example_layout ⟨1, 0⟩ = some p ∧
      redirect___tls_get_addr true 0x7f0000001000 example_layout ⟨1, 12⟩ = some (p + 12)) :=
  redirect___tls_get_addr_spec true 0x7f0000001000 example_layout 1 12 (by decide)

/-- C4: started at the first module of the registry, `privload_call_modules_entry`
calls `privload_call_entry` on exactly the modules that are not externally
loaded, each once: with `DLL_PROCESS_EXIT` in the order of the list, with
`DLL_PROCESS_INIT` in the reverse of that order, and the recursive walk is the
iteration over the reversed list. -/
theorem privload_call_modules_entry_order (X64 : Bool) (seg_base environ : Nat)
    (first : privmod_t) (next : List privmod_t) :
    (∃ tr, privload_call_modules_entry X64 seg_base environ (first :: next)
        reason_t.DLL_PROCESS_EXIT = some tr ∧
      entry_calls tr = ((first :: next).filter fun m => !m.externally_loaded).map
        fun m => (m, reason_t.DLL_PROCESS_EXIT)) ∧
    (∃ tr, privload_call_modules_entry X64 seg_base environ (first :: next)
        reason_t.DLL_PROCESS_INIT = some tr ∧
      entry_calls tr = ((first :: next).filter fun m => !m.externally_loaded).reverse.map
        (fun m => (m, reason_t.DLL_PROCESS_INIT)) ∧
      tr = (first :: next).reverse.flatMap fun m =>
        if !m.externally_loaded then
          (privload_call_entry X64 seg_base environ m reason_t.DLL_PROCESS_INIT).2
        else []) := by
  refine ⟨⟨_, rfl, ?_⟩, ⟨_, rfl, ?_, ?_⟩⟩
  · rw [privload_call_modules_entry_exit_eq, entry_calls_flatMap]
  · rw [privload_call_modules_entry_init_eq, entry_calls_flatMap, List.filter_reverse]
  · rw [privload_call_modules_entry_init_eq]; rfl

/-- C5 (amended): for a registry in which every module stands before all the
modules it depends on, the `DLL_PROCESS_INIT` walk that
`os_loader_thread_init_prologue` does through `privload_call_modules_entry`
calls the entry of a module only after the entries of the modules it depends
on: no module whose entry is called earlier depends on one whose entry is
called later.  The entries called are those of the modules that are not
externally loaded, in the reverse of the order of the registry. -/
theorem os_loader_thread_init_prologue_dependencies_first (X64 : Bool) (environ seg_base : Nat)
    (dep : privmod_t → privmod_t → Prop) (first : privmod_t) (next : List privmod_t)
    (horder : (first :: next).Pairwise fun earlier later => ¬ dep later earlier) :
    ∃ tr, os_loader_thread_init_prologue X64 environ (first :: next) seg_base false =
        some (true, tr) ∧
      entry_calls tr = ((first :: next).filter fun m => !m.externally_loaded).reverse.map
        (fun m => (m, reason_t.DLL_PROCESS_INIT)) ∧
      (entry_calls tr).Pairwise fun earlier later => ¬ dep earlier.1 later.1 := by
  have hcalls : entry_calls (privload_call_modules_entry_init X64 seg_base environ first next) =
      ((first :: next).filter fun m => !m.externally_loaded).reverse.map
        (fun m => (m, reason_t.DLL_PROCESS_INIT)) := by
    rw [privload_call_modules_entry_init_eq, entry_calls_flatMap, List.filter_reverse]
  refine ⟨privload_call_modules_entry_init X64 seg_base environ first next, rfl, hcalls, ?_⟩
  rw [hcalls, List.pairwise_map, List.pairwise_reverse]
  exact List.Pairwise.filter _ horder

/-- C5, witness: the diamond with the registry order A, B, C, D, after the
runtime image. -/
theorem os_loader_thread_init_prologue_dependencies_first_witness :
    ∃ tr, os_loader_thread_init_prologue true 0x7ffd0000 [libdynamorio, libA, libB, libC, libD]
        0x7f0000001000 false = some (true, tr) ∧
      entry_calls tr =
        ([libdynamorio, libA, libB, libC, libD].filter fun m => !m.externally_loaded).reverse.map
          (fun m => (m, reason_t.DLL_PROCESS_INIT)) ∧
      (entry_calls tr).Pairwise fun earlier later => ¬ depends_on earlier.1 later.1 :=
  os_loader_thread_init_prologue_dependencies_first true 0x7ffd0000 0x7f0000001000 depends_on
    libdynamorio [libA, libB, libC, libD] (by decide)

/-- C5, counterexample to the claim as stated: the diamond with the registry in
load order, the runtime image first and then D, B, C, A, so that every module
stands after the modules it depends on.  With TLS installed the walk calls the
initialisers in the order A, C, B, D: A is initialised before B, C and D. -/
theorem os_loader_thread_init_prologue_load_order :
    ([libdynamorio, libD, libB, libC, libA].Pairwise fun earlier later =>
      ¬ depends_on earlier later) ∧
    depends_on libA libB ∧ depends_on libA libC ∧ depends_on libB libD ∧ depends_on libC libD ∧
    ∃ tr, os_loader_thread_init_prologue true 0x7ffd0000
        [libdynamorio, libD, libB, libC, libA] 0x7f0000001000 false = some (true, tr) ∧
      lib_calls tr =
        [event.lib_func libA.os_privmod_data.init 1 ["dummy"] 0x7ffd0000,
         event.lib_func libC.os_privmod_data.init 1 ["dummy"] 0x7ffd0000,
         event.lib_func libB.os_privmod_data.init 1 ["dummy"] 0x7ffd0000,
         event.lib_func libD.os_privmod_data.init 1 ["dummy"] 0x7ffd0000] :=
  ⟨by decide, by decide, by decide, by decide, by decide, _, rfl, rfl⟩

/-- C6: while the TLS segment base is `NULL`, `privload_call_entry(mod, reason)`
returns true and calls no routine of the module, for every module and every
reason. -/
theorem privload_call_entry_without_tls (X64 : Bool) (environ : Nat) (mod : privmod_t)
    (reason : reason_t) :
    privload_call_entry X64 0 environ mod reason = (true, [event.call_entry mod reason]) ∧
    lib_calls (privload_call_entry X64 0 environ mod reason).2 = [] := by
  constructor <;> simp [privload_call_entry, lib_calls]

/-- C7: with TLS installed, `privload_call_entry(mod, DLL_PROCESS_INIT)` returns
true after calling `init` if it is not `NULL` and then, if `init_array` is not
`NULL`, `init_array[0], ..., init_array[n - 1]` in this order, each once, where
`n = init_arraysz / sizeof(fp_t)` and `sizeof(fp_t)` is 8 or 4; every routine
is called with `(1, {"dummy"}, __environ)`. -/
theorem privload_call_entry_process_init (X64 : Bool) (seg_base environ : Nat) (mod : privmod_t)
    (htls : seg_base ≠ 0) :
    privload_call_entry X64 seg_base environ mod reason_t.DLL_PROCESS_INIT =
      (true,
        [event.call_entry mod reason_t.DLL_PROCESS_INIT] ++
        (if mod.os_privmod_data.init ≠ 0 then
          [event.lib_func mod.os_privmod_data.init 1 ["dummy"] environ] else []) ++
        (match mod.os_privmod_data.init_array with
          | some init_array =>
            (List.range (mod.os_privmod_data.init_arraysz / (if X64 then 8 else 4))).map fun i =>
              event.lib_func (init_array i) 1 ["dummy"] environ
          | none => [])) := by
  rw [privload_call_entry_init_eq X64 seg_base environ mod htls, sizeof_fp_t_eq]

/-- C7, witness: a library with `init` and two `init_array` entries. -/
theorem privload_call_entry_process_init_witness :
    privload_call_entry true 0x7f0000001000 0x7ffd0000 libE reason_t.DLL_PROCESS_INIT =
      (true,
        [event.call_entry libE reason_t.DLL_PROCESS_INIT] ++
        (if libE.os_privmod_data.init ≠ 0 then
          [event.lib_func libE.os_privmod_data.init 1 ["dummy"] 0x7ffd0000] else []) ++
        (match libE.os_privmod_data.init_array with
          | some init_array =>
            (List.range (libE.os_privmod_data.init_arraysz / (if true then 8 else 4))).map
              fun i => event.lib_func (init_array i) 1 ["dummy"] 0x7ffd0000
          | none => [])) :=
  privload_call_entry_process_init true 0x7f0000001000 0x7ffd0000 libE (by decide)

/-- C8, the code at the failing inputs.  With TLS installed and
`DLL_PROCESS_EXIT`, a library with `init_arraysz = 0` and two `fini_array`
entries gets `fini` called and no `fini_array` entry; a library with three
`init_array` entries and one `fini_array` entry gets the words at
`fini_array[1]` and `fini_array[2]`, beyond its array, called as well.  In
general the loop over `fini_array` runs up to `init_arraysz / sizeof(fp_t)`. -/
theorem privload_call_entry_process_exit_bound :
    lib_calls (privload_call_entry true 0x7f0000001000 0x7ffd0000 libF
        reason_t.DLL_PROCESS_EXIT).2 =
      [event.lib_func 0xf10 1 ["dummy"] 0x7ffd0000] ∧
    libF.os_privmod_data.fini_arraysz / sizeof_fp_t true = 2 ∧
    lib_calls (privload_call_entry true 0x7f0000001000 0x7ffd0000 libG
        reason_t.DLL_PROCESS_EXIT).2 =
      [event.lib_func 0x910 1 ["dummy"] 0x7ffd0000,
       event.lib_func 0x940 1 ["dummy"] 0x7ffd0000,
       event.lib_func 0xdead 1 ["dummy"] 0x7ffd0000,
       event.lib_func 0xdead 1 ["dummy"] 0x7ffd0000] ∧
    libG.os_privmod_data.fini_arraysz / sizeof_fp_t true = 1 ∧
    (∀ (X64 : Bool) (seg_base environ : Nat) (mod : privmod_t) (fini_array : Nat → fp_t),
      seg_base ≠ 0 → mod.os_privmod_data.fini_array = some fini_array →
      lib_calls (privload_call_entry X64 seg_base environ mod reason_t.DLL_PROCESS_EXIT).2 =
        (if mod.os_privmod_data.fini ≠ 0 then
          [event.lib_func mod.os_privmod_data.fini 1 ["dummy"] environ] else []) ++
        (List.range (mod.os_privmod_data.init_arraysz / sizeof_fp_t X64)).map fun i =>
          event.lib_func (fini_array i) 1 ["dummy"] environ) := by
  refine ⟨rfl, rfl, rfl, rfl, ?_⟩
  intro X64 seg_base environ mod fini_array htls hfa
  rw [privload_call_entry_exit_eq X64 seg_base environ mod htls, hfa]
  simp only [lib_calls, List.filter_append, List.filter_map]
  have h1 : ∀ l : List Nat, List.filter ((fun e : event =>
      match e with
      | event.lib_func _ _ _ _ => true
      | _ => false) ∘ fun i => event.lib_func (fini_array i) 1 ["dummy"] environ) l = l := by
    intro l
    rw [List.filter_eq_self]
    intro a _; rfl
  rw [h1]
  by_cases hf : mod.os_privmod_data.fini = 0 <;> simp [hf]

/-- C9 (amended): over a sequence of calls of `os_loader_thread_init_prologue`
whose first call happens with TLS installed, on a registry that is not empty,
the first call invokes `DLL_PROCESS_INIT` for every module that is not
externally loaded and runs the initialisers of each such module once; every
later call invokes nothing, whatever the TLS segment base is then. -/
theorem thread_init_prologues_once (X64 : Bool) (environ : Nat) (first : privmod_t)
    (next : List privmod_t) (seg_base : Nat) (later : List Nat) (htls : seg_base ≠ 0) :
    ∃ tr, thread_init_prologues X64 environ (first :: next) (seg_base :: later) false =
        some (true, tr :: List.replicate later.length []) ∧
      entry_calls tr = ((first :: next).filter fun m => !m.externally_loaded).reverse.map
        (fun m => (m, reason_t.DLL_PROCESS_INIT)) ∧
      lib_calls tr = ((first :: next).filter fun m => !m.externally_loaded).reverse.flatMap
        (initializer_calls X64 environ) := by
  refine ⟨privload_call_modules_entry_init X64 seg_base environ first next, ?_, ?_, ?_⟩
  · simp [thread_init_prologues, os_loader_thread_init_prologue, privload_call_modules_entry,
      thread_init_prologues_initialized]
  · rw [privload_call_modules_entry_init_eq, entry_calls_flatMap, List.filter_reverse]
  · rw [privload_call_modules_entry_init_eq, lib_calls_flatMap_init X64 seg_base environ htls,
      List.filter_reverse]

/-- C9, witness: three calls, the first with TLS installed. -/
theorem thread_init_prologues_once_witness :
    ∃ tr, thread_init_prologues true 0x7ffd0000 [libdynamorio, libE]
        [0x7f0000001000, 0, 0x7f0000002000] false =
        some (true, tr :: List.replicate [0, 0x7f0000002000].length []) ∧
      entry_calls tr = ([libdynamorio, libE].filter fun m => !m.externally_loaded).reverse.map
        (fun m => (m, reason_t.DLL_PROCESS_INIT)) ∧
      lib_calls tr = ([libdynamorio, libE].filter fun m => !m.externally_loaded).reverse.flatMap
        (initializer_calls true 0x7ffd0000) :=
  thread_init_prologues_once true 0x7ffd0000 libdynamorio [libE] 0x7f0000001000
    [0, 0x7f0000002000] (by decide)

/-- C9, counterexample to the claim as stated: a first call while the TLS
segment base is `NULL`, then a call with TLS installed.  The first call enters
`privload_call_entry`, which returns without calling anything, and sets
`privmod_initialized`; the second call, the first one after TLS is installed,
invokes nothing, so the initialisers of the library never run. -/
theorem thread_init_prologues_first_without_tls :
    thread_init_prologues true 0x7ffd0000 [libdynamorio, libE] [0, 0x7f0000001000] false =
      some (true, [[event.call_entry libE reason_t.DLL_PROCESS_INIT], []]) ∧
    initializer_calls true 0x7ffd0000 libE =
      [event.lib_func 0xe00 1 ["dummy"] 0x7ffd0000, event.lib_func 0xe20 1 ["dummy"] 0x7ffd0000,
       event.lib_func 0xe30 1 ["dummy"] 0x7ffd0000] :=
  ⟨rfl, rfl⟩

/-- C10: `privload_process_imports(mod)` returns for a dynamic section that has a
`DT_NULL` entry.  When it returns true it has looked up every `DT_NEEDED` name
up to `DT_NULL`, in order, each name was found by `privload_lookup` or loaded
by `privload_locate_and_load`, no load failed, and `privload_relocate_mod(mod)`
is called after all of that, as the last step, if and only if `mod` is not
externally loaded; if loading registers what it loads and removes nothing,
every needed name is then in the registry.  When it returns false, a needed name
was not found and could not be loaded, nothing was relocated and the entries
after that name were not processed. -/
theorem privload_process_imports_spec (c : collaborators_t) (registry : List privmod_t)
    (mod : privmod_t) :
    ((∃ e ∈ mod.os_privmod_data.dyn, e.d_tag = DT_NULL) →
      ∃ r, privload_process_imports c registry mod = some r) ∧
    (∀ (ok : Bool) (registry' : List privmod_t) (tr : List event),
      privload_process_imports c registry mod = some (ok, registry', tr) →
      (ok = true →
        ∃ resolution, tr = resolution ++
            (if mod.externally_loaded then [] else [event.relocate_mod mod]) ∧
          (∀ e ∈ resolution, is_relocate_mod e = false ∧ is_failed_load e = false) ∧
          lookup_names resolution = needed_names mod ∧
          (∀ name ∈ needed_names mod,
            event.lookup name true ∈ resolution ∨
              event.locate_and_load name mod true ∈ resolution) ∧
          (loads_register c → ∀ name ∈ needed_names mod, registered registry' name = true)) ∧
      (ok = false →
        (∀ e ∈ tr, is_relocate_mod e = false) ∧
        ∃ done name later,
          tr = done ++ [event.lookup name false, event.locate_and_load name mod false] ∧
          (∀ e ∈ done, is_failed_load e = false) ∧
          needed_names mod = lookup_names done ++ name :: later)) := by
  constructor
  · intro hnull
    obtain ⟨r, hr⟩ := privload_process_imports_loop_returns c mod mod.os_privmod_data.dynstr
      mod.os_privmod_data.dyn registry hnull
    obtain ⟨ok, reg', tr⟩ := r
    unfold privload_process_imports
    rw [hr]
    cases ok <;> simp
  · intro ok registry' tr h
    unfold privload_process_imports at h
    cases hr : privload_process_imports_loop c mod mod.os_privmod_data.dynstr
        mod.os_privmod_data.dyn registry with
    | none => simp [hr] at h
    | some r =>
      obtain ⟨ok1, reg1, tr1⟩ := r
      obtain ⟨i1, i2, i3⟩ := privload_process_imports_loop_trace c mod
        mod.os_privmod_data.dynstr mod.os_privmod_data.dyn registry ok1 reg1 tr1 hr
      cases ok1 with
      | false =>
        simp only [hr, Option.some.injEq, Prod.mk.injEq] at h
        obtain ⟨rfl, rfl, rfl⟩ := h
        refine ⟨by simp, fun _ => ⟨i1, ?_⟩⟩
        obtain ⟨done, name, hd, hf, later, hl⟩ := i3 rfl
        exact ⟨done, name, later, hd, hf, hl⟩
      | true =>
        simp only [hr, Option.some.injEq, Prod.mk.injEq] at h
        obtain ⟨rfl, rfl, rfl⟩ := h
        refine ⟨fun _ => ?_, by simp⟩
        obtain ⟨j1, j2, j3⟩ := i2 rfl
        refine ⟨tr1, ?_, fun e he => ⟨i1 e he, j2 e he⟩, j1, j3, fun hload => ?_⟩
        · cases mod.externally_loaded <;> rfl
        · exact (privload_process_imports_loop_registered c mod mod.os_privmod_data.dynstr hload
            mod.os_privmod_data.dyn registry reg1 tr1 hr).2

/-- C10, witness: the imports of A with C already registered and B to be loaded;
the example collaborators register what they load. -/
theorem privload_process_imports_spec_witness :
    ∃ registry' tr,
      privload_process_imports example_collaborators [libdynamorio, libC, libA] libA =
        some (true, registry', tr) ∧
      (∀ name ∈ needed_names libA, registered registry' name = true) :=
  ⟨_, _, rfl, by
    obtain ⟨_, _, _, _, _, h⟩ :=
      ((privload_process_imports_spec example_collaborators [libdynamorio, libC, libA] libA).2
        true _ _ rfl).1 rfl
    exact h loads_register_example⟩

/-! ### The search-path resolver -/

/-- A loop of `privload_locate` over a list of directories returns the first
accepted candidate of that list, and goes on when there is none. -/
theorem locate_in_dirs_spec (fs : file_system_t) (MAXIMUM_PATH : Nat) (name : String) :
    ∀ (dirs : List String) (filename : String),
      (∀ f, (dirs.map fun dir => snprintf_path MAXIMUM_PATH (dir ++ "/" ++ name)).find?
          (accepts fs) = some f →
        locate_in_dirs fs MAXIMUM_PATH name dirs filename = (true, f)) ∧
      ((dirs.map fun dir => snprintf_path MAXIMUM_PATH (dir ++ "/" ++ name)).find?
          (accepts fs) = none →
        (locate_in_dirs fs MAXIMUM_PATH name dirs filename).1 = false) := by
  intro dirs
  induction dirs with
  | nil => intro filename; simp [locate_in_dirs]
  | cons dir rest ih =>
    intro filename
    simp only [List.map_cons, List.find?_cons, locate_in_dirs]
    cases h : accepts fs (snprintf_path MAXIMUM_PATH (dir ++ "/" ++ name))
    · simpa using ih (snprintf_path MAXIMUM_PATH (dir ++ "/" ++ name))
    · simp

/-- `privload_locate` returns the first accepted candidate, if there is one. -/
theorem privload_locate_eq_find (fs : file_system_t) (MAXIMUM_PATH : Nat) (X64 : Bool)
    (search_paths : List String) (ld_library_path : Option String) (name filename : String) :
    (∀ f, (locate_candidates MAXIMUM_PATH X64 search_paths ld_library_path name).find?
        (accepts fs) = some f →
      privload_locate fs MAXIMUM_PATH X64 search_paths ld_library_path name filename =
        (true, f)) ∧
    ((locate_candidates MAXIMUM_PATH X64 search_paths ld_library_path name).find?
        (accepts fs) = none →
      (privload_locate fs MAXIMUM_PATH X64 search_paths ld_library_path name filename).1 =
        false) := by
  unfold locate_candidates privload_locate
  simp only [List.find?_append, List.find?_cons, List.find?_nil]
  have h1 := locate_in_dirs_spec fs MAXIMUM_PATH name search_paths filename
  rcases hr1 : locate_in_dirs fs MAXIMUM_PATH name search_paths filename with ⟨b1, f1⟩
  rw [hr1] at h1
  cases hf1 : (search_paths.map fun dir =>
      snprintf_path MAXIMUM_PATH (dir ++ "/" ++ name)).find? (accepts fs) with
  | some g =>
    have := h1.1 g hf1
    simp only [Prod.mk.injEq] at this
    obtain ⟨rfl, rfl⟩ := this
    simp [Option.or]
  | none =>
    have hb1 : b1 = false := h1.2 hf1
    subst hb1
    simp only [Option.or]
    cases hcur : accepts fs (snprintf_path MAXIMUM_PATH ("./" ++ name))
    · simp only [Bool.false_eq_true, if_false]
      have h3 := locate_in_dirs_spec fs MAXIMUM_PATH name (ld_library_path_dirs ld_library_path)
        (snprintf_path MAXIMUM_PATH ("./" ++ name))
      rcases hr3 : locate_in_dirs fs MAXIMUM_PATH name (ld_library_path_dirs ld_library_path)
        (snprintf_path MAXIMUM_PATH ("./" ++ name)) with ⟨b3, f3⟩
      rw [hr3] at h3
      cases hf3 : ((ld_library_path_dirs ld_library_path).map fun dir =>
          snprintf_path MAXIMUM_PATH (dir ++ "/" ++ name)).find? (accepts fs) with
      | some g =>
        have := h3.1 g hf3
        simp only [Prod.mk.injEq] at this
        obtain ⟨rfl, rfl⟩ := this
        simp
      | none =>
        have hb3 : b3 = false := h3.2 hf3
        subst hb3
        have h4 := locate_in_dirs_spec fs MAXIMUM_PATH name (system_lib_paths X64) f3
        simpa using h4
    · simp

theorem snprintf_path_fits (MAXIMUM_PATH : Nat) (s : String) (h : s.length < MAXIMUM_PATH) :
    snprintf_path MAXIMUM_PATH s = s := by
  unfold snprintf_path
  have : s.data.length ≤ MAXIMUM_PATH - 1 := by
    have : s.data.length = s.length := rfl
    omega
  rw [List.take_of_length_le this]

/-- C11 (amended): `privload_locate(name)` tries, in this order, the candidates
for the client-lib search paths by increasing index, for the current directory,
for the colon-separated pieces of `LD_LIBRARY_PATH` from left to right and for
the entries of `system_lib_paths`; a candidate is the text `dir/name` cut to the
`MAXIMUM_PATH - 1` characters that fit the buffer, and is `dir/name` itself when
that fits.  It returns true with `filename` holding the first candidate for
which `os_file_exists(candidate, false)` and `os_file_has_elf_so_header(candidate)`
hold, and returns false if and only if no candidate satisfies both.  With
`LD_LIBRARY_PATH=/a:/b` and the library valid in `/a`, `/b` and `/usr/lib` only,
it returns `/a/name`. -/
theorem privload_locate_order (fs : file_system_t) (MAXIMUM_PATH : Nat) (X64 : Bool)
    (search_paths : List String) (ld_library_path : Option String) (name filename : String) :
    (∀ f, (locate_candidates MAXIMUM_PATH X64 search_paths ld_library_path name).find?
        (accepts fs) = some f →
      privload_locate fs MAXIMUM_PATH X64 search_paths ld_library_path name filename =
        (true, f)) ∧
    ((privload_locate fs MAXIMUM_PATH X64 search_paths ld_library_path name filename).1 = false ↔
      ∀ f ∈ locate_candidates MAXIMUM_PATH X64 search_paths ld_library_path name,
        accepts fs f = false) ∧
    ((privload_locate fs MAXIMUM_PATH X64 search_paths ld_library_path name filename).1 = true →
      ∃ before after,
        locate_candidates MAXIMUM_PATH X64 search_paths ld_library_path name =
          before ++
            (privload_locate fs MAXIMUM_PATH X64 search_paths ld_library_path name filename).2 ::
            after ∧
        (∀ f ∈ before, accepts fs f = false) ∧
        accepts fs
          (privload_locate fs MAXIMUM_PATH X64 search_paths ld_library_path name filename).2 =
          true) ∧
    (∀ dir : String, (dir ++ "/" ++ name).length < MAXIMUM_PATH →
      snprintf_path MAXIMUM_PATH (dir ++ "/" ++ name) = dir ++ "/" ++ name) ∧
    (("./" ++ name).length < MAXIMUM_PATH →
      snprintf_path MAXIMUM_PATH ("./" ++ name) = "./" ++ name) ∧
    privload_locate (files ["/a/libx.so", "/b/libx.so", "/usr/lib/libx.so"]) 260 X64 []
      (some "/a:/b") "libx.so" filename = (true, "/a/libx.so") := by
  have hfind := privload_locate_eq_find fs MAXIMUM_PATH X64 search_paths ld_library_path name
    filename
  refine ⟨hfind.1, ?_, ?_, fun dir h => snprintf_path_fits _ _ h,
    fun h => snprintf_path_fits _ _ h, ?_⟩
  · constructor
    · intro hfalse f hf
      cases hacc : accepts fs f
      · rfl
      · have hsome : ((locate_candidates MAXIMUM_PATH X64 search_paths ld_library_path
            name).find? (accepts fs)).isSome = true :=
          List.find?_isSome.mpr ⟨f, hf, hacc⟩
        obtain ⟨g, hg⟩ := Option.isSome_iff_exists.mp hsome
        rw [hfind.1 g hg] at hfalse
        exact absurd hfalse (by simp)
    · intro hall
      apply hfind.2
      rw [List.find?_eq_none]
      intro f hf
      simp [hall f hf]
  · intro htrue
    cases hc : (locate_candidates MAXIMUM_PATH X64 search_paths ld_library_path name).find?
        (accepts fs) with
    | none => rw [hfind.2 hc] at htrue; exact absurd htrue (by simp)
    | some g =>
      rw [hfind.1 g hc]
      obtain ⟨hg, before, after, hsplit, hbefore⟩ := List.find?_eq_some.mp hc
      refine ⟨before, after, hsplit, fun f hf => ?_, hg⟩
      simpa using hbefore f hf
  · cases X64 <;> rfl

set_option maxRecDepth 100000 in
/-- C11, counterexample to the claim as stated: with `MAXIMUM_PATH = 260`, the
client-lib directory `/d` and a library name of 300 characters, the candidate
is the text `/d/name` cut to 259 characters.  When a valid library is stored
under that shorter name, and none under `dir/name` for any directory of the
search, `privload_locate` returns true with the shorter name in `filename`. -/
theorem privload_locate_cut_candidate :
    privload_locate (files [snprintf_path 260 ("/d/" ++ long_name)]) 260 true ["/d"] none
      long_name "" = (true, snprintf_path 260 ("/d/" ++ long_name)) ∧
    (∀ dir ∈ ["/d", "."] ++ system_lib_paths true,
      accepts (files [snprintf_path 260 ("/d/" ++ long_name)]) (dir ++ "/" ++ long_name) =
        false) ∧
    ("/d/" ++ long_name).length = 302 ∧
    (snprintf_path 260 ("/d/" ++ long_name)).length = 259 := by
  refine ⟨by decide, by decide, by decide, by decide⟩

/-! ### The segment mapper -/

theorem closed_fds_append (a b : List vm_event) :
    closed_fds (a ++ b) = closed_fds a ++ closed_fds b := by
  simp [closed_fds, List.filterMap_append]

theorem memset_calls_append (a b : List vm_event) :
    memset_calls (a ++ b) = memset_calls a ++ memset_calls b := by
  simp [memset_calls, List.filter_append]

/-- The processing of one program header closes no descriptor. -/
theorem closed_fds_map_segment (w : vm_world_t) (X64 : Bool) (PAGE_SIZE : Nat) (tracked : Bool)
    (fd : Int) (delta : Int) (prog_hdr : ELF_PROGRAM_HEADER_TYPE) (last_end : Nat) :
    closed_fds (map_segment w X64 PAGE_SIZE tracked fd delta prog_hdr last_end).2 = [] := by
  unfold map_segment
  by_cases h : prog_hdr.p_type = PT_LOAD
  · simp only [h, if_true, closed_fds_append]
    split_ifs <;> simp [closed_fds]
  · simp [h, closed_fds]

/-- The loop over the program headers closes no descriptor. -/
theorem closed_fds_map_segments_loop (w : vm_world_t) (X64 : Bool) (PAGE_SIZE : Nat)
    (tracked : Bool) (fd : Int) (delta : Int) (file_map : Nat) (elf_hdr : ELF_HEADER_TYPE) :
    ∀ (count i last_end : Nat),
      closed_fds (map_segments_loop w X64 PAGE_SIZE tracked fd delta file_map elf_hdr i count
        last_end).2 = [] := by
  intro count
  induction count with
  | zero => intro i last_end; rfl
  | succ n ih =>
    intro i last_end
    simp only [map_segments_loop, closed_fds_append, closed_fds_map_segment, ih, List.append_nil]

theorem exists_before_last {α : Type} (l : List α) (a b : α) :
    ∃ before, l ++ [a, b] = before ++ [b] :=
  ⟨l ++ [a], by simp⟩

/-- C12: `privload_map_and_relocate` returns `NULL` when `os_open` fails, when
`os_get_file_size_by_handle` fails, when the temporary mapping of the whole
file fails and when the mapped file has no ELF shared-object header.  When the
open fails nothing is closed.  On every return that follows a successful open
the descriptor is closed exactly once, as the last call; when the temporary
mapping was not made nothing is unmapped, and when it was made it is unmapped
right before the descriptor is closed, on the failure return and on the
success return. -/
theorem privload_map_and_relocate_releases (w : vm_world_t) (X64 : Bool) (PAGE_SIZE : Nat)
    (filename : String) (size : Nat) :
    (w.os_open filename = INVALID_FILE →
      privload_map_and_relocate w X64 PAGE_SIZE filename size =
        (0, size, [vm_event.os_open filename INVALID_FILE])) ∧
    (w.os_open filename ≠ INVALID_FILE →
      closed_fds (privload_map_and_relocate w X64 PAGE_SIZE filename size).2.2 =
        [w.os_open filename] ∧
      ∃ before, (privload_map_and_relocate w X64 PAGE_SIZE filename size).2.2 =
        before ++ [vm_event.os_close (w.os_open filename)]) ∧
    (w.os_open filename ≠ INVALID_FILE →
      w.os_get_file_size_by_handle (w.os_open filename) = none →
      (privload_map_and_relocate w X64 PAGE_SIZE filename size).1 = 0 ∧
      ∀ e ∈ (privload_map_and_relocate w X64 PAGE_SIZE filename size).2.2,
        is_map e = false ∧ is_unmap e = false) ∧
    (∀ file_size, w.os_open filename ≠ INVALID_FILE →
      w.os_get_file_size_by_handle (w.os_open filename) = some file_size →
      ((temporary_map w X64 (w.os_open filename) file_size).1 = 0 →
        (privload_map_and_relocate w X64 PAGE_SIZE filename size).1 = 0 ∧
        ∀ e ∈ (privload_map_and_relocate w X64 PAGE_SIZE filename size).2.2,
          is_unmap e = false) ∧
      ((temporary_map w X64 (w.os_open filename) file_size).1 ≠ 0 →
        (∃ before, (privload_map_and_relocate w X64 PAGE_SIZE filename size).2.2 =
          before ++
            [vm_event.unmap w.dynamo_heap_initialized
              (temporary_map w X64 (w.os_open filename) file_size).1 (to_size_t X64 file_size),
             vm_event.os_close (w.os_open filename)]) ∧
        (w.is_elf_so_header (temporary_map w X64 (w.os_open filename) file_size).1
            (temporary_map w X64 (w.os_open filename) file_size).2 = false →
          (privload_map_and_relocate w X64 PAGE_SIZE filename size).1 = 0))) := by
  refine ⟨fun h => ?_, fun h => ?_, fun h hs => ?_,
    fun file_size h hs => ⟨fun hm => ?_, fun hm => ?_⟩⟩
  · simp [privload_map_and_relocate, h]
  · unfold privload_map_and_relocate
    simp only [h, if_false]
    cases hs : w.os_get_file_size_by_handle (w.os_open filename) with
    | none =>
      exact ⟨by simp [closed_fds],
        ⟨[vm_event.os_open filename (w.os_open filename),
          vm_event.os_get_file_size_by_handle (w.os_open filename) none], rfl⟩⟩
    | some file_size =>
      simp only []
      split_ifs with hm he
      · exact ⟨by simp [closed_fds], ⟨_, rfl⟩⟩
      · exact ⟨by simp [closed_fds], exists_before_last _ _ _⟩
      · refine ⟨?_, exists_before_last _ _ _⟩
        simp only [closed_fds_append, closed_fds_map_segments_loop]
        simp [closed_fds]
  · simp [privload_map_and_relocate, h, hs, is_map, is_unmap]
  · unfold temporary_map at hm
    simp [privload_map_and_relocate, h, hs, hm, is_unmap]
  · unfold temporary_map at hm ⊢
    unfold privload_map_and_relocate
    simp only [h, if_false, hs, hm]
    constructor
    · split_ifs with he
      · exact ⟨_, rfl⟩
      · exact ⟨_, rfl⟩
    · intro he
      simp [he]

/-- The `memset` calls made for one program header. -/
theorem memset_calls_map_segment (w : vm_world_t) (X64 : Bool) (PAGE_SIZE : Nat) (tracked : Bool)
    (fd : Int) (delta : Int) (prog_hdr : ELF_PROGRAM_HEADER_TYPE) (last_end : Nat) :
    memset_calls (map_segment w X64 PAGE_SIZE tracked fd delta prog_hdr last_end).2 =
      segment_zero_fill X64 PAGE_SIZE delta prog_hdr := by
  unfold map_segment segment_zero_fill
  by_cases h : prog_hdr.p_type = PT_LOAD
  · simp only [h, if_true, memset_calls_append]
    split_ifs <;> simp [memset_calls]
  · simp [h, memset_calls]

/-- The `memset` calls of the loop over the program headers: those of each
header, in the order of the headers. -/
theorem memset_calls_map_segments_loop (w : vm_world_t) (X64 : Bool) (PAGE_SIZE : Nat)
    (tracked : Bool) (fd : Int) (delta : Int) (file_map : Nat) (elf_hdr : ELF_HEADER_TYPE) :
    ∀ (count i last_end : Nat),
      memset_calls (map_segments_loop w X64 PAGE_SIZE tracked fd delta file_map elf_hdr i count
        last_end).2 =
      (List.range' i count).flatMap fun k =>
        segment_zero_fill X64 PAGE_SIZE delta
          (w.prog_hdr (to_size_t X64 ((file_map : Int) + elf_hdr.e_phoff +
            k * elf_hdr.e_phentsize))) := by
  intro count
  induction count with
  | zero => intro i last_end; rfl
  | succ n ih =>
    intro i last_end
    simp only [map_segments_loop, memset_calls_append, memset_calls_map_segment, ih,
      List.range'_succ, List.flatMap_cons]

/-- A value below `2 ^ ptr_bits` is its own conversion to `size_t`. -/
theorem to_size_t_of_lt (X64 : Bool) (n : Nat) (h : n < 2 ^ ptr_bits X64) :
    to_size_t X64 (n : Int) = n := by
  unfold to_size_t
  have : ((n : Int) % (2 : Int) ^ ptr_bits X64) = (n : Int) := by
    apply Int.emod_eq_of_lt (by positivity)
    exact_mod_cast h
  rw [this]; simp

/-- The zero fill and the final protection of a segment whose addresses do not
wrap, in plain numbers. -/
theorem segment_plain (w : vm_world_t) (X64 : Bool) (PAGE_SIZE : Nat) (tracked : Bool)
    (prog_hdr : ELF_PROGRAM_HEADER_TYPE) (d : Nat) (hload : prog_hdr.p_type = PT_LOAD)
    (hpage : 0 < PAGE_SIZE) (hsz : prog_hdr.p_filesz ≤ prog_hdr.p_memsz)
    (hfit : prog_hdr.p_vaddr + prog_hdr.p_memsz + PAGE_SIZE + d ≤ 2 ^ ptr_bits X64) :
    segment_zero_fill X64 PAGE_SIZE (d : Int) prog_hdr =
      (if (prog_hdr.p_vaddr + prog_hdr.p_filesz + (PAGE_SIZE - 1)) / PAGE_SIZE * PAGE_SIZE >
          prog_hdr.p_vaddr + prog_hdr.p_filesz then
        [vm_event.memset (prog_hdr.p_vaddr + prog_hdr.p_filesz + d) 0
          ((prog_hdr.p_vaddr + prog_hdr.p_filesz + (PAGE_SIZE - 1)) / PAGE_SIZE * PAGE_SIZE -
            (prog_hdr.p_vaddr + prog_hdr.p_filesz))]
      else []) ∧
    segment_final_protect w X64 PAGE_SIZE tracked (d : Int) prog_hdr =
      vm_event.protect tracked (prog_hdr.p_vaddr / PAGE_SIZE * PAGE_SIZE + d)
        ((prog_hdr.p_vaddr + prog_hdr.p_memsz + (PAGE_SIZE - 1)) / PAGE_SIZE * PAGE_SIZE -
          prog_hdr.p_vaddr / PAGE_SIZE * PAGE_SIZE)
        (w.module_segment_prot_to_osprot prog_hdr) := by
  have hpage1 : 1 ≤ PAGE_SIZE := hpage
  -- facts about rounding
  have hf1 := le_round_up (prog_hdr.p_vaddr + prog_hdr.p_filesz) PAGE_SIZE hpage1
  have hm1 := le_round_up (prog_hdr.p_vaddr + prog_hdr.p_memsz) PAGE_SIZE hpage1
  have hf2 : (prog_hdr.p_vaddr + prog_hdr.p_filesz + (PAGE_SIZE - 1)) / PAGE_SIZE * PAGE_SIZE ≤
      prog_hdr.p_vaddr + prog_hdr.p_filesz + (PAGE_SIZE - 1) := Nat.div_mul_le_self _ _
  have hm2 : (prog_hdr.p_vaddr + prog_hdr.p_memsz + (PAGE_SIZE - 1)) / PAGE_SIZE * PAGE_SIZE ≤
      prog_hdr.p_vaddr + prog_hdr.p_memsz + (PAGE_SIZE - 1) := Nat.div_mul_le_self _ _
  have hb : prog_hdr.p_vaddr / PAGE_SIZE * PAGE_SIZE ≤ prog_hdr.p_vaddr := Nat.div_mul_le_self _ _
  -- the machine operations without wrap
  have eAF : ALIGN_FORWARD X64 (prog_hdr.p_vaddr + prog_hdr.p_filesz) PAGE_SIZE =
      (prog_hdr.p_vaddr + prog_hdr.p_filesz + (PAGE_SIZE - 1)) / PAGE_SIZE * PAGE_SIZE := by
    unfold ALIGN_FORWARD; rw [Nat.mod_eq_of_lt (by omega)]
  have eAM : ALIGN_FORWARD X64 (prog_hdr.p_vaddr + prog_hdr.p_memsz) PAGE_SIZE =
      (prog_hdr.p_vaddr + prog_hdr.p_memsz + (PAGE_SIZE - 1)) / PAGE_SIZE * PAGE_SIZE := by
    unfold ALIGN_FORWARD; rw [Nat.mod_eq_of_lt (by omega)]
  have eAB : ALIGN_BACKWARD X64 prog_hdr.p_vaddr PAGE_SIZE =
      prog_hdr.p_vaddr / PAGE_SIZE * PAGE_SIZE := by
    unfold ALIGN_BACKWARD; rw [Nat.mod_eq_of_lt (by omega)]
  generalize hRF : (prog_hdr.p_vaddr + prog_hdr.p_filesz + (PAGE_SIZE - 1)) / PAGE_SIZE *
    PAGE_SIZE = RF at *
  generalize hRM : (prog_hdr.p_vaddr + prog_hdr.p_memsz + (PAGE_SIZE - 1)) / PAGE_SIZE *
    PAGE_SIZE = RM at *
  generalize hRB : prog_hdr.p_vaddr / PAGE_SIZE * PAGE_SIZE = RB at *
  have c1 : to_size_t X64 ((prog_hdr.p_vaddr : Int) + prog_hdr.p_filesz) =
      prog_hdr.p_vaddr + prog_hdr.p_filesz := by
    rw [show ((prog_hdr.p_vaddr : Int) + prog_hdr.p_filesz) =
      ((prog_hdr.p_vaddr + prog_hdr.p_filesz : Nat) : Int) by push_cast; rfl]
    exact to_size_t_of_lt X64 _ (by omega)
  have c2 : to_size_t X64 (((prog_hdr.p_vaddr + prog_hdr.p_filesz : Nat) : Int) + (d : Int)) =
      prog_hdr.p_vaddr + prog_hdr.p_filesz + d := by
    rw [show (((prog_hdr.p_vaddr + prog_hdr.p_filesz : Nat) : Int) + (d : Int)) =
      ((prog_hdr.p_vaddr + prog_hdr.p_filesz + d : Nat) : Int) by push_cast; rfl]
    exact to_size_t_of_lt X64 _ (by omega)
  have c3 : to_size_t X64 ((RF : Int) + (d : Int)) = RF + d := by
    rw [show ((RF : Int) + (d : Int)) = ((RF + d : Nat) : Int) by push_cast; rfl]
    exact to_size_t_of_lt X64 _ (by omega)
  have c4 : to_size_t X64 ((RM : Int) + (d : Int)) = RM + d := by
    rw [show ((RM : Int) + (d : Int)) = ((RM + d : Nat) : Int) by push_cast; rfl]
    exact to_size_t_of_lt X64 _ (by omega)
  have c5 : to_size_t X64 ((RB : Int) + (d : Int)) = RB + d := by
    rw [show ((RB : Int) + (d : Int)) = ((RB + d : Nat) : Int) by push_cast; rfl]
    exact to_size_t_of_lt X64 _ (by omega)
  have hmono : RF ≤ RM := by
    rw [← hRF, ← hRM]
    exact Nat.mul_le_mul_right _ (Nat.div_le_div_right (by omega))
  constructor
  · unfold segment_zero_fill
    simp only [hload, if_true, eAF, c1, c2, c3]
    by_cases hgt : RF > prog_hdr.p_vaddr + prog_hdr.p_filesz
    · have c6 : to_size_t X64 (((RF + d : Nat) : Int) -
          ((prog_hdr.p_vaddr + prog_hdr.p_filesz + d : Nat) : Int)) =
          RF - (prog_hdr.p_vaddr + prog_hdr.p_filesz) := by
        rw [show (((RF + d : Nat) : Int) -
          ((prog_hdr.p_vaddr + prog_hdr.p_filesz + d : Nat) : Int)) =
          ((RF - (prog_hdr.p_vaddr + prog_hdr.p_filesz) : Nat) : Int) by omega]
        exact to_size_t_of_lt X64 _ (by omega)
      rw [if_pos (by omega), if_pos hgt, c6]
    · rw [if_neg (by omega), if_neg hgt]
  · unfold segment_final_protect
    simp only [eAM, eAB, c4, c5]
    have c7 : to_size_t X64 (((RM + d : Nat) : Int) - ((RB + d : Nat) : Int)) = RM - RB := by
      rw [show (((RM + d : Nat) : Int) - ((RB + d : Nat) : Int)) = ((RM - RB : Nat) : Int) by
        omega]
      exact to_size_t_of_lt X64 _ (by omega)
    rw [c7]

/-- C19 (amended): for every `PT_LOAD` header processed by
`privload_map_and_relocate`, the bytes that the loader sets to zero are exactly
the range from `p_vaddr + p_filesz + delta` up to
`ALIGN_FORWARD(p_vaddr + p_filesz, PAGE_SIZE) + delta`, the end of the page that
holds the end of the file part (no byte when the range is empty), and the last
call for the header applies the protection derived from `p_flags` to the range
from `ALIGN_BACKWARD(p_vaddr, PAGE_SIZE) + delta` to
`ALIGN_FORWARD(p_vaddr + p_memsz, PAGE_SIZE) + delta`.  The loop over the
headers zero-fills these ranges and no other.  For a segment whose addresses do
not wrap the ranges are given in plain numbers. -/
theorem map_segment_zero_fill_and_protection (w : vm_world_t) (X64 : Bool) (PAGE_SIZE : Nat)
    (tracked : Bool) (fd : Int) (delta : Int) (prog_hdr : ELF_PROGRAM_HEADER_TYPE)
    (last_end : Nat) (hload : prog_hdr.p_type = PT_LOAD) :
    memset_calls (map_segment w X64 PAGE_SIZE tracked fd delta prog_hdr last_end).2 =
      segment_zero_fill X64 PAGE_SIZE delta prog_hdr ∧
    (∃ before, (map_segment w X64 PAGE_SIZE tracked fd delta prog_hdr last_end).2 =
      before ++ [segment_final_protect w X64 PAGE_SIZE tracked delta prog_hdr]) ∧
    (∀ (file_map : Nat) (elf_hdr : ELF_HEADER_TYPE) (count i last : Nat),
      memset_calls (map_segments_loop w X64 PAGE_SIZE tracked fd delta file_map elf_hdr i count
        last).2 =
      (List.range' i count).flatMap fun k =>
        segment_zero_fill X64 PAGE_SIZE delta
          (w.prog_hdr (to_size_t X64 ((file_map : Int) + elf_hdr.e_phoff +
            k * elf_hdr.e_phentsize)))) ∧
    (∀ d : Nat, delta = (d : Int) → 0 < PAGE_SIZE → prog_hdr.p_filesz ≤ prog_hdr.p_memsz →
      prog_hdr.p_vaddr + prog_hdr.p_memsz + PAGE_SIZE + d ≤ 2 ^ ptr_bits X64 →
      segment_zero_fill X64 PAGE_SIZE delta prog_hdr =
        (if (prog_hdr.p_vaddr + prog_hdr.p_filesz + (PAGE_SIZE - 1)) / PAGE_SIZE * PAGE_SIZE >
            prog_hdr.p_vaddr + prog_hdr.p_filesz then
          [vm_event.memset (prog_hdr.p_vaddr + prog_hdr.p_filesz + d) 0
            ((prog_hdr.p_vaddr + prog_hdr.p_filesz + (PAGE_SIZE - 1)) / PAGE_SIZE * PAGE_SIZE -
              (prog_hdr.p_vaddr + prog_hdr.p_filesz))]
        else []) ∧
      segment_final_protect w X64 PAGE_SIZE tracked delta prog_hdr =
        vm_event.protect tracked (prog_hdr.p_vaddr / PAGE_SIZE * PAGE_SIZE + d)
          ((prog_hdr.p_vaddr + prog_hdr.p_memsz + (PAGE_SIZE - 1)) / PAGE_SIZE * PAGE_SIZE -
            prog_hdr.p_vaddr / PAGE_SIZE * PAGE_SIZE)
          (w.module_segment_prot_to_osprot prog_hdr)) := by
  refine ⟨memset_calls_map_segment _ _ _ _ _ _ _ _, ?_,
    fun file_map elf_hdr count i last =>
      memset_calls_map_segments_loop _ _ _ _ _ _ _ _ _ _ _, ?_⟩
  · unfold map_segment segment_final_protect
    simp only [hload, if_true]
    exact ⟨_, rfl⟩
  · intro d hd hpage hsz hfit
    subst hd
    exact segment_plain w X64 PAGE_SIZE tracked prog_hdr d hload hpage hsz hfit

/-- C19, witness: the data segment of the example library, loaded `0x20000`
above its preferred address. -/
theorem map_segment_zero_fill_and_protection_witness :
    memset_calls (map_segment example_world true 0x1000 true 3 0x20000 example_data_segment
      0x22000).2 = segment_zero_fill true 0x1000 0x20000 example_data_segment ∧
    (∃ before, (map_segment example_world true 0x1000 true 3 0x20000 example_data_segment
        0x22000).2 =
      before ++ [segment_final_protect example_world true 0x1000 true 0x20000
        example_data_segment]) :=
  ⟨(map_segment_zero_fill_and_protection example_world true 0x1000 true 3 0x20000
      example_data_segment 0x22000 rfl).1,
   (map_segment_zero_fill_and_protection example_world true 0x1000 true 3 0x20000
      example_data_segment 0x22000 rfl).2.1⟩

/-- C19, counterexample to the claim as stated: a `PT_LOAD` header with
`p_vaddr = 0x2100`, `p_filesz = 0x100` and `p_memsz = 0x2f00`, `delta = 0x20000`
and pages of `0x1000` bytes.  The loader zero-fills the `0xe00` bytes from
`0x22200` up to `0x23000`, the end of the page that holds the end of the file
part, and not up to `ALIGN_FORWARD(p_vaddr + p_memsz, PAGE_SIZE) + delta =
0x25000`; the final protection does cover the range up to `0x25000`. -/
theorem map_segment_zero_fill_stops_at_file_page :
    example_data_segment.p_type = PT_LOAD ∧
    memset_calls (map_segment example_world true 0x1000 true 3 0x20000 example_data_segment
      0x22000).2 = [vm_event.memset 0x22200 0 0xe00] ∧
    example_data_segment.p_vaddr + example_data_segment.p_filesz + 0x20000 = 0x22200 ∧
    0x22200 + 0xe00 = 0x23000 ∧
    ALIGN_FORWARD true (example_data_segment.p_vaddr + example_data_segment.p_memsz) 0x1000 +
      0x20000 = 0x25000 ∧
    segment_final_protect example_world true 0x1000 true 0x20000 example_data_segment =
      vm_event.protect true 0x22000 0x3000 6 := by
  refine ⟨rfl, ?_, rfl, rfl, by decide, ?_⟩
  · simp [map_segment, example_data_segment, memset_calls, to_size_t, ALIGN_FORWARD,
      ALIGN_BACKWARD, ptr_bits, PT_LOAD]
  · simp [segment_final_protect, example_data_segment, to_size_t, ALIGN_FORWARD,
      ALIGN_BACKWARD, ptr_bits, example_world]

/-- C12, witness: the example library, which maps, and the text file, which is
no ELF file. -/
theorem privload_map_and_relocate_releases_witness :
    (closed_fds (privload_map_and_relocate example_world true 0x1000 "/usr/lib/libx.so" 0).2.2 =
        [example_world.os_open "/usr/lib/libx.so"] ∧
      ∃ before, (privload_map_and_relocate example_world true 0x1000 "/usr/lib/libx.so" 0).2.2 =
        before ++ [vm_event.os_close (example_world.os_open "/usr/lib/libx.so")]) ∧
    (privload_map_and_relocate example_world true 0x1000 "/usr/lib/notes.txt" 0).1 = 0 :=
  ⟨(privload_map_and_relocate_releases example_world true 0x1000 "/usr/lib/libx.so" 0).2.1
      (by decide),
   ((privload_map_and_relocate_releases example_world true 0x1000 "/usr/lib/notes.txt"
      0).2.2.2 10 (by decide) rfl).2 (by decide) |>.2 (by decide)⟩

/-! ### Per-thread TLS -/

/-- Rounding up to a multiple of `P`, in terms of the remainder. -/
theorem round_up_eq (x P : Nat) (hP : 0 < P) :
    (x + (P - 1)) / P * P = x + (P - x % P) % P := by
  have hd := Nat.div_add_mod x P
  have hr := Nat.mod_lt x hP
  by_cases h0 : x % P = 0
  · have h1 : (x + (P - 1)) / P = x / P := by
      have e : x + (P - 1) = P * (x / P) + (P - 1) := by omega
      rw [e, Nat.mul_add_div hP, Nat.div_eq_of_lt (by omega : P - 1 < P)]; rfl
    rw [h1, h0, Nat.sub_zero, Nat.mod_self, Nat.mul_comm]; omega
  · have h1 : (x + (P - 1)) / P = x / P + 1 := by
      have e : x + (P - 1) = P * (x / P) + P + (x % P - 1) := by omega
      have e2 : P * (x / P) + P = P * (x / P + 1) := by rw [Nat.mul_add, Nat.mul_one]
      rw [e, e2, Nat.mul_add_div hP, Nat.div_eq_of_lt (by omega : x % P - 1 < P)]
    rw [h1, Nat.mod_eq_of_lt (by omega : P - x % P < P), Nat.add_mul, Nat.one_mul, Nat.mul_comm]
    omega

/-- The distance from `app_tp` to the end of its page, when the page lies in
the address space. -/
theorem tcb_size_of_eq (X64 : Bool) (P app_tp : Nat) (hP : 0 < P)
    (h : app_tp + P ≤ 2 ^ ptr_bits X64) :
    tcb_size_of X64 P app_tp = (P - app_tp % P) % P ∧
      ALIGN_FORWARD X64 app_tp P = app_tp + (P - app_tp % P) % P := by
  have hlt := Nat.mod_lt (P - app_tp % P) hP
  have hA : ALIGN_FORWARD X64 app_tp P = app_tp + (P - app_tp % P) % P := by
    unfold ALIGN_FORWARD
    rw [Nat.mod_eq_of_lt (by omega : app_tp + (P - 1) < 2 ^ ptr_bits X64), round_up_eq _ _ hP]
  refine ⟨?_, hA⟩
  unfold tcb_size_of
  rw [hA]
  have e : ((app_tp + (P - app_tp % P) % P : Nat) : Int) - (app_tp : Int) =
      (((P - app_tp % P) % P : Nat) : Int) := by
    rw [Nat.cast_add]; ring
  rw [e]
  exact to_size_t_of_lt X64 _ (by omega)

/-- The private thread pointer in plain numbers. -/
theorem to_size_t_block_end (X64 : Bool) (block size tcb : Nat) (h1 : tcb ≤ block + size)
    (h2 : block + size - tcb < 2 ^ ptr_bits X64) :
    to_size_t X64 ((block : Int) + size - tcb) = block + size - tcb := by
  have e : (block : Int) + size - tcb = ((block + size - tcb : Nat) : Int) := by
    rw [Nat.cast_sub h1]; push_cast; ring
  rw [e]
  exact to_size_t_of_lt X64 _ h2

/-- Rounding down a pointer that lies `tcb` bytes below a page boundary `e`. -/
theorem ALIGN_BACKWARD_below (X64 : Bool) (e P tcb : Nat) (hP : 0 < P) (he : e % P = 0)
    (h0 : 0 < tcb) (h1 : tcb ≤ P) (h2 : P ≤ e) (h3 : e ≤ 2 ^ ptr_bits X64) :
    ALIGN_BACKWARD X64 (e - tcb) P = e - P := by
  unfold ALIGN_BACKWARD
  rw [Nat.mod_eq_of_lt (by omega : e - tcb < 2 ^ ptr_bits X64)]
  obtain ⟨m, rfl⟩ := Nat.dvd_of_mod_eq_zero he
  have hm : 1 ≤ m := by
    rcases m with _ | m
    · simp at h2; omega
    · omega
  obtain ⟨n, rfl⟩ : ∃ n, m = n + 1 := ⟨m - 1, by omega⟩
  have e1 : P * (n + 1) - tcb = P * n + (P - tcb) := by rw [Nat.mul_add, Nat.mul_one]; omega
  rw [e1, Nat.mul_add_div hP, Nat.div_eq_of_lt (by omega : P - tcb < P), Nat.mul_add,
    Nat.mul_one, Nat.add_zero, Nat.mul_comm]
  omega

/-- Rounding up a pointer that lies less than a page below a page boundary `e`. -/
theorem ALIGN_FORWARD_below (X64 : Bool) (e P tcb : Nat) (hP : 0 < P) (he : e % P = 0)
    (h1 : tcb < P) (h2 : tcb ≤ e) (h3 : e + P ≤ 2 ^ ptr_bits X64) :
    ALIGN_FORWARD X64 (e - tcb) P = e := by
  unfold ALIGN_FORWARD
  rw [Nat.mod_eq_of_lt (by omega : e - tcb + (P - 1) < 2 ^ ptr_bits X64)]
  obtain ⟨m, rfl⟩ := Nat.dvd_of_mod_eq_zero he
  have e1 : P * m - tcb + (P - 1) = P * m + (P - 1 - tcb) := by omega
  rw [e1, Nat.mul_add_div hP, Nat.div_eq_of_lt (by omega : P - 1 - tcb < P), Nat.add_zero,
    Nat.mul_comm]

/-- The bytes that the body of the module loop leaves behind. -/
theorem tls_block_init_apply (X64 : Bool) (mem : memory) (dest : Nat) (opd : os_privmod_data_t)
    (a : Nat) :
    tls_block_init X64 mem dest opd a =
      if dest ≤ a ∧ a < dest + to_size_t X64 (sub_uint opd.tls_block_size opd.tls_image_size)
      then 0
      else if dest ≤ a ∧ a < dest + opd.tls_image_size then opd.tls_image (a - dest)
      else mem a := by
  simp [tls_block_init, memset, memcpy_bytes]

/-- The size of the zero fill in plain numbers. -/
theorem zero_fill_size (X64 : Bool) (bs is : Nat) (h1 : is ≤ bs) (h2 : bs < 2 ^ 32) :
    to_size_t X64 (sub_uint bs is) = bs - is := by
  have e : sub_uint bs is = bs - is := by
    unfold sub_uint
    rw [Nat.mod_eq_of_lt h2, Nat.mod_eq_of_lt (by omega : is < 2 ^ 32)]
    have : bs + (2 ^ 32 - is) = (bs - is) + 2 ^ 32 := by omega
    rw [this, Nat.add_mod_right, Nat.mod_eq_of_lt (by omega)]
  rw [e]
  exact to_size_t_of_small X64 _ (by omega)

/-- The module loop writes only below the thread pointer when every block
lies between address zero and the thread pointer. -/
theorem privload_tls_init_loop_frame (X64 : Bool) (dr_tp : Nat) (offs : Nat → Int)
    (hdr : dr_tp < 2 ^ ptr_bits X64) (a : Nat) (ha : dr_tp ≤ a) :
    ∀ (mods : List privmod_t) (i : Nat) (mem : memory),
      (∀ k m, mods[k]? = some m →
        m.os_privmod_data.tls_image_size ≤ m.os_privmod_data.tls_block_size ∧
        m.os_privmod_data.tls_block_size < 2 ^ 32 ∧
        (m.os_privmod_data.tls_block_size : Int) ≤ offs (i + k) ∧ offs (i + k) ≤ dr_tp) →
      (privload_tls_init_loop X64 dr_tp offs mods i mem).1 a = mem a := by
  intro mods
  induction mods with
  | nil => intro i mem _; rfl
  | cons m rest ih =>
    intro i mem h
    obtain ⟨h1, h2, h3, h4⟩ := h 0 m (by simp)
    simp only [Nat.add_zero] at h3 h4
    have hrest := ih (i + 1)
      (tls_block_init X64 mem (to_size_t X64 ((dr_tp : Int) - offs i)) m.os_privmod_data)
      (fun k m' hk => by
        have := h (k + 1) m' (by simpa using hk)
        rwa [show i + (k + 1) = i + 1 + k by omega] at this)
    show (privload_tls_init_loop X64 dr_tp offs rest (i + 1) _).1 a = mem a
    rw [hrest, tls_block_init_apply, zero_fill_size X64 _ _ h1 h2]
    obtain ⟨d, hd⟩ : ∃ d : Nat, (dr_tp : Int) - offs i = (d : Int) ∧ True :=
      ⟨((dr_tp : Int) - offs i).toNat, by rw [Int.toNat_of_nonneg (by omega)], trivial⟩
    rw [hd.1, to_size_t_of_lt X64 d (by omega)]
    have hda : d + m.os_privmod_data.tls_block_size ≤ a := by omega
    rw [if_neg (by omega), if_neg (by omega)]

/-- The size of a pointer is four or eight bytes. -/
theorem sizeof_pointer_eq (X64 : Bool) : sizeof_pointer X64 = if X64 then 8 else 4 := by
  cases X64 <;> rfl

/-- A pointer that was stored is the pointer that is loaded. -/
theorem load_store_pointer (X64 : Bool) (mem : memory) (addr v : Nat)
    (hv : v < 2 ^ ptr_bits X64) :
    load_pointer X64 (store_pointer X64 mem addr v) addr = v := by
  cases X64
  · simp [ptr_bits] at hv
    simp [load_pointer, store_pointer, sizeof_pointer, ptr_bits, List.range, List.range.loop]
    omega
  · simp [ptr_bits] at hv
    simp [load_pointer, store_pointer, sizeof_pointer, ptr_bits, List.range, List.range.loop]
    omega

/-- The pointer loaded at an address depends on the bytes of the pointer only. -/
theorem load_pointer_congr (X64 : Bool) (m1 m2 : memory) (a1 a2 : Nat)
    (h : ∀ k, k < sizeof_pointer X64 → m1 (a1 + k) = m2 (a2 + k)) :
    load_pointer X64 m1 a1 = load_pointer X64 m2 a2 := by
  unfold load_pointer
  congr 1
  apply List.map_congr_left
  intro k hk
  rw [h k (List.mem_range.mp hk)]

/-- A store of a pointer leaves the bytes outside the pointer as they were. -/
theorem store_pointer_outside (X64 : Bool) (mem : memory) (addr v a : Nat)
    (h : a < addr ∨ addr + sizeof_pointer X64 ≤ a) :
    store_pointer X64 mem addr v a = mem a := by
  unfold store_pointer
  rw [if_neg (by omega)]

/-- The thread pointer and the two page addresses of `privload_tls_init` in
plain numbers, for a thread pointer of the application that is not page
aligned. -/
theorem privload_tls_init_plain (o : options_t) (heap_mmap : Nat → Nat)
    (max_client_tls_size tcb_size : Nat) (t : tls_info_t) (mem : memory) (app_tp : Nat)
    (h0 : app_tp ≠ 0) (hP : 0 < o.PAGE_SIZE)
    (happ : app_tp + o.PAGE_SIZE ≤ 2 ^ ptr_bits o.X64)
    (hblk : heap_mmap max_client_tls_size % o.PAGE_SIZE = 0)
    (hmax : max_client_tls_size % o.PAGE_SIZE = 0) (hpos : 0 < max_client_tls_size)
    (hfit : heap_mmap max_client_tls_size + max_client_tls_size ≤ 2 ^ ptr_bits o.X64)
    (hna : app_tp % o.PAGE_SIZE ≠ 0) :
    tcb_size_of o.X64 o.PAGE_SIZE app_tp = o.PAGE_SIZE - app_tp % o.PAGE_SIZE ∧
    o.PAGE_SIZE ≤ max_client_tls_size ∧
    (privload_tls_init o heap_mmap max_client_tls_size tcb_size t mem app_tp).dr_tp =
      heap_mmap max_client_tls_size + max_client_tls_size - (o.PAGE_SIZE - app_tp % o.PAGE_SIZE) ∧
    ALIGN_BACKWARD o.X64
        (heap_mmap max_client_tls_size + max_client_tls_size -
          (o.PAGE_SIZE - app_tp % o.PAGE_SIZE)) o.PAGE_SIZE =
      heap_mmap max_client_tls_size + max_client_tls_size - o.PAGE_SIZE ∧
    ALIGN_BACKWARD o.X64 app_tp o.PAGE_SIZE = app_tp - app_tp % o.PAGE_SIZE := by
  have hr := Nat.mod_lt app_tp hP
  have htcb : tcb_size_of o.X64 o.PAGE_SIZE app_tp = o.PAGE_SIZE - app_tp % o.PAGE_SIZE := by
    rw [(tcb_size_of_eq o.X64 o.PAGE_SIZE app_tp hP happ).1, Nat.mod_eq_of_lt (by omega)]
  have hle : o.PAGE_SIZE ≤ max_client_tls_size :=
    Nat.le_of_dvd hpos (Nat.dvd_of_mod_eq_zero hmax)
  have hsum : (heap_mmap max_client_tls_size + max_client_tls_size) % o.PAGE_SIZE = 0 := by
    rw [Nat.add_mod, hblk, hmax]; simp
  refine ⟨htcb, hle, ?_, ?_, ?_⟩
  · simp only [privload_tls_init, if_neg h0, htcb]
    exact to_size_t_block_end o.X64 _ _ _ (by omega) (by omega)
  · exact ALIGN_BACKWARD_below o.X64 _ o.PAGE_SIZE _ hP hsum (by omega) (by omega) (by omega) hfit
  · unfold ALIGN_BACKWARD
    rw [Nat.mod_eq_of_lt (by omega : app_tp < 2 ^ ptr_bits o.X64)]
    have := Nat.div_add_mod app_tp o.PAGE_SIZE
    rw [Nat.mul_comm] at this
    omega

/-- The memory that `privload_tls_init` leaves behind, under the conditions of
`privload_tls_init_plain`. -/
theorem privload_tls_init_mem (o : options_t) (heap_mmap : Nat → Nat)
    (max_client_tls_size tcb_size : Nat) (t : tls_info_t) (mem : memory) (app_tp : Nat)
    (h0 : app_tp ≠ 0) (hP : 0 < o.PAGE_SIZE)
    (happ : app_tp + o.PAGE_SIZE ≤ 2 ^ ptr_bits o.X64)
    (hblk : heap_mmap max_client_tls_size % o.PAGE_SIZE = 0)
    (hmax : max_client_tls_size % o.PAGE_SIZE = 0) (hpos : 0 < max_client_tls_size)
    (hfit : heap_mmap max_client_tls_size + max_client_tls_size ≤ 2 ^ ptr_bits o.X64)
    (hna : app_tp % o.PAGE_SIZE ≠ 0) (tp : Nat)
    (htp : tp = heap_mmap max_client_tls_size + max_client_tls_size -
      (o.PAGE_SIZE - app_tp % o.PAGE_SIZE)) :
    (privload_tls_init o heap_mmap max_client_tls_size tcb_size t mem app_tp).mem =
      (privload_tls_init_loop o.X64 tp t.offs t.mods 0
        (store_pointer o.X64
          (store_pointer o.X64
            (memcpy mem (heap_mmap max_client_tls_size + max_client_tls_size - o.PAGE_SIZE)
              (app_tp - app_tp % o.PAGE_SIZE) o.PAGE_SIZE) tp tp)
          (to_size_t o.X64 ((tp : Int) + 2 * sizeof_pointer o.X64)) tp)).1 := by
  obtain ⟨htcb, _, hdr, hb1, hb2⟩ := privload_tls_init_plain o heap_mmap max_client_tls_size
    tcb_size t mem app_tp h0 hP happ hblk hmax hpos hfit hna
  simp only [privload_tls_init, if_neg h0] at hdr
  simp only [privload_tls_init, if_neg h0]
  rw [hdr, hb1, hb2, ← htp]

/-- C14 (amended): `privload_tls_init(NULL)` returns NULL without allocating.
For a non-null `app_tp` it calls `heap_mmap(max_client_tls_size)` first, sets
`tcb_size` to `ALIGN_FORWARD(app_tp, PAGE_SIZE) - app_tp` and returns
`block + max_client_tls_size - tcb_size`, both in pointer arithmetic.  When
the page of `app_tp` and the block lie in the address space, the block is
page aligned, `max_client_tls_size` is a positive multiple of the page size,
the three pointers of the `tcb_head_t` at `app_tp` end before the end of its
page (`3 * sizeof(void *) <= tcb_size`) and every registered module has
`tls_image_size <= tls_block_size <= offs[i] <= max_client_tls_size - tcb_size`,
the subtraction does not wrap, and on return the `tcb` and `self` fields at
`tp` both hold `tp` while the `dtv` field holds the `dtv` of the application's
TCB. -/
theorem privload_tls_init_thread_pointer (o : options_t) (heap_mmap : Nat → Nat)
    (max_client_tls_size tcb_size : Nat) (t : tls_info_t) (mem : memory) (app_tp : Nat) :
    ((privload_tls_init o heap_mmap max_client_tls_size tcb_size t mem 0).dr_tp = 0 ∧
      (privload_tls_init o heap_mmap max_client_tls_size tcb_size t mem 0).trace = []) ∧
    (app_tp ≠ 0 →
      (privload_tls_init o heap_mmap max_client_tls_size tcb_size t mem app_tp).dr_tp =
        to_size_t o.X64 ((heap_mmap max_client_tls_size : Int) + max_client_tls_size -
          tcb_size_of o.X64 o.PAGE_SIZE app_tp) ∧
      (privload_tls_init o heap_mmap max_client_tls_size tcb_size t mem app_tp).tcb_size =
        tcb_size_of o.X64 o.PAGE_SIZE app_tp ∧
      (privload_tls_init o heap_mmap max_client_tls_size tcb_size t mem app_tp).trace.head? =
        some (tls_event.heap_mmap max_client_tls_size (heap_mmap max_client_tls_size)) ∧
      (0 < o.PAGE_SIZE → app_tp + o.PAGE_SIZE ≤ 2 ^ ptr_bits o.X64 →
        heap_mmap max_client_tls_size % o.PAGE_SIZE = 0 →
        max_client_tls_size % o.PAGE_SIZE = 0 → 0 < max_client_tls_size →
        heap_mmap max_client_tls_size + max_client_tls_size ≤ 2 ^ ptr_bits o.X64 →
        3 * sizeof_pointer o.X64 ≤ tcb_size_of o.X64 o.PAGE_SIZE app_tp →
        (∀ k m, t.mods[k]? = some m →
          m.os_privmod_data.tls_image_size ≤ m.os_privmod_data.tls_block_size ∧
          m.os_privmod_data.tls_block_size < 2 ^ 32 ∧
          (m.os_privmod_data.tls_block_size : Int) ≤ t.offs k ∧
          t.offs k ≤ (max_client_tls_size : Int) - tcb_size_of o.X64 o.PAGE_SIZE app_tp) →
        tcb_size_of o.X64 o.PAGE_SIZE app_tp = ALIGN_FORWARD o.X64 app_tp o.PAGE_SIZE - app_tp ∧
        (privload_tls_init o heap_mmap max_client_tls_size tcb_size t mem app_tp).dr_tp =
          heap_mmap max_client_tls_size + max_client_tls_size -
            tcb_size_of o.X64 o.PAGE_SIZE app_tp ∧
        load_pointer o.X64
            (privload_tls_init o heap_mmap max_client_tls_size tcb_size t mem app_tp).mem
            (privload_tls_init o heap_mmap max_client_tls_size tcb_size t mem app_tp).dr_tp =
          (privload_tls_init o heap_mmap max_client_tls_size tcb_size t mem app_tp).dr_tp ∧
        load_pointer o.X64
            (privload_tls_init o heap_mmap max_client_tls_size tcb_size t mem app_tp).mem
            ((privload_tls_init o heap_mmap max_client_tls_size tcb_size t mem app_tp).dr_tp +
              2 * sizeof_pointer o.X64) =
          (privload_tls_init o heap_mmap max_client_tls_size tcb_size t mem app_tp).dr_tp ∧
        load_pointer o.X64
            (privload_tls_init o heap_mmap max_client_tls_size tcb_size t mem app_tp).mem
            ((privload_tls_init o heap_mmap max_client_tls_size tcb_size t mem app_tp).dr_tp +
              sizeof_pointer o.X64) =
          load_pointer o.X64 mem (app_tp + sizeof_pointer o.X64))) := by
  refine ⟨⟨by simp [privload_tls_init], by simp [privload_tls_init]⟩, fun h0 =>
    ⟨by simp [privload_tls_init, h0], by simp [privload_tls_init, h0],
      by simp [privload_tls_init, h0], ?_⟩⟩
  intro hP happ hblk hmax hpos hfit h3 hmods
  have hsz : 1 ≤ sizeof_pointer o.X64 := by rw [sizeof_pointer_eq]; split <;> omega
  have hr := Nat.mod_lt app_tp hP
  have hrle := Nat.mod_le app_tp o.PAGE_SIZE
  have hna : app_tp % o.PAGE_SIZE ≠ 0 := by
    intro hz
    rw [(tcb_size_of_eq o.X64 o.PAGE_SIZE app_tp hP happ).1, hz, Nat.sub_zero, Nat.mod_self] at h3
    omega
  obtain ⟨htcb, hle, hdr, _, _⟩ := privload_tls_init_plain o heap_mmap max_client_tls_size
    tcb_size t mem app_tp h0 hP happ hblk hmax hpos hfit hna
  have hmem := privload_tls_init_mem o heap_mmap max_client_tls_size tcb_size t mem app_tp h0 hP
    happ hblk hmax hpos hfit hna _ rfl
  have hA := (tcb_size_of_eq o.X64 o.PAGE_SIZE app_tp hP happ).2
  rw [htcb] at h3 hmods
  rw [hdr, hmem, htcb]
  generalize htp : heap_mmap max_client_tls_size + max_client_tls_size -
    (o.PAGE_SIZE - app_tp % o.PAGE_SIZE) = tp
  have htplt : tp + 3 * sizeof_pointer o.X64 ≤
      heap_mmap max_client_tls_size + max_client_tls_size := by omega
  have hself : to_size_t o.X64 ((tp : Int) + 2 * sizeof_pointer o.X64) =
      tp + 2 * sizeof_pointer o.X64 := by
    have e : (tp : Int) + 2 * sizeof_pointer o.X64 = ((tp + 2 * sizeof_pointer o.X64 : Nat) : Int) := by
      push_cast; rfl
    rw [e]
    exact to_size_t_of_lt o.X64 _ (by omega)
  rw [hself]
  have hframe : ∀ (m0 : memory) (a : Nat), tp ≤ a →
      (privload_tls_init_loop o.X64 tp t.offs t.mods 0 m0).1 a = m0 a := by
    intro m0 a ha
    refine privload_tls_init_loop_frame o.X64 tp t.offs (by omega) a ha t.mods 0 m0
      (fun k m hk => ?_)
    obtain ⟨q1, q2, q3, q4⟩ := hmods k m hk
    rw [Nat.zero_add]
    exact ⟨q1, q2, q3, by omega⟩
  refine ⟨?_, rfl, ?_, ?_, ?_⟩
  · rw [hA, Nat.mod_eq_of_lt (by omega : o.PAGE_SIZE - app_tp % o.PAGE_SIZE < o.PAGE_SIZE)]
      at *
    omega
  · rw [load_pointer_congr o.X64 _ (store_pointer o.X64 (memcpy mem
        (heap_mmap max_client_tls_size + max_client_tls_size - o.PAGE_SIZE)
        (app_tp - app_tp % o.PAGE_SIZE) o.PAGE_SIZE) tp tp) tp tp
      (fun k hk => by
        rw [hframe _ _ (by omega), store_pointer_outside o.X64 _ _ _ _ (by omega)])]
    exact load_store_pointer o.X64 _ tp tp (by omega)
  · rw [load_pointer_congr o.X64 _ (store_pointer o.X64 (store_pointer o.X64 (memcpy mem
        (heap_mmap max_client_tls_size + max_client_tls_size - o.PAGE_SIZE)
        (app_tp - app_tp % o.PAGE_SIZE) o.PAGE_SIZE) tp tp) (tp + 2 * sizeof_pointer o.X64) tp)
      (tp + 2 * sizeof_pointer o.X64) (tp + 2 * sizeof_pointer o.X64)
      (fun k hk => by rw [hframe _ _ (by omega)])]
    exact load_store_pointer o.X64 _ _ tp (by omega)
  · apply load_pointer_congr
    intro k hk
    rw [hframe _ _ (by omega), store_pointer_outside o.X64 _ _ _ _ (by omega),
      store_pointer_outside o.X64 _ _ _ _ (by omega)]
    unfold memcpy
    rw [if_pos (by omega)]
    congr 1
    omega

/-- C14, witness: the example thread with `app_tp = 0x7f0000000900`, a block
of two pages at `0x10000` and one TLS module. -/
theorem privload_tls_init_thread_pointer_witness :
    (privload_tls_init example_options (fun _ => 0x10000) 0x2000 0 image_layout example_memory
        0x7f0000000900).dr_tp = 0x10000 + 0x2000 -
      tcb_size_of example_options.X64 example_options.PAGE_SIZE 0x7f0000000900 ∧
    load_pointer example_options.X64
        (privload_tls_init example_options (fun _ => 0x10000) 0x2000 0 image_layout example_memory
          0x7f0000000900).mem
        (privload_tls_init example_options (fun _ => 0x10000) 0x2000 0 image_layout example_memory
          0x7f0000000900).dr_tp =
      (privload_tls_init example_options (fun _ => 0x10000) 0x2000 0 image_layout example_memory
        0x7f0000000900).dr_tp := by
  have h := ((privload_tls_init_thread_pointer example_options (fun _ => 0x10000) 0x2000 0
    image_layout example_memory 0x7f0000000900).2 (by decide)).2.2.2 (by decide) (by decide)
    (by decide) (by decide) (by decide) (by decide) (by decide)
    (by
      intro k m hk
      have hm : image_layout.mods = [tls_image_module "libt.so" [1, 2, 3, 4, 5, 6] 8 8] := rfl
      rw [hm] at hk
      rcases k with _ | k
      · simp only [List.getElem?_cons_zero, Option.some.injEq] at hk
        subst hk
        refine ⟨by decide, by decide, by decide, by decide⟩
      · simp at hk)
  exact ⟨h.2.1, h.2.2.1⟩

/-- C14, counterexample: with `app_tp` eight bytes below the end of its page,
`tcb_size` is 8 and the page copy ends at `tp + 8`, so the `dtv` field at
`tp + 8` lies behind the block and holds what was there before (zero) and not
the `dtv` of the application's TCB. -/
theorem privload_tls_init_dtv_behind_page :
    (privload_tls_init example_options (fun _ => 0x10000) 0x2000 0 image_layout example_memory
      0x7f0000000ff8).dr_tp = 0x11ff8 ∧
    (privload_tls_init example_options (fun _ => 0x10000) 0x2000 0 image_layout example_memory
      0x7f0000000ff8).tcb_size = 8 ∧
    load_pointer true
      (privload_tls_init example_options (fun _ => 0x10000) 0x2000 0 image_layout example_memory
        0x7f0000000ff8).mem (0x11ff8 + 8) = 0 ∧
    load_pointer true example_memory (0x7f0000000ff8 + 8) = 0x7777777777777777 := by
  refine ⟨by decide, by decide, by decide, by decide⟩

/-- C13: for the example thread and one module with the image
`[1, 2, 3, 4, 5, 6]` in a block of eight bytes at `tp - 0x108 = 0x117f8`, the
`memset` starts at the start of the block, because `memcpy` returns its
destination: the first two bytes of the image are zeroed, and the two bytes
after the image keep the bytes of the page copy. -/
theorem privload_tls_init_zero_fill_at_block_start :
    (privload_tls_init example_options (fun _ => 0x10000) 0x2000 0 image_layout example_memory
      0x7f0000000900).dr_tp = 0x11900 ∧
    image_layout.offs 0 = 0x108 ∧
    (privload_tls_init example_options (fun _ => 0x10000) 0x2000 0 image_layout example_memory
      0x7f0000000900).trace =
      [tls_event.heap_mmap 0x2000 0x10000, tls_event.copy 0x11000 0x7f0000000000 0x1000,
       tls_event.store 0x11900 0x11900, tls_event.store 0x11910 0x11900,
       tls_event.copy_image 0x117f8 0 6, tls_event.zero 0x117f8 2] ∧
    (List.range 8).map
      (fun k =>
        (privload_tls_init example_options (fun _ => 0x10000) 0x2000 0 image_layout
          example_memory 0x7f0000000900).mem (0x117f8 + k)) =
      [0, 0, 3, 4, 5, 6, 0x55, 0x55] := by
  refine ⟨by decide, by decide, by decide, by decide⟩

/-- C15: `privload_tls_exit(NULL)` unmaps nothing.  For a non-null `app_tp`
whose page lies in the address space, a page-aligned non-null block returned by
`heap_mmap` that ends at least a page below the top of the address space, and
`max_client_tls_size` a multiple of the page size that is the same in both
calls, `privload_tls_init` allocates once and
`privload_tls_exit(privload_tls_init(app_tp))` makes exactly one call,
`heap_munmap(block, max_client_tls_size)`. -/
theorem privload_tls_exit_unmaps_block (o : options_t) (heap_mmap : Nat → Nat)
    (max_client_tls_size tcb_size : Nat) (t : tls_info_t) (mem : memory) (app_tp : Nat)
    (h0 : app_tp ≠ 0) (hP : 0 < o.PAGE_SIZE)
    (happ : app_tp + o.PAGE_SIZE ≤ 2 ^ ptr_bits o.X64)
    (hblk : heap_mmap max_client_tls_size % o.PAGE_SIZE = 0)
    (hnz : heap_mmap max_client_tls_size ≠ 0)
    (hmax : max_client_tls_size % o.PAGE_SIZE = 0)
    (hfit : heap_mmap max_client_tls_size + max_client_tls_size + o.PAGE_SIZE ≤
      2 ^ ptr_bits o.X64) :
    privload_tls_exit o max_client_tls_size 0 = [] ∧
    (privload_tls_init o heap_mmap max_client_tls_size tcb_size t mem app_tp).trace.head? =
      some (tls_event.heap_mmap max_client_tls_size (heap_mmap max_client_tls_size)) ∧
    privload_tls_exit o max_client_tls_size
        (privload_tls_init o heap_mmap max_client_tls_size tcb_size t mem app_tp).dr_tp =
      [tls_event.heap_munmap (heap_mmap max_client_tls_size) max_client_tls_size] := by
  refine ⟨by simp [privload_tls_exit], by simp [privload_tls_init, h0], ?_⟩
  have htcb := (tcb_size_of_eq o.X64 o.PAGE_SIZE app_tp hP happ).1
  have hlt := Nat.mod_lt (o.PAGE_SIZE - app_tp % o.PAGE_SIZE) hP
  have hle : o.PAGE_SIZE ≤ heap_mmap max_client_tls_size :=
    Nat.le_of_dvd (Nat.pos_of_ne_zero hnz) (Nat.dvd_of_mod_eq_zero hblk)
  have hsum : (heap_mmap max_client_tls_size + max_client_tls_size) % o.PAGE_SIZE = 0 := by
    rw [Nat.add_mod, hblk, hmax]; simp
  have hdr : (privload_tls_init o heap_mmap max_client_tls_size tcb_size t mem app_tp).dr_tp =
      heap_mmap max_client_tls_size + max_client_tls_size -
        (o.PAGE_SIZE - app_tp % o.PAGE_SIZE) % o.PAGE_SIZE := by
    simp only [privload_tls_init, if_neg h0, htcb]
    exact to_size_t_block_end o.X64 _ _ _ (by omega) (by omega)
  rw [hdr]
  unfold privload_tls_exit
  rw [if_neg (by omega),
    ALIGN_FORWARD_below o.X64 _ o.PAGE_SIZE _ hP hsum hlt (by omega) hfit]
  have e : ((heap_mmap max_client_tls_size + max_client_tls_size : Nat) : Int) -
      (max_client_tls_size : Int) = ((heap_mmap max_client_tls_size : Nat) : Int) := by
    push_cast; ring
  rw [e, to_size_t_of_lt o.X64 _ (by omega)]

/-- C15, witness: the example thread; the block of two pages at `0x10000` is
unmapped. -/
theorem privload_tls_exit_unmaps_block_witness :
    privload_tls_exit example_options 0x2000
        (privload_tls_init example_options (fun _ => 0x10000) 0x2000 0 image_layout
          example_memory 0x7f0000000900).dr_tp =
      [tls_event.heap_munmap 0x10000 0x2000] :=
  (privload_tls_exit_unmaps_block example_options (fun _ => 0x10000) 0x2000 0 image_layout
    example_memory 0x7f0000000900 (by decide) (by decide) (by decide) (by decide) (by decide)
    (by decide) (by decide)).2.2

/-- C20 (amended): for a non-null `app_tp` that is not page aligned and whose
page lies in the address space, a page-aligned block inside the address space
and `max_client_tls_size` a positive multiple of the page size, the first
calls of `privload_tls_init` are `heap_mmap`, the copy of `PAGE_SIZE` bytes from
the page of `app_tp` to the last page of the block,
`ALIGN_BACKWARD(tp, PAGE_SIZE) = block + max_client_tls_size - PAGE_SIZE`, and
the stores of the `tcb` and `self` fields at `tp` and
`tp + 2 * sizeof(void *)`; when the three pointers of the `tcb_head_t` fit
into `tcb_size`, they lie inside `[block, block + max_client_tls_size)`. -/
theorem privload_tls_init_last_page (o : options_t) (heap_mmap : Nat → Nat)
    (max_client_tls_size tcb_size : Nat) (t : tls_info_t) (mem : memory) (app_tp : Nat)
    (h0 : app_tp ≠ 0) (hna : app_tp % o.PAGE_SIZE ≠ 0) (hP : 0 < o.PAGE_SIZE)
    (happ : app_tp + o.PAGE_SIZE ≤ 2 ^ ptr_bits o.X64)
    (hblk : heap_mmap max_client_tls_size % o.PAGE_SIZE = 0)
    (hmax : max_client_tls_size % o.PAGE_SIZE = 0) (hpos : 0 < max_client_tls_size)
    (hfit : heap_mmap max_client_tls_size + max_client_tls_size ≤ 2 ^ ptr_bits o.X64) :
    ALIGN_BACKWARD o.X64
        (privload_tls_init o heap_mmap max_client_tls_size tcb_size t mem app_tp).dr_tp
        o.PAGE_SIZE =
      heap_mmap max_client_tls_size + max_client_tls_size - o.PAGE_SIZE ∧
    heap_mmap max_client_tls_size ≤
      heap_mmap max_client_tls_size + max_client_tls_size - o.PAGE_SIZE ∧
    (privload_tls_init o heap_mmap max_client_tls_size tcb_size t mem app_tp).trace.take 2 =
      [tls_event.heap_mmap max_client_tls_size (heap_mmap max_client_tls_size),
       tls_event.copy (heap_mmap max_client_tls_size + max_client_tls_size - o.PAGE_SIZE)
         (ALIGN_BACKWARD o.X64 app_tp o.PAGE_SIZE) o.PAGE_SIZE] ∧
    (3 * sizeof_pointer o.X64 ≤ tcb_size_of o.X64 o.PAGE_SIZE app_tp →
      ((privload_tls_init o heap_mmap max_client_tls_size tcb_size t mem app_tp).trace.drop
          2).take 2 =
        [tls_event.store
           (privload_tls_init o heap_mmap max_client_tls_size tcb_size t mem app_tp).dr_tp
           (privload_tls_init o heap_mmap max_client_tls_size tcb_size t mem app_tp).dr_tp,
         tls_event.store
           ((privload_tls_init o heap_mmap max_client_tls_size tcb_size t mem app_tp).dr_tp +
             2 * sizeof_pointer o.X64)
           (privload_tls_init o heap_mmap max_client_tls_size tcb_size t mem app_tp).dr_tp] ∧
      heap_mmap max_client_tls_size ≤
        (privload_tls_init o heap_mmap max_client_tls_size tcb_size t mem app_tp).dr_tp ∧
      (privload_tls_init o heap_mmap max_client_tls_size tcb_size t mem app_tp).dr_tp +
          3 * sizeof_pointer o.X64 ≤
        heap_mmap max_client_tls_size + max_client_tls_size) := by
  have hr := Nat.mod_lt app_tp hP
  obtain ⟨htcb, hle, hdr, hb1, hb2⟩ := privload_tls_init_plain o heap_mmap max_client_tls_size
    tcb_size t mem app_tp h0 hP happ hblk hmax hpos hfit hna
  have hdr' := hdr
  simp only [privload_tls_init, if_neg h0] at hdr'
  refine ⟨by rw [hdr, hb1], by omega, ?_, fun h3 => ?_⟩
  · simp only [privload_tls_init, if_neg h0, List.cons_append, List.take_succ_cons,
      List.take_zero, hdr', hb1]
  · rw [htcb] at h3
    have hself : to_size_t o.X64
        (((heap_mmap max_client_tls_size + max_client_tls_size -
          (o.PAGE_SIZE - app_tp % o.PAGE_SIZE) : Nat) : Int) + 2 * sizeof_pointer o.X64) =
        heap_mmap max_client_tls_size + max_client_tls_size -
          (o.PAGE_SIZE - app_tp % o.PAGE_SIZE) + 2 * sizeof_pointer o.X64 := by
      have e : ((heap_mmap max_client_tls_size + max_client_tls_size -
          (o.PAGE_SIZE - app_tp % o.PAGE_SIZE) : Nat) : Int) + 2 * sizeof_pointer o.X64 =
          ((heap_mmap max_client_tls_size + max_client_tls_size -
            (o.PAGE_SIZE - app_tp % o.PAGE_SIZE) + 2 * sizeof_pointer o.X64 : Nat) : Int) := by
        rw [Nat.cast_add]; push_cast; rfl
      rw [e]
      exact to_size_t_of_lt o.X64 _ (by omega)
    refine ⟨?_, by rw [hdr]; omega, by rw [hdr]; omega⟩
    simp only [privload_tls_init, if_neg h0, List.cons_append, List.drop_succ_cons,
      List.drop_zero, List.take_succ_cons, List.take_zero, hdr', hself, List.nil_append]

/-- C20, witness: the example thread; the page copy goes to `0x11000`, the
last page of the block `[0x10000, 0x12000)`. -/
theorem privload_tls_init_last_page_witness :
    ALIGN_BACKWARD example_options.X64
        (privload_tls_init example_options (fun _ => 0x10000) 0x2000 0 image_layout
          example_memory 0x7f0000000900).dr_tp example_options.PAGE_SIZE =
      0x10000 + 0x2000 - example_options.PAGE_SIZE :=
  (privload_tls_init_last_page example_options (fun _ => 0x10000) 0x2000 0 image_layout
    example_memory 0x7f0000000900 (by decide) (by decide) (by decide) (by decide) (by decide)
    (by decide) (by decide) (by decide)).1

/-- C20, counterexample: for the page-aligned `app_tp = 0x7f0000001000`,
`tcb_size` is 0 and `tp` is the end of the block `[0x10000, 0x12000)`, so the
page copy and the two stores go to `0x12000` and behind, outside the block. -/
theorem privload_tls_init_page_aligned_app_tp :
    (privload_tls_init example_options (fun _ => 0x10000) 0x2000 0 image_layout example_memory
      0x7f0000001000).tcb_size = 0 ∧
    (privload_tls_init example_options (fun _ => 0x10000) 0x2000 0 image_layout example_memory
      0x7f0000001000).dr_tp = 0x12000 ∧
    ALIGN_BACKWARD true
      (privload_tls_init example_options (fun _ => 0x10000) 0x2000 0 image_layout example_memory
        0x7f0000001000).dr_tp 0x1000 = 0x12000 ∧
    (privload_tls_init example_options (fun _ => 0x10000) 0x2000 0 image_layout example_memory
      0x7f0000001000).trace.take 4 =
      [tls_event.heap_mmap 0x2000 0x10000, tls_event.copy 0x12000 0x7f0000001000 0x1000,
       tls_event.store 0x12000 0x12000, tls_event.store 0x12010 0x12000] := by
  refine ⟨by decide, by decide, by decide, by decide⟩

/-! ### The layout recurrence -/

/-- The last element of a list that is not empty is its element at the last
index. -/
theorem getLastD_eq_getD (l : List Nat) :
    ∀ d : Nat, 0 < l.length → l.getLastD d = l.getD (l.length - 1) 0 := by
  induction l with
  | nil => intro d h; simp at h
  | cons a rest ih =>
    intro d _
    rcases rest with _ | ⟨b, rest'⟩
    · rfl
    · have := ih a (by simp)
      simp only [List.getLastD_cons] at this ⊢
      rw [this]
      simp

/-- The final value of the local `offset` of the layout loop is the last offset
of the recurrence of the spec. -/
theorem privload_set_tls_offset_loop_final (X64 : Bool) (l : List privmod_t) :
    ∀ (i offset : Nat) (offs : Nat → Int), 0 < offset →
      (∀ m ∈ l, ∃ k, m.os_privmod_data.tls_align = 2 ^ k) →
      (∀ x ∈ spec_tls_offsets offset l, x < 2 ^ 32) →
      (privload_set_tls_offset_loop X64 l i offset offs).1 =
        (spec_tls_offsets offset l).getLastD offset := by
  induction l with
  | nil => intro i offset offs _ _ _; rfl
  | cons m rest ih =>
    intro i offset offs hpos hpow hfit
    obtain ⟨k, hk⟩ := hpow m (List.mem_cons_self _ _)
    have hfit0 : spec_offset_step offset m.os_privmod_data < 2 ^ 32 :=
      hfit _ (by simp [spec_tls_offsets])
    have hstep := tls_offset_step_eq_spec X64 offset m.os_privmod_data k hk hpos hfit0
    have ha1 : 1 ≤ m.os_privmod_data.tls_align := by rw [hk]; exact Nat.one_le_two_pow
    have hge := spec_offset_step_ge offset m.os_privmod_data ha1
    have ih' := ih (i + 1) (spec_offset_step offset m.os_privmod_data)
      (Function.update offs i (to_int (spec_offset_step offset m.os_privmod_data)))
      (by omega) (fun m' hm' => hpow m' (List.mem_cons_of_mem _ hm'))
      (fun x hx => hfit x (by simp [spec_tls_offsets, hx]))
    simp only [privload_set_tls_offset_loop, hstep, spec_tls_offsets, List.getLastD_cons]
    exact ih'

/-- The layout loop reads nothing of a module but its triple: two lists of
modules with the same triples give the same final offset and the same entries
of `offs`, wherever the two arrays agreed before or the loop has written. -/
theorem privload_set_tls_offset_loop_congr (X64 : Bool) (l1 : List privmod_t) :
    ∀ (l2 : List privmod_t) (i offset : Nat) (offs1 offs2 : Nat → Int),
      l1.map tls_triple = l2.map tls_triple →
      (privload_set_tls_offset_loop X64 l1 i offset offs1).1 =
        (privload_set_tls_offset_loop X64 l2 i offset offs2).1 ∧
      ∀ j, (offs1 j = offs2 j ∨ (i ≤ j ∧ j < i + l1.length)) →
        (privload_set_tls_offset_loop X64 l1 i offset offs1).2 j =
          (privload_set_tls_offset_loop X64 l2 i offset offs2).2 j := by
  induction l1 with
  | nil =>
    intro l2 i offset offs1 offs2 h
    have : l2 = [] := by simpa using h.symm
    subst this
    refine ⟨rfl, fun j hj => ?_⟩
    rcases hj with hj | hj
    · exact hj
    · simp at hj; omega
  | cons m1 r1 ih =>
    intro l2 i offset offs1 offs2 h
    rcases l2 with _ | ⟨m2, r2⟩
    · simp at h
    · simp only [List.map_cons, List.cons.injEq] at h
      obtain ⟨hm, hr⟩ := h
      simp only [tls_triple, Prod.mk.injEq] at hm
      obtain ⟨e1, e2, e3⟩ := hm
      have hs : tls_offset_step X64 offset m1.os_privmod_data =
          tls_offset_step X64 offset m2.os_privmod_data := by
        simp only [tls_offset_step, tls_first_byte_pad, e1, e2, e3]
      have ih' := ih r2 (i + 1) (tls_offset_step X64 offset m2.os_privmod_data)
        (Function.update offs1 i (to_int (tls_offset_step X64 offset m2.os_privmod_data)))
        (Function.update offs2 i (to_int (tls_offset_step X64 offset m2.os_privmod_data))) hr
      simp only [privload_set_tls_offset_loop, hs]
      refine ⟨ih'.1, fun j hj => ih'.2 j ?_⟩
      by_cases hji : j = i
      · subst hji; left; simp
      · rcases hj with hj | hj
        · left; simp [Function.update_noteq hji, hj]
        · right; simp only [List.length_cons] at hj; omega

/-- C16 (amended): with the private loader enabled, every `tls_align` a power of
two and every offset of the recurrence below `2 ^ 31`,
`privload_set_tls_offset` stores in `offs[i]` the offsets of the recurrence that
starts at `APP_LIBC_TLS_SIZE = 0x100` and goes on by
`offset = first_byte + ALIGN_UP(offset + tls_block_size + first_byte, tls_align)`
with `first_byte = (-tls_first_byte) & (tls_align - 1)`; `tls_info.offset` is
the final offset, which is `0x100` for an empty table and otherwise
`offs[num_mods - 1]`, the largest entry; and a second table whose modules have
the same triples `(tls_first_byte, tls_block_size, tls_align)` gets the same
`offset` and the same entries `offs[0 .. num_mods)`. -/
theorem privload_set_tls_offset_recurrence (o : options_t) (max_client_tls_size : Nat)
    (t : tls_info_t)
    (hon : o.CLIENT_INTERFACE = true ∧ o.private_loader = true)
    (hpow : ∀ m ∈ t.mods, ∃ k, m.os_privmod_data.tls_align = 2 ^ k)
    (hfit : ∀ x ∈ spec_tls_offsets APP_LIBC_TLS_SIZE t.mods, x < 2 ^ 31) :
    (∀ i, i < t.num_mods →
      (privload_set_tls_offset o max_client_tls_size t).2.offs i =
        ((spec_tls_offsets APP_LIBC_TLS_SIZE t.mods).getD i 0 : Nat)) ∧
    (privload_set_tls_offset o max_client_tls_size t).2.offset =
      ((spec_tls_offsets APP_LIBC_TLS_SIZE t.mods).getLastD APP_LIBC_TLS_SIZE : Nat) ∧
    (t.num_mods = 0 → (privload_set_tls_offset o max_client_tls_size t).2.offset = 0x100) ∧
    (0 < t.num_mods →
      (privload_set_tls_offset o max_client_tls_size t).2.offset =
        (privload_set_tls_offset o max_client_tls_size t).2.offs (t.num_mods - 1)) ∧
    (∀ i, i < t.num_mods →
      (privload_set_tls_offset o max_client_tls_size t).2.offs i ≤
        (privload_set_tls_offset o max_client_tls_size t).2.offset) ∧
    (∀ (t2 : tls_info_t) (max2 : Nat), t2.mods.map tls_triple = t.mods.map tls_triple →
      (privload_set_tls_offset o max2 t2).2.offset =
        (privload_set_tls_offset o max_client_tls_size t).2.offset ∧
      ∀ i, i < t.num_mods →
        (privload_set_tls_offset o max2 t2).2.offs i =
          (privload_set_tls_offset o max_client_tls_size t).2.offs i) := by
  obtain ⟨hci, hpl⟩ := hon
  have hal : ∀ m ∈ t.mods, 1 ≤ m.os_privmod_data.tls_align := by
    intro m hm
    obtain ⟨k, hk⟩ := hpow m hm
    rw [hk]; exact Nat.one_le_two_pow
  have hfit' : ∀ x ∈ spec_tls_offsets APP_LIBC_TLS_SIZE t.mods, x < 2 ^ 32 :=
    fun x hx => by have := hfit x hx; omega
  have hlen := spec_tls_offsets_length t.mods APP_LIBC_TLS_SIZE
  have hloop := privload_set_tls_offset_loop_spec o.X64 t.mods 0 APP_LIBC_TLS_SIZE t.offs
    (by decide) hpow hfit'
  have hfinal := privload_set_tls_offset_loop_final o.X64 t.mods 0 APP_LIBC_TLS_SIZE t.offs
    (by decide) hpow hfit'
  have hmem : ∀ i, i < t.mods.length →
      (spec_tls_offsets APP_LIBC_TLS_SIZE t.mods).getD i 0 ∈
        spec_tls_offsets APP_LIBC_TLS_SIZE t.mods := by
    intro i hi
    rw [List.getD_eq_getElem _ _ (by omega)]
    exact List.getElem_mem _
  have hoffs : ∀ i, i < t.num_mods →
      (privload_set_tls_offset o max_client_tls_size t).2.offs i =
        ((spec_tls_offsets APP_LIBC_TLS_SIZE t.mods).getD i 0 : Nat) := by
    intro i hi
    have h1 := hloop.1 i hi
    rw [Nat.zero_add] at h1
    simp only [privload_set_tls_offset, hci, hpl, Bool.not_true, if_true, Bool.false_eq_true,
      if_false]
    rw [h1, to_int_of_small _ (hfit _ (hmem i hi))]
  have hlast : (spec_tls_offsets APP_LIBC_TLS_SIZE t.mods).getLastD APP_LIBC_TLS_SIZE < 2 ^ 31 := by
    by_cases h0 : t.mods.length = 0
    · have : t.mods = [] := List.length_eq_zero.mp h0
      rw [this]; decide
    · rw [getLastD_eq_getD _ _ (by omega)]
      exact hfit _ (by rw [hlen]; exact hmem _ (by omega))
  have hoffset : (privload_set_tls_offset o max_client_tls_size t).2.offset =
      ((spec_tls_offsets APP_LIBC_TLS_SIZE t.mods).getLastD APP_LIBC_TLS_SIZE : Nat) := by
    simp only [privload_set_tls_offset, hci, hpl, Bool.not_true, if_true, Bool.false_eq_true,
      if_false]
    rw [hfinal, to_int_of_small _ hlast]
  have hpos : 0 < t.num_mods →
      (privload_set_tls_offset o max_client_tls_size t).2.offset =
        (privload_set_tls_offset o max_client_tls_size t).2.offs (t.num_mods - 1) := by
    intro hn
    have hn' : 0 < t.mods.length := hn
    rw [hoffset, hoffs _ (by omega), getLastD_eq_getD _ _ (by omega), hlen]
    rfl
  refine ⟨hoffs, hoffset, fun h0 => ?_, hpos, fun i hi => ?_, fun t2 max2 ht => ?_⟩
  · have : t.mods = [] := List.length_eq_zero.mp h0
    rw [hoffset, this]; rfl
  · have hi' : i < t.mods.length := hi
    rw [hpos (by omega), hoffs i hi, hoffs _ (by omega)]
    by_cases hie : i = t.num_mods - 1
    · rw [hie]
    · have hsep := spec_tls_offsets_separated t.mods APP_LIBC_TLS_SIZE i (t.num_mods - 1) hal
        (by omega) (by show t.mods.length - 1 < t.mods.length; omega)
      exact_mod_cast (by omega : (spec_tls_offsets APP_LIBC_TLS_SIZE t.mods).getD i 0 ≤
        (spec_tls_offsets APP_LIBC_TLS_SIZE t.mods).getD (t.num_mods - 1) 0)
  · have hc := privload_set_tls_offset_loop_congr o.X64 t2.mods t.mods 0 APP_LIBC_TLS_SIZE
      t2.offs t.offs ht
    have hl2 : t2.mods.length = t.mods.length := by
      have := congrArg List.length ht
      simpa using this
    simp only [privload_set_tls_offset, hci, hpl, Bool.not_true, if_true, Bool.false_eq_true,
      if_false]
    refine ⟨by rw [hc.1], fun i hi => hc.2 i (Or.inr ⟨by omega, ?_⟩)⟩
    have hi' : i < t.mods.length := hi
    omega

/-- C16, witness: four modules with alignments 8, 16, 1 and 64; the final
offset is the entry of the last module. -/
theorem privload_set_tls_offset_recurrence_witness :
    (privload_set_tls_offset example_options 4096 example_tls_info).2.offset =
      (privload_set_tls_offset example_options 4096 example_tls_info).2.offs
        (example_tls_info.num_mods - 1) ∧
    (privload_set_tls_offset example_options 4096 example_tls_info).2.offs 1 =
      ((spec_tls_offsets APP_LIBC_TLS_SIZE example_tls_info.mods).getD 1 0 : Nat) :=
  have h := privload_set_tls_offset_recurrence example_options 4096 example_tls_info ⟨rfl, rfl⟩
    (by
      intro m hm
      simp only [example_tls_info, List.mem_cons, List.mem_singleton, List.not_mem_nil,
        or_false] at hm
      rcases hm with rfl | rfl | rfl | rfl
      · exact ⟨3, rfl⟩
      · exact ⟨4, rfl⟩
      · exact ⟨0, rfl⟩
      · exact ⟨6, rfl⟩)
    (by decide)
  ⟨h.2.2.2.1 (by decide), h.1 1 (by decide)⟩

/-- C16, counterexample: five modules with power-of-two alignments, the first
with an 8-byte block and four with blocks of 1 GiB, in the 64-bit build.  The
recurrence gives the last module the offset `0x100000108`, but `offs[4]` and
`tls_info.offset` are `int` and hold `0x108`; the largest entry is
`offs[1] = 0x40000108`, and `offs[2]` and `offs[3]` are negative. -/
theorem privload_set_tls_offset_int_offsets :
    spec_tls_offsets APP_LIBC_TLS_SIZE wrapping_tls_info.mods =
      [0x108, 0x40000108, 0x80000108, 0xc0000108, 0x100000108] ∧
    (privload_set_tls_offset example_options 4096 wrapping_tls_info).2.offs 4 = 0x108 ∧
    (privload_set_tls_offset example_options 4096 wrapping_tls_info).2.offset = 0x108 ∧
    (privload_set_tls_offset example_options 4096 wrapping_tls_info).2.offs 1 = 0x40000108 ∧
    (privload_set_tls_offset example_options 4096 wrapping_tls_info).2.offs 2 = -0x7ffffef8 ∧
    (privload_set_tls_offset example_options 4096 wrapping_tls_info).2.offs 3 = -0x3ffffef8 := by
  refine ⟨by decide, ?_, ?_, ?_, ?_, ?_⟩ <;>
    simp [privload_set_tls_offset, example_options, wrapping_tls_info, tls_module,
      privload_set_tls_offset_loop, tls_offset_step, tls_first_byte_pad, to_int, to_size_t,
      ALIGN_FORWARD, neg_uint, sub_uint, ptr_bits, APP_LIBC_TLS_SIZE, Function.update]

/-! ### TLS registration -/

/-- Converting a `uint` to `int` and back gives its low 32 bits. -/
theorem to_uint_to_int (n : Nat) : to_uint (to_int n) = n % 2 ^ 32 := by
  unfold to_uint to_int
  have h := Nat.mod_lt n (show 0 < 2 ^ 32 by decide)
  split <;> omega

/-- A call of `privload_mod_tls_init` with room in the table: the table
afterwards. -/
theorem privload_mod_tls_init_ok (t : tls_info_t) (mod : privmod_t)
    (h : t.num_mods < MAX_NUM_TLS_MOD) :
    ∃ t', privload_mod_tls_init t mod = Except.ok t' ∧
      t'.mods = t.mods ++
        [{ mod with os_privmod_data := { mod.os_privmod_data with tls_modid := t.num_mods } }] ∧
      t'.max_align =
        (if mod.os_privmod_data.tls_align % 2 ^ 32 > to_uint t.max_align then
          to_int mod.os_privmod_data.tls_align
        else t.max_align) ∧
      t'.offs = t.offs ∧ t'.offset = t.offset := by
  have hn : ¬ t.num_mods ≥ MAX_NUM_TLS_MOD := by omega
  unfold privload_mod_tls_init
  rw [if_neg hn]
  exact ⟨_, rfl, rfl, rfl, rfl, rfl⟩

/-- A sequence of registrations that fits into the table succeeds, gives the
modules the next free ids in order and keeps the order of the list. -/
theorem tls_registrations_ok (l : List privmod_t) :
    ∀ t : tls_info_t, t.num_mods + l.length ≤ MAX_NUM_TLS_MOD →
      ∃ t', tls_registrations t l = Except.ok t' ∧
        t'.num_mods = t.num_mods + l.length ∧
        tls_modids t' = tls_modids t ++ List.range' t.num_mods l.length ∧
        t'.mods.map (fun m => m.name) = t.mods.map (fun m => m.name) ++ l.map fun m => m.name := by
  induction l with
  | nil => intro t _; exact ⟨t, rfl, rfl, by simp, by simp⟩
  | cons m rest ih =>
    intro t h
    simp only [List.length_cons] at h
    obtain ⟨t1, e1, e2, _, _, _⟩ := privload_mod_tls_init_ok t m (by omega)
    have hnum : t1.num_mods = t.num_mods + 1 := by
      unfold tls_info_t.num_mods; rw [e2]; simp
    obtain ⟨t', h1, h2, h3, h4⟩ := ih t1 (by omega)
    refine ⟨t', ?_, ?_, ?_, ?_⟩
    · simp only [tls_registrations, e1]
      exact h1
    · rw [h2, hnum, List.length_cons]; omega
    · rw [h3, hnum]
      simp [tls_modids, e2, List.range'_succ]
    · rw [h4, e2]; simp

/-- A sequence of registrations that does not fit into the table ends in the
fatal error. -/
theorem tls_registrations_error (l : List privmod_t) :
    ∀ t : tls_info_t, t.num_mods ≤ MAX_NUM_TLS_MOD → MAX_NUM_TLS_MOD < t.num_mods + l.length →
      tls_registrations t l = Except.error fatal_error.TOO_MANY_TLS_MODS := by
  induction l with
  | nil => intro t h1 h2; simp at h2; omega
  | cons m rest ih =>
    intro t h1 h2
    simp only [List.length_cons] at h2
    by_cases hlt : t.num_mods ≥ MAX_NUM_TLS_MOD
    · simp [tls_registrations, privload_mod_tls_init, if_pos hlt, FATAL_USAGE_ERROR]
    · obtain ⟨t1, e1, e2, _, _, _⟩ := privload_mod_tls_init_ok t m (by omega)
      have hnum : t1.num_mods = t.num_mods + 1 := by
        unfold tls_info_t.num_mods; rw [e2]; simp
      simp only [tls_registrations, e1]
      exact ih t1 (by omega) (by omega)

/-- C17: `privload_mod_tls_init(mod)` raises the fatal `TOO_MANY_TLS_MODS` error
if and only if `tls_info.num_mods >= MAX_NUM_TLS_MOD` (64) on entry.  Otherwise
it stores `mod` in `mods[num_mods]` with `tls_modid` set to the old `num_mods`,
leaves the earlier entries alone, increases `num_mods` by one, so that
`num_mods <= 64` afterwards, and raises `max_align` to the maximum of
`max_align` and `tls_align`, compared as `uint` (and as plain integers when
both are below `2 ^ 31`).  Starting from the empty table, registering a list
of at most 64 modules succeeds and gives them the ids `0, 1, 2, ...` in the order
of the list; a longer list ends in the fatal error. -/
theorem privload_mod_tls_init_spec (t : tls_info_t) (mod : privmod_t) :
    (privload_mod_tls_init t mod = Except.error fatal_error.TOO_MANY_TLS_MODS ↔
      MAX_NUM_TLS_MOD ≤ t.num_mods) ∧
    MAX_NUM_TLS_MOD = 64 ∧
    (t.num_mods < MAX_NUM_TLS_MOD →
      ∃ t', privload_mod_tls_init t mod = Except.ok t' ∧
        t'.num_mods = t.num_mods + 1 ∧ t'.num_mods ≤ 64 ∧
        t'.mods[t.num_mods]? =
          some { mod with
                 os_privmod_data := { mod.os_privmod_data with tls_modid := t.num_mods } } ∧
        (∀ i, i < t.num_mods → t'.mods[i]? = t.mods[i]?) ∧
        to_uint t'.max_align = max (to_uint t.max_align) (mod.os_privmod_data.tls_align % 2 ^ 32) ∧
        (0 ≤ t.max_align → t.max_align < 2 ^ 31 → mod.os_privmod_data.tls_align < 2 ^ 31 →
          t'.max_align = max t.max_align (mod.os_privmod_data.tls_align : Int)) ∧
        t'.offs = t.offs ∧ t'.offset = t.offset) ∧
    (∀ l : List privmod_t,
      (l.length ≤ 64 →
        ∃ t', tls_registrations tls_info_initial l = Except.ok t' ∧
          t'.num_mods = l.length ∧ tls_modids t' = List.range l.length ∧
          t'.mods.map (fun m => m.name) = l.map fun m => m.name) ∧
      (64 < l.length →
        tls_registrations tls_info_initial l = Except.error fatal_error.TOO_MANY_TLS_MODS)) := by
  refine ⟨?_, rfl, fun hlt => ?_, fun l => ⟨fun hl => ?_, fun hl => ?_⟩⟩
  · unfold privload_mod_tls_init FATAL_USAGE_ERROR
    by_cases h : t.num_mods ≥ MAX_NUM_TLS_MOD
    · simp [h]
    · simp only [if_neg h]
      constructor
      · intro hc; cases hc
      · intro hc; exact absurd hc h
  · obtain ⟨t', e1, e2, e3, e4, e5⟩ := privload_mod_tls_init_ok t mod hlt
    have h64 : MAX_NUM_TLS_MOD = 64 := rfl
    have hlen : t.num_mods = t.mods.length := rfl
    have hnum : t'.num_mods = t.num_mods + 1 := by
      unfold tls_info_t.num_mods; rw [e2]; simp
    refine ⟨t', e1, hnum, by omega, ?_, ?_, ?_, ?_, e4, e5⟩
    · rw [e2, hlen]; simp
    · intro i hi
      rw [hlen] at hi
      rw [e2, List.getElem?_append_left hi]
    · rw [e3]
      split
      · rw [to_uint_to_int]; omega
      · omega
    · intro h1 h2 h3
      rw [e3]
      have e1 : to_uint t.max_align = t.max_align.toNat := by
        unfold to_uint; omega
      rw [e1, Nat.mod_eq_of_lt (by omega), to_int_of_small _ h3]
      split <;> omega
  · obtain ⟨t', h1, h2, h3, h4⟩ := tls_registrations_ok l tls_info_initial
      (by show 0 + l.length ≤ 64; omega)
    refine ⟨t', h1, ?_, ?_, ?_⟩
    · rw [h2]; show 0 + l.length = l.length; omega
    · rw [h3]; simp [tls_modids, tls_info_initial, tls_info_t.num_mods, List.range_eq_range']
    · rw [h4]; simp [tls_info_initial]
  · exact tls_registrations_error l tls_info_initial (by decide)
      (by show 64 < 0 + l.length; omega)

/-- C17, witness: a fifth module with alignment 128 is registered in the
example table, whose `max_align` was 64. -/
theorem privload_mod_tls_init_spec_witness :
    ∃ t', privload_mod_tls_init example_tls_info (tls_module "libz.so" 16 128 0) =
        Except.ok t' ∧
      t'.num_mods = example_tls_info.num_mods + 1 ∧
      t'.max_align = max example_tls_info.max_align
        ((tls_module "libz.so" 16 128 0).os_privmod_data.tls_align : Int) := by
  obtain ⟨t', h1, h2, _, _, _, _, h7, _⟩ :=
    (privload_mod_tls_init_spec example_tls_info (tls_module "libz.so" 16 128 0)).2.2.1
      (by decide)
  exact ⟨t', h1, h2, h7 (by decide) (by decide) (by decide)⟩

/-! ### No second load of a registered name -/

/-- In the trace of the loop of `privload_process_imports`, every call of
`privload_locate_and_load` comes directly after a call of `privload_lookup` for
the same name that returned NULL. -/
theorem privload_process_imports_loop_load_after_lookup (c : collaborators_t) (mod : privmod_t)
    (strtab : Nat → String) :
    ∀ (dyn : List ELF_DYNAMIC_ENTRY_TYPE) (registry : List privmod_t) (ok : Bool)
      (registry' : List privmod_t) (tr : List event),
      privload_process_imports_loop c mod strtab dyn registry = some (ok, registry', tr) →
      ∀ (i : Nat) (name : String) (dep : privmod_t) (flag : Bool),
        tr[i]? = some (event.locate_and_load name dep flag) →
        0 < i ∧ tr[i - 1]? = some (event.lookup name false) := by
  intro dyn
  induction dyn with
  | nil => intro registry ok registry' tr h; simp [privload_process_imports_loop] at h
  | cons d rest ih =>
    intro registry ok registry' tr h
    unfold privload_process_imports_loop at h
    by_cases h0 : d.d_tag = DT_NULL
    · simp only [h0, if_true, Option.some.injEq, Prod.mk.injEq] at h
      obtain ⟨_, _, rfl⟩ := h
      intro i name dep flag hi
      simp at hi
    · simp only [h0, if_false] at h
      by_cases h1 : d.d_tag = DT_NEEDED
      · simp only [h1, if_true] at h
        cases hl : privload_lookup registry (strtab d.d_val) with
        | some m =>
          rw [hl] at h
          cases hr : privload_process_imports_loop c mod strtab rest registry with
          | none => simp [hr] at h
          | some r =>
            obtain ⟨ok1, reg1, tr1⟩ := r
            simp only [hr, Option.some.injEq, Prod.mk.injEq] at h
            obtain ⟨rfl, rfl, rfl⟩ := h
            intro i name dep flag hi
            rcases i with _ | i
            · simp at hi
            · simp only [List.getElem?_cons_succ] at hi
              obtain ⟨p1, p2⟩ := ih registry ok1 reg1 tr1 hr i name dep flag hi
              refine ⟨by omega, ?_⟩
              obtain ⟨j, rfl⟩ : ∃ j, i = j + 1 := ⟨i - 1, by omega⟩
              simpa using p2
        | none =>
          rw [hl] at h
          rcases hq : privload_locate_and_load c registry (strtab d.d_val) mod with
            ⟨_ | m, regq⟩
          · simp only [hq, Option.some.injEq, Prod.mk.injEq] at h
            obtain ⟨_, _, rfl⟩ := h
            intro i name dep flag hi
            rcases i with _ | _ | i
            · simp at hi
            · simp only [List.getElem?_cons_succ, List.getElem?_cons_zero, Option.some.injEq,
                event.locate_and_load.injEq] at hi
              obtain ⟨rfl, _, _⟩ := hi
              exact ⟨by omega, rfl⟩
            · simp at hi
          · simp only [hq] at h
            cases hr : privload_process_imports_loop c mod strtab rest regq with
            | none => simp [hr] at h
            | some r =>
              obtain ⟨ok1, reg1, tr1⟩ := r
              simp only [hr, Option.some.injEq, Prod.mk.injEq] at h
              obtain ⟨rfl, rfl, rfl⟩ := h
              intro i name dep flag hi
              rcases i with _ | _ | i
              · simp at hi
              · simp only [List.getElem?_cons_succ, List.getElem?_cons_zero, Option.some.injEq,
                  event.locate_and_load.injEq] at hi
                obtain ⟨rfl, _, _⟩ := hi
                exact ⟨by omega, rfl⟩
              · simp only [List.getElem?_cons_succ] at hi
                obtain ⟨p1, p2⟩ := ih regq ok1 reg1 tr1 hr i name dep flag hi
                refine ⟨by omega, ?_⟩
                obtain ⟨j, rfl⟩ : ∃ j, i = j + 1 := ⟨i - 1, by omega⟩
                simpa using p2
      · simp only [h1, if_false] at h
        exact ih registry ok registry' tr h

/-- When every needed name is registered, the loop of
`privload_process_imports` only looks the names up and leaves the registry as it
is. -/
theorem privload_process_imports_loop_all_registered (c : collaborators_t) (mod : privmod_t)
    (strtab : Nat → String) :
    ∀ (dyn : List ELF_DYNAMIC_ENTRY_TYPE) (registry : List privmod_t),
      (∃ e ∈ dyn, e.d_tag = DT_NULL) →
      (∀ name ∈ needed_of strtab dyn, registered registry name = true) →
      privload_process_imports_loop c mod strtab dyn registry =
        some (true, registry, (needed_of strtab dyn).map fun n => event.lookup n true) := by
  intro dyn
  induction dyn with
  | nil => intro registry h; simp at h
  | cons d rest ih =>
    intro registry h hreg
    unfold privload_process_imports_loop
    by_cases h0 : d.d_tag = DT_NULL
    · simp [h0, needed_of]
    · have hrest : ∃ e ∈ rest, e.d_tag = DT_NULL := by
        obtain ⟨e, he, het⟩ := h
        rcases List.mem_cons.mp he with rfl | he'
        · exact absurd het h0
        · exact ⟨e, he', het⟩
      simp only [h0, if_false]
      by_cases h1 : d.d_tag = DT_NEEDED
      · have hn : needed_of strtab (d :: rest) = strtab d.d_val :: needed_of strtab rest := by
          have hne : DT_NEEDED ≠ DT_NULL := by decide
          simp [needed_of, h1, hne]
        rw [hn] at hreg
        have hfirst := hreg (strtab d.d_val) (List.mem_cons_self _ _)
        simp only [registered, Option.isSome_iff_exists] at hfirst
        obtain ⟨m, hm⟩ := hfirst
        simp only [h1, if_true, hm, hn,
          ih registry hrest (fun name hname => hreg name (List.mem_cons_of_mem _ hname)),
          List.map_cons]
      · have hn : needed_of strtab (d :: rest) = needed_of strtab rest := by
          simp [needed_of, h0, h1]
        rw [hn] at hreg ⊢
        simp only [h1, if_false]
        exact ih registry hrest hreg

/-- When loading registers what it loads and removes nothing, the loop of
`privload_process_imports` keeps every registered name registered, never calls
`privload_locate_and_load` for a name that was registered on entry, and calls
it at most once for any name. -/
theorem privload_process_imports_loop_no_reload (c : collaborators_t) (mod : privmod_t)
    (strtab : Nat → String) (hload : loads_register c) :
    ∀ (dyn : List ELF_DYNAMIC_ENTRY_TYPE) (registry : List privmod_t) (ok : Bool)
      (registry' : List privmod_t) (tr : List event),
      privload_process_imports_loop c mod strtab dyn registry = some (ok, registry', tr) →
      (∀ name, registered registry name = true → registered registry' name = true) ∧
      (∀ name, registered registry name = true → name ∉ load_calls tr) ∧
      (load_calls tr).Nodup := by
  intro dyn
  induction dyn with
  | nil => intro registry ok registry' tr h; simp [privload_process_imports_loop] at h
  | cons d rest ih =>
    intro registry ok registry' tr h
    unfold privload_process_imports_loop at h
    by_cases h0 : d.d_tag = DT_NULL
    · simp only [h0, if_true, Option.some.injEq, Prod.mk.injEq] at h
      obtain ⟨_, rfl, rfl⟩ := h
      simp [load_calls]
    · simp only [h0, if_false] at h
      by_cases h1 : d.d_tag = DT_NEEDED
      · simp only [h1, if_true] at h
        cases hl : privload_lookup registry (strtab d.d_val) with
        | some m =>
          rw [hl] at h
          cases hr : privload_process_imports_loop c mod strtab rest registry with
          | none => simp [hr] at h
          | some r =>
            obtain ⟨ok1, reg1, tr1⟩ := r
            simp only [hr, Option.some.injEq, Prod.mk.injEq] at h
            obtain ⟨rfl, rfl, rfl⟩ := h
            obtain ⟨i1, i2, i3⟩ := ih registry ok1 reg1 tr1 hr
            have e : load_calls (event.lookup (strtab d.d_val) true :: tr1) = load_calls tr1 := by
              simp [load_calls]
            rw [e]
            exact ⟨i1, i2, i3⟩
        | none =>
          rw [hl] at h
          have hld := hload registry (strtab d.d_val) mod
          have hnot : ∀ name, registered registry name = true → name ≠ strtab d.d_val := by
            intro name hname hc
            rw [hc] at hname
            simp [registered, hl] at hname
          rcases hq : privload_locate_and_load c registry (strtab d.d_val) mod with
            ⟨_ | m, regq⟩
          · simp only [hq, Option.some.injEq, Prod.mk.injEq] at h
            rw [hq] at hld
            obtain ⟨_, rfl, rfl⟩ := h
            refine ⟨hld.1, fun name hname => ?_, ?_⟩
            · simpa [load_calls] using hnot name hname
            · simp [load_calls]
          · simp only [hq] at h
            rw [hq] at hld
            cases hr : privload_process_imports_loop c mod strtab rest regq with
            | none => simp [hr] at h
            | some r =>
              obtain ⟨ok1, reg1, tr1⟩ := r
              simp only [hr, Option.some.injEq, Prod.mk.injEq] at h
              obtain ⟨rfl, rfl, rfl⟩ := h
              obtain ⟨i1, i2, i3⟩ := ih regq ok1 reg1 tr1 hr
              have e : load_calls (event.lookup (strtab d.d_val) false ::
                  event.locate_and_load (strtab d.d_val) mod true :: tr1) =
                  strtab d.d_val :: load_calls tr1 := by
                simp [load_calls]
              rw [e]
              refine ⟨fun name hname => i1 name (hld.1 name hname), fun name hname => ?_,
                List.nodup_cons.mpr ⟨i2 _ (hld.2 rfl), i3⟩⟩
              simp only [List.mem_cons, not_or]
              exact ⟨hnot name hname, i2 name (hld.1 name hname)⟩
      · simp only [h1, if_false] at h
        exact ih registry ok registry' tr h

/-- The call of `privload_relocate_mod` at the end of a trace adds no call of
`privload_locate_and_load`. -/
theorem load_calls_append_relocate (tr : List event) (mod : privmod_t) (b : Bool) :
    load_calls (tr ++ (if b then [event.relocate_mod mod] else [])) = load_calls tr := by
  cases b <;> simp [load_calls, List.filterMap_append]

/-- C18: when `privload_process_imports(mod)` returns, every call of
`privload_locate_and_load` in its trace comes directly after a
`privload_lookup` of the same name that returned NULL, so a name that the lookup
finds is not loaded.  When every `DT_NEEDED` name is registered,
the function only looks the names up, loads nothing, leaves the registry as it
is and returns true.  When loading registers what it loads and
removes nothing, no name that was registered on entry is passed to
`privload_locate_and_load`, and no name is passed to it twice. -/
theorem privload_process_imports_no_reload (c : collaborators_t) (registry : List privmod_t)
    (mod : privmod_t) :
    ((∃ e ∈ mod.os_privmod_data.dyn, e.d_tag = DT_NULL) →
      (∀ name ∈ needed_names mod, registered registry name = true) →
      privload_process_imports c registry mod =
        some (true, registry,
          ((needed_names mod).map fun n => event.lookup n true) ++
            (if mod.externally_loaded then [] else [event.relocate_mod mod]))) ∧
    (∀ (ok : Bool) (registry' : List privmod_t) (tr : List event),
      privload_process_imports c registry mod = some (ok, registry', tr) →
      (∀ (i : Nat) (name : String) (dep : privmod_t) (flag : Bool),
        tr[i]? = some (event.locate_and_load name dep flag) →
        0 < i ∧ tr[i - 1]? = some (event.lookup name false)) ∧
      (loads_register c →
        (∀ name, registered registry name = true → name ∉ load_calls tr) ∧
        (load_calls tr).Nodup)) := by
  constructor
  · intro hnull hreg
    unfold privload_process_imports
    rw [privload_process_imports_loop_all_registered c mod mod.os_privmod_data.dynstr
      mod.os_privmod_data.dyn registry hnull hreg]
    cases mod.externally_loaded <;> rfl
  · intro ok registry' tr h
    unfold privload_process_imports at h
    cases hr : privload_process_imports_loop c mod mod.os_privmod_data.dynstr
        mod.os_privmod_data.dyn registry with
    | none => simp [hr] at h
    | some r =>
      obtain ⟨ok1, reg1, tr1⟩ := r
      have hshape := privload_process_imports_loop_load_after_lookup c mod
        mod.os_privmod_data.dynstr mod.os_privmod_data.dyn registry ok1 reg1 tr1 hr
      have hno := fun hload => privload_process_imports_loop_no_reload c mod
        mod.os_privmod_data.dynstr hload mod.os_privmod_data.dyn registry ok1 reg1 tr1 hr
      cases ok1 with
      | false =>
        simp only [hr, Option.some.injEq, Prod.mk.injEq] at h
        obtain ⟨rfl, rfl, rfl⟩ := h
        exact ⟨hshape, fun hload => (hno hload).2⟩
      | true =>
        simp only [hr, Option.some.injEq, Prod.mk.injEq] at h
        obtain ⟨rfl, rfl, rfl⟩ := h
        refine ⟨fun i name dep flag hi => ?_, fun hload => ?_⟩
        · have hlt : i < tr1.length := by
            by_contra hge
            rw [List.getElem?_append_right (by omega)] at hi
            cases hext : mod.externally_loaded <;> rw [hext] at hi
            · rcases hk : i - tr1.length with _ | k <;> simp [hk] at hi
            · simp at hi
          rw [List.getElem?_append_left hlt] at hi
          obtain ⟨p1, p2⟩ := hshape i name dep flag hi
          refine ⟨p1, ?_⟩
          rw [List.getElem?_append_left (by omega)]
          exact p2
        · rw [load_calls_append_relocate]
          exact (hno hload).2

/-- C18, witness: the imports of A with C registered and B to be loaded; the
only call of `privload_locate_and_load` is the one for `libB.so`. -/
theorem privload_process_imports_no_reload_witness :
    ∃ registry' tr,
      privload_process_imports example_collaborators [libdynamorio, libC, libA] libA =
        some (true, registry', tr) ∧
      registered [libdynamorio, libC, libA] "libC.so" = true ∧
      "libC.so" ∉ load_calls tr ∧ (load_calls tr).Nodup :=
  ⟨_, _, rfl, by decide, by
    have h := ((privload_process_imports_no_reload example_collaborators
      [libdynamorio, libC, libA] libA).2 true _ _ rfl).2 loads_register_example
    exact ⟨h.1 "libC.so" (by decide), h.2⟩⟩

/-! ### The two VM backends -/

/-- A trace made of two traces uses a backend when both do. -/
theorem uses_backend_append (tracked : Bool) (a b : List vm_event) :
    uses_backend tracked (a ++ b) ↔ uses_backend tracked a ∧ uses_backend tracked b := by
  unfold uses_backend
  constructor
  · intro h
    exact ⟨fun e he => h e (List.mem_append_left _ he), fun e he => h e (List.mem_append_right _ he)⟩
  · intro h e he
    rcases List.mem_append.mp he with he | he
    · exact h.1 e he
    · exact h.2 e he

/-- The calls for one program header go through the backend selected. -/
theorem uses_backend_map_segment (w : vm_world_t) (X64 : Bool) (PAGE_SIZE : Nat) (tracked : Bool)
    (fd : Int) (delta : Int) (prog_hdr : ELF_PROGRAM_HEADER_TYPE) (last_end : Nat) :
    uses_backend tracked (map_segment w X64 PAGE_SIZE tracked fd delta prog_hdr last_end).2 := by
  unfold map_segment
  by_cases h : prog_hdr.p_type = PT_LOAD
  · simp only [h, if_true]
    intro e he
    simp only [List.mem_append, List.mem_cons, List.mem_singleton, List.not_mem_nil,
      or_false] at he
    rcases he with ((he | he) | he) | he
    · split at he
      · simp only [List.mem_singleton] at he
        subst he; right; rfl
      · simp at he
    · rcases he with he | he <;> subst he <;> right <;> rfl
    · split at he
      · simp only [List.mem_singleton] at he
        subst he; left; rfl
      · simp at he
    · subst he; right; rfl
  · simp only [h, if_false]
    intro e he
    simp at he

/-- The calls of the loop over the program headers go through the backend
selected. -/
theorem uses_backend_map_segments_loop (w : vm_world_t) (X64 : Bool) (PAGE_SIZE : Nat)
    (tracked : Bool) (fd : Int) (delta : Int) (file_map : Nat) (elf_hdr : ELF_HEADER_TYPE) :
    ∀ (count i last_end : Nat),
      uses_backend tracked
        (map_segments_loop w X64 PAGE_SIZE tracked fd delta file_map elf_hdr i count last_end).2 := by
  intro count
  induction count with
  | zero => intro i last_end e he; simp [map_segments_loop] at he
  | succ n ih =>
    intro i last_end
    simp only [map_segments_loop]
    exact (uses_backend_append _ _ _).mpr ⟨uses_backend_map_segment _ _ _ _ _ _ _ _, ih _ _⟩

/-- Every call of `privload_unmap_file` is a call of the tracked `unmap_file`. -/
theorem uses_backend_privload_unmap_file (X64 : Bool) (privmod : privmod_t) :
    uses_backend true (privload_unmap_file X64 privmod) := by
  intro e he
  simp only [privload_unmap_file, List.mem_map] at he
  obtain ⟨s, _, rfl⟩ := he
  right; rfl

/-- C21 (amended): inside one call of `privload_map_and_relocate` every map,
unmap and protect goes through the single backend selected by
`dynamo_heap_initialized`.  `privload_unmap_file` unmaps every segment of its
module with the tracked primitive `unmap_file`, whatever backend has mapped the
module; so the calls of the two functions together stay with one backend when
the module was mapped with the heap initialized. -/
theorem privload_map_and_relocate_single_backend (w : vm_world_t) (X64 : Bool) (PAGE_SIZE : Nat)
    (filename : String) (size : Nat) (privmod : privmod_t) :
    uses_backend w.dynamo_heap_initialized
      (privload_map_and_relocate w X64 PAGE_SIZE filename size).2.2 ∧
    (∀ s ∈ privmod.os_privmod_data.segments,
      vm_event.unmap true s.start (to_size_t X64 ((s.end_addr : Int) - s.start)) ∈
        privload_unmap_file X64 privmod) ∧
    uses_backend true (privload_unmap_file X64 privmod) ∧
    (w.dynamo_heap_initialized = true →
      uses_backend true
        ((privload_map_and_relocate w X64 PAGE_SIZE filename size).2.2 ++
          privload_unmap_file X64 privmod)) := by
  have hmap : uses_backend w.dynamo_heap_initialized
      (privload_map_and_relocate w X64 PAGE_SIZE filename size).2.2 := by
    unfold privload_map_and_relocate
    by_cases hfd : w.os_open filename = INVALID_FILE
    · simp only [hfd, if_true]
      intro e he
      simp only [List.mem_singleton] at he
      subst he; left; rfl
    · simp only [hfd, if_false]
      cases hs : w.os_get_file_size_by_handle (w.os_open filename) with
      | none =>
        intro e he
        simp only [List.mem_cons, List.mem_singleton, List.not_mem_nil, or_false] at he
        rcases he with he | he | he <;> subst he <;> left <;> rfl
      | some file_size =>
        have hopened : uses_backend w.dynamo_heap_initialized
            [vm_event.os_open filename (w.os_open filename),
             vm_event.os_get_file_size_by_handle (w.os_open filename) (some file_size),
             vm_event.map w.dynamo_heap_initialized (w.os_open filename)
               (to_size_t X64 file_size) 0 0 MEMPROT_READ true false false
               (map_func w w.dynamo_heap_initialized (w.os_open filename)
                 (to_size_t X64 file_size) 0 0 MEMPROT_READ true false false).1] := by
          intro e he
          simp only [List.mem_cons, List.mem_singleton, List.not_mem_nil, or_false] at he
          rcases he with he | he | he <;> subst he
          · left; rfl
          · left; rfl
          · right; rfl
        have hclose : ∀ fd, uses_backend w.dynamo_heap_initialized [vm_event.os_close fd] := by
          intro fd e he
          simp only [List.mem_singleton] at he
          subst he; left; rfl
        have hunmap : ∀ base sz fd, uses_backend w.dynamo_heap_initialized
            [vm_event.unmap w.dynamo_heap_initialized base sz, vm_event.os_close fd] := by
          intro base sz fd e he
          simp only [List.mem_cons, List.mem_singleton, List.not_mem_nil, or_false] at he
          rcases he with he | he <;> subst he
          · right; rfl
          · left; rfl
        simp only []
        split
        · exact (uses_backend_append _ _ _).mpr ⟨hopened, hclose _⟩
        · split
          · exact (uses_backend_append _ _ _).mpr ⟨hopened, hunmap _ _ _⟩
          · refine (uses_backend_append _ _ _).mpr ⟨(uses_backend_append _ _ _).mpr
              ⟨(uses_backend_append _ _ _).mpr ⟨hopened, ?_⟩,
                uses_backend_map_segments_loop _ _ _ _ _ _ _ _ _ _ _⟩, hunmap _ _ _⟩
            intro e he
            simp only [List.mem_singleton] at he
            subst he; right; rfl
  refine ⟨hmap, fun s hs => List.mem_map.mpr ⟨s, hs, rfl⟩,
    uses_backend_privload_unmap_file X64 privmod, fun h => ?_⟩
  rw [h] at hmap
  exact (uses_backend_append _ _ _).mpr ⟨hmap, uses_backend_privload_unmap_file X64 privmod⟩

/-- C21, witness: the example library mapped with the heap initialized and
unmapped by `privload_unmap_file`; every call is a call of a tracked primitive. -/
theorem privload_map_and_relocate_single_backend_witness :
    uses_backend true
      ((privload_map_and_relocate example_world true 0x1000 "/usr/lib/libx.so" 0).2.2 ++
        privload_unmap_file true libx) :=
  (privload_map_and_relocate_single_backend example_world true 0x1000 "/usr/lib/libx.so" 0
    libx).2.2.2 rfl

/-- C21, counterexample: the example library is mapped before the heap is
initialized, so its two segments are mapped at `0x20000` and `0x22000` with
`os_map_file` and protected with `os_set_protection`;
`privload_unmap_file` then unmaps the two segments `[0x20000, 0x22000)` and
`[0x22000, 0x25000)` with the tracked `unmap_file`. -/
theorem privload_unmap_file_after_early_map :
    early_world.dynamo_heap_initialized = false ∧
    vm_event.map false 3 0x2000 0 0x20000 7 true true true 0x20000 ∈
      (privload_map_and_relocate early_world true 0x1000 "/usr/lib/libx.so" 0).2.2 ∧
    vm_event.map false 3 0x1000 0x1000 0x22000 6 true true true 0x22000 ∈
      (privload_map_and_relocate early_world true 0x1000 "/usr/lib/libx.so" 0).2.2 ∧
    vm_event.protect false 0x20000 0x2000 5 ∈
      (privload_map_and_relocate early_world true 0x1000 "/usr/lib/libx.so" 0).2.2 ∧
    vm_event.protect false 0x22000 0x3000 6 ∈
      (privload_map_and_relocate early_world true 0x1000 "/usr/lib/libx.so" 0).2.2 ∧
    privload_unmap_file true libx =
      [vm_event.unmap true 0x20000 0x2000, vm_event.unmap true 0x22000 0x3000] ∧
    (∀ tracked : Bool,
      ¬ uses_backend tracked
        ((privload_map_and_relocate early_world true 0x1000 "/usr/lib/libx.so" 0).2.2 ++
          privload_unmap_file true libx)) := by
  refine ⟨rfl, by decide, by decide, by decide, by decide, by decide, by decide⟩

/-! ### Alignment of the static TLS blocks -/

/-- One step of the recurrence gives an offset that, with `tls_first_byte`
added, is a multiple of the alignment. -/
theorem spec_offset_step_aligned (offset : Nat) (opd : os_privmod_data_t)
    (ha : 1 ≤ opd.tls_align) :
    (spec_offset_step offset opd + opd.tls_first_byte) % opd.tls_align = 0 := by
  unfold spec_offset_step spec_first_byte
  have hr := Nat.mod_lt opd.tls_first_byte (show 0 < opd.tls_align by omega)
  have hd := Nat.div_add_mod opd.tls_first_byte opd.tls_align
  generalize (offset + opd.tls_block_size +
    (opd.tls_align - opd.tls_first_byte % opd.tls_align) % opd.tls_align +
    (opd.tls_align - 1)) / opd.tls_align = q
  have e : (opd.tls_align - opd.tls_first_byte % opd.tls_align) % opd.tls_align +
      q * opd.tls_align + opd.tls_first_byte =
      ((opd.tls_align - opd.tls_first_byte % opd.tls_align) % opd.tls_align +
        opd.tls_first_byte) + q * opd.tls_align := by omega
  rw [e, Nat.add_mul_mod_self_right]
  by_cases h0 : opd.tls_first_byte % opd.tls_align = 0
  · rw [h0, Nat.sub_zero, Nat.mod_self, Nat.zero_add, h0]
  · rw [Nat.mod_eq_of_lt (by omega : opd.tls_align - opd.tls_first_byte % opd.tls_align <
      opd.tls_align)]
    have e2 : opd.tls_align - opd.tls_first_byte % opd.tls_align + opd.tls_first_byte =
        opd.tls_align * (opd.tls_first_byte / opd.tls_align + 1) := by
      rw [Nat.mul_add, Nat.mul_one]; omega
    rw [e2, Nat.mul_mod_right]

/-- The offset that the recurrence assigns to the module at index `n` is one
step of the recurrence from an offset that is not below the start value. -/
theorem spec_tls_offsets_step (l : List privmod_t) :
    ∀ (offset n : Nat) (m : privmod_t), (∀ m' ∈ l, 1 ≤ m'.os_privmod_data.tls_align) →
      l[n]? = some m →
      ∃ prev, offset ≤ prev ∧
        (spec_tls_offsets offset l).getD n 0 = spec_offset_step prev m.os_privmod_data := by
  induction l with
  | nil => intro offset n m _ h; simp at h
  | cons m0 rest ih =>
    intro offset n m hal h
    cases n with
    | zero =>
      simp only [List.getElem?_cons_zero, Option.some.injEq] at h
      subst h
      exact ⟨offset, Nat.le_refl _, by simp [spec_tls_offsets]⟩
    | succ n =>
      simp only [List.getElem?_cons_succ] at h
      have hm := spec_offset_step_ge offset m0.os_privmod_data (hal m0 (List.mem_cons_self _ _))
      obtain ⟨prev, h1, h2⟩ := ih (spec_offset_step offset m0.os_privmod_data) n m
        (fun m' hm' => hal m' (List.mem_cons_of_mem _ hm')) h
      exact ⟨prev, by omega, by simpa [spec_tls_offsets] using h2⟩

/-- With the private loader enabled, power-of-two alignments and offsets of
the recurrence below `2 ^ 31`, the entries of `offs` are the offsets of the
recurrence. -/
theorem privload_set_tls_offset_offs (o : options_t) (max_client_tls_size : Nat)
    (t : tls_info_t)
    (hon : o.CLIENT_INTERFACE = true ∧ o.private_loader = true)
    (hpow : ∀ m ∈ t.mods, ∃ k, m.os_privmod_data.tls_align = 2 ^ k)
    (hfit : ∀ x ∈ spec_tls_offsets APP_LIBC_TLS_SIZE t.mods, x < 2 ^ 31)
    (i : Nat) (hi : i < t.mods.length) :
    (privload_set_tls_offset o max_client_tls_size t).2.offs i =
      ((spec_tls_offsets APP_LIBC_TLS_SIZE t.mods).getD i 0 : Nat) ∧
    (privload_set_tls_offset o max_client_tls_size t).2.mods = t.mods ∧
    (spec_tls_offsets APP_LIBC_TLS_SIZE t.mods).getD i 0 < 2 ^ 31 := by
  obtain ⟨hci, hpl⟩ := hon
  have hlen := spec_tls_offsets_length t.mods APP_LIBC_TLS_SIZE
  have hloop := privload_set_tls_offset_loop_spec o.X64 t.mods 0 APP_LIBC_TLS_SIZE t.offs
    (by decide) hpow (fun x hx => by have := hfit x hx; omega)
  have hmem : (spec_tls_offsets APP_LIBC_TLS_SIZE t.mods).getD i 0 ∈
      spec_tls_offsets APP_LIBC_TLS_SIZE t.mods := by
    rw [List.getD_eq_getElem _ _ (by omega)]
    exact List.getElem_mem _
  have h1 := hloop.1 i hi
  rw [Nat.zero_add] at h1
  refine ⟨?_, ?_, hfit _ hmem⟩
  · simp only [privload_set_tls_offset, hci, hpl, Bool.not_true, if_true, Bool.false_eq_true,
      if_false]
    rw [h1, to_int_of_small _ (hfit _ hmem)]
  · simp only [privload_set_tls_offset, hci, hpl, Bool.not_true, if_true, Bool.false_eq_true,
      if_false]

/-- C22 (amended): with the private loader enabled, every `tls_align` a power of
two and every offset of the recurrence below `2 ^ 31`, the offset that
`privload_set_tls_offset` assigns to a TLS module `i` satisfies
`(offs[i] + tls_first_byte_i) mod tls_align_i = 0` and
`offs[i] >= 0x100 + tls_block_size_i`; hence for a thread pointer `tp` that is a
multiple of `tls_align_i` the block start `tp - offs[i]` is congruent to
`tls_first_byte_i` modulo `tls_align_i`, as an integer and as a machine pointer,
and the block of the module lies wholly below the `0x100` bytes
`[tp - 0x100, tp)` reserved for the application's libc TLS. -/
theorem privload_set_tls_offset_aligned_blocks (o : options_t) (max_client_tls_size : Nat)
    (t : tls_info_t)
    (hon : o.CLIENT_INTERFACE = true ∧ o.private_loader = true)
    (hpow : ∀ m ∈ t.mods, ∃ k, m.os_privmod_data.tls_align = 2 ^ k)
    (hfit : ∀ x ∈ spec_tls_offsets APP_LIBC_TLS_SIZE t.mods, x < 2 ^ 31)
    (i : Nat) (m : privmod_t) (hm : t.mods[i]? = some m) :
    ((privload_set_tls_offset o max_client_tls_size t).2.offs i +
        (m.os_privmod_data.tls_first_byte : Int)) % (m.os_privmod_data.tls_align : Int) = 0 ∧
    (0x100 : Int) + (m.os_privmod_data.tls_block_size : Int) ≤
      (privload_set_tls_offset o max_client_tls_size t).2.offs i ∧
    (∀ tp : Int, tp % (m.os_privmod_data.tls_align : Int) = 0 →
      (tp - (privload_set_tls_offset o max_client_tls_size t).2.offs i) %
          (m.os_privmod_data.tls_align : Int) =
        (m.os_privmod_data.tls_first_byte : Int) % (m.os_privmod_data.tls_align : Int)) ∧
    (∀ tp : Nat, tp % m.os_privmod_data.tls_align = 0 →
      tls_block_byte o.X64 (privload_set_tls_offset o max_client_tls_size t).2 tp i 0 %
          m.os_privmod_data.tls_align =
        m.os_privmod_data.tls_first_byte % m.os_privmod_data.tls_align) ∧
    (∀ tp a : Int,
      in_tls_block (privload_set_tls_offset o max_client_tls_size t).2 tp i a →
      a < tp - 0x100) := by
  have hi : i < t.mods.length := by
    rcases Nat.lt_or_ge i t.mods.length with h | h
    · exact h
    · rw [List.getElem?_eq_none h] at hm; cases hm
  have hmm : m ∈ t.mods := List.getElem?_mem hm
  have hal : ∀ m' ∈ t.mods, 1 ≤ m'.os_privmod_data.tls_align := by
    intro m' hm'
    obtain ⟨k, hk⟩ := hpow m' hm'
    rw [hk]; exact Nat.one_le_two_pow
  obtain ⟨hoffs, hmods, hlt⟩ := privload_set_tls_offset_offs o max_client_tls_size t hon hpow hfit
    i hi
  obtain ⟨prev, hprev, hstep⟩ := spec_tls_offsets_step t.mods APP_LIBC_TLS_SIZE i m hal hm
  have hge := spec_offset_step_ge prev m.os_privmod_data (hal m hmm)
  have halign := spec_offset_step_aligned prev m.os_privmod_data (hal m hmm)
  have hale := align_le_spec_offset_step prev m.os_privmod_data (hal m hmm)
    (by unfold APP_LIBC_TLS_SIZE at hprev; omega)
  rw [← hstep] at hge halign hale
  obtain ⟨k, hk⟩ := hpow m hmm
  have h100 : APP_LIBC_TLS_SIZE = 0x100 := rfl
  generalize hO : (spec_tls_offsets APP_LIBC_TLS_SIZE t.mods).getD i 0 = O at *
  have hk31 : k ≤ 31 := by
    by_contra hc
    have : 2 ^ 32 ≤ 2 ^ k := Nat.pow_le_pow_right (by norm_num) (by omega)
    rw [hk] at hale
    omega
  have hdvd : (m.os_privmod_data.tls_align : Int) ∣ (O : Int) + m.os_privmod_data.tls_first_byte := by
    have : m.os_privmod_data.tls_align ∣ O + m.os_privmod_data.tls_first_byte :=
      Nat.dvd_of_mod_eq_zero halign
    exact_mod_cast this
  have hcong : ∀ tp : Int, tp % (m.os_privmod_data.tls_align : Int) = 0 →
      (tp - (O : Int)) % (m.os_privmod_data.tls_align : Int) =
        (m.os_privmod_data.tls_first_byte : Int) % (m.os_privmod_data.tls_align : Int) := by
    intro tp htp
    obtain ⟨c, hc⟩ := Int.dvd_of_emod_eq_zero htp
    obtain ⟨d, hd⟩ := hdvd
    have e : tp - (O : Int) = (m.os_privmod_data.tls_first_byte : Int) +
        (m.os_privmod_data.tls_align : Int) * (c - d) := by
      rw [mul_sub, ← hc, ← hd]; ring
    rw [e, Int.add_mul_emod_self_left]
  rw [hoffs]
  refine ⟨Int.emod_eq_zero_of_dvd hdvd, by omega, hcong, fun tp htp => ?_, fun tp a ha => ?_⟩
  · unfold tls_block_byte to_size_t
    rw [hoffs]
    have hW : (m.os_privmod_data.tls_align : Int) ∣ (2 : Int) ^ ptr_bits o.X64 := by
      rw [hk]
      have h32 := two_pow_32_le_ptr o.X64
      have hkW : k ≤ ptr_bits o.X64 := by
        by_contra hc
        have : 2 ^ ptr_bits o.X64 < 2 ^ k := Nat.pow_lt_pow_right (by norm_num) (by omega)
        have : 2 ^ 32 ≤ 2 ^ k := by omega
        have : 2 ^ k ≤ 2 ^ 31 := Nat.pow_le_pow_right (by norm_num) hk31
        omega
      push_cast
      exact pow_dvd_pow 2 hkW
    have hnn := Int.emod_nonneg ((tp : Int) - (O : Int) + ((0 : Nat) : Int))
      (show ((2 : Int) ^ ptr_bits o.X64) ≠ 0 by positivity)
    apply Int.ofNat_inj.mp
    simp only [Int.ofNat_eq_coe, Int.natCast_mod, Int.toNat_of_nonneg hnn]
    rw [Int.emod_emod_of_dvd _ hW]
    simp only [Nat.cast_zero, add_zero]
    exact hcong tp (by exact_mod_cast congrArg (Nat.cast : Nat → Int) htp)
  · unfold in_tls_block at ha
    have hbs : tls_block_size_of (privload_set_tls_offset o max_client_tls_size t).2 i =
        m.os_privmod_data.tls_block_size := by
      unfold tls_block_size_of
      rw [hmods, hm]
    rw [hbs, hoffs] at ha
    omega

/-- C22, witness: the fourth example module, with alignment 64 and
`tls_first_byte = 63`. -/
theorem privload_set_tls_offset_aligned_blocks_witness :
    ((privload_set_tls_offset example_options 4096 example_tls_info).2.offs 3 +
        ((tls_module "libd.so" 24 64 63).os_privmod_data.tls_first_byte : Int)) %
      ((tls_module "libd.so" 24 64 63).os_privmod_data.tls_align : Int) = 0 ∧
    (0x100 : Int) + ((tls_module "libd.so" 24 64 63).os_privmod_data.tls_block_size : Int) ≤
      (privload_set_tls_offset example_options 4096 example_tls_info).2.offs 3 :=
  have h := privload_set_tls_offset_aligned_blocks example_options 4096 example_tls_info
    ⟨rfl, rfl⟩
    (by
      intro m hm
      simp only [example_tls_info, List.mem_cons, List.mem_singleton, List.not_mem_nil,
        or_false] at hm
      rcases hm with rfl | rfl | rfl | rfl
      · exact ⟨3, rfl⟩
      · exact ⟨4, rfl⟩
      · exact ⟨0, rfl⟩
      · exact ⟨6, rfl⟩)
    (by decide) 3 (tls_module "libd.so" 24 64 63) rfl
  ⟨h.1, h.2.1⟩

/-- C22, counterexample: five modules with power-of-two alignments, the first
with an 8-byte block and four with blocks of 1 GiB, in the 64-bit build.  The
last module has alignment 1 and `offs[4] = 0x108`, which is less than
`0x100 + tls_block_size = 0x40000100`, and its block `[tp - 0x108, tp - 0x108 +
0x40000000)` holds `tp - 0x100`, the first of the `0x100` bytes reserved below
`tp`; `offs[2]` is negative, so the block of module 2 starts above `tp`. -/
theorem privload_set_tls_offset_reserved_overlap :
    (∀ m ∈ wrapping_tls_info.mods,
      m.os_privmod_data.tls_align = 2 ^ 3 ∨ m.os_privmod_data.tls_align = 2 ^ 0) ∧
    wrapping_tls_info.mods[4]? = some (tls_module "libe.so" 0x40000000 1 0) ∧
    (privload_set_tls_offset example_options 4096 wrapping_tls_info).2.offs 4 <
      0x100 + ((tls_module "libe.so" 0x40000000 1 0).os_privmod_data.tls_block_size : Int) ∧
    in_tls_block (privload_set_tls_offset example_options 4096 wrapping_tls_info).2
      0x7f0000000000 4 (0x7f0000000000 - 0x100) ∧
    (privload_set_tls_offset example_options 4096 wrapping_tls_info).2.offs 2 < 0 := by
  refine ⟨by decide, rfl, ?_, ?_, ?_⟩ <;>
    simp [privload_set_tls_offset, example_options, wrapping_tls_info, tls_module,
      privload_set_tls_offset_loop, tls_offset_step, tls_first_byte_pad, to_int, to_size_t,
      ALIGN_FORWARD, neg_uint, sub_uint, ptr_bits, APP_LIBC_TLS_SIZE, Function.update,
      in_tls_block, tls_block_size_of]

end loader
